import Mathlib

/-!
# CheddarConsole: the console dispatcher and the ASCII renderer

A shallow embedding of `src/view/js/console.js`.

* JavaScript strings are lists of characters (`Str`). A character here is a Unicode scalar
  value, where JavaScript counts UTF-16 code units; no definition below depends on the
  difference.
* JavaScript numbers are rationals, a finite IEEE double being one: `Math.round x` is
  `⌊x + 1/2⌋`. The pixel loop, the row count of the renderer, the collision test of the interest
  galaxy and the percentage of the skill bars are computed in double arithmetic, every
  operation rounded by `Binary64`. The formulas of the luminance and of the ramp index are
  given over exact numbers as well, as a specification writes them.
* The browser (image decoding, canvas scaling, font metrics, `Math.random`, the other scripts of
  the page) is an explicit environment value `Env`; the page state the console reads and writes
  is an explicit `State`.
-/

set_option autoImplicit false
set_option linter.unusedVariables false

/-! # Binary64: the arithmetic of JavaScript numbers

A finite JavaScript number is an IEEE 754 binary64 value, which is a rational number. The
operations below compute the exact rational result and round it to the nearest binary64 value,
ties to the even significand, with gradual underflow. Overflow to `Infinity` is outside the
model: the exponent is unbounded above. -/

namespace Binary64

/-- The power `2 ^ z` for an integer exponent. -/
def pow2 (z : ℤ) : ℚ :=
  if 0 ≤ z then ((2 ^ z.toNat : ℕ) : ℚ) else 1 / ((2 ^ (-z).toNat : ℕ) : ℚ)

/-- The number of binary digits of `n`, computed with `fuel` halvings at most. -/
def bitLengthAux : ℕ → ℕ → ℕ
  | 0, _ => 0
  | fuel + 1, n => if n = 0 then 0 else bitLengthAux fuel (n / 2) + 1

/-- The number of binary digits of `n`: 0 for 0, and `k` when `2 ^ (k - 1) ≤ n < 2 ^ k`. -/
def bitLength (n : ℕ) : ℕ := bitLengthAux n n

/-- The binary exponent of a non-zero rational `x`: the integer `e` with
`2 ^ e ≤ |x| < 2 ^ (e + 1)`. -/
def exponent (x : ℚ) : ℤ :=
  let k : ℤ := (bitLength x.num.natAbs : ℤ) - (bitLength x.den : ℤ)
  if pow2 k ≤ |x| then k else k - 1

/-- The nearest integer, ties to the even one. -/
def roundTiesEven (m : ℚ) : ℤ :=
  let f : ℤ := ⌊m⌋
  let r : ℚ := m - (f : ℚ)
  if r < 1 / 2 then f
  else if 1 / 2 < r then f + 1
  else if f % 2 = 0 then f
  else f + 1

/-- The distance between neighbouring binary64 values in the binade of `x`: the significand has
53 binary digits, and below `2 ^ (-1022)` the spacing stays `2 ^ (-1074)`. -/
def ulp (x : ℚ) : ℚ := pow2 (max (exponent x) (-1022) - 52)

/-- The binary64 value nearest to `x`, ties to even. -/
def round (x : ℚ) : ℚ :=
  if x = 0 then 0 else ((roundTiesEven (x / ulp x) : ℤ) : ℚ) * ulp x

/-- The operator `a + b` on numbers. -/
def add (a b : ℚ) : ℚ := round (a + b)

/-- The operator `a - b` on numbers. -/
def sub (a b : ℚ) : ℚ := round (a - b)

/-- The operator `a * b` on numbers. -/
def mul (a b : ℚ) : ℚ := round (a * b)

/-- The operator `a / b` on numbers, for a divisor that is not zero. -/
def div (a b : ℚ) : ℚ := round (a / b)

/-- The integer square root by binary search: `r` is the part found so far and `k` counts the
binary digits still to decide. -/
def isqrtAux (y : ℕ) : ℕ → ℕ → ℕ
  | 0, r => r
  | k + 1, r => isqrtAux y k (if (r + 2 ^ k) * (r + 2 ^ k) ≤ y then r + 2 ^ k else r)

/-- The integer square root: the `m` with `m * m ≤ y < (m + 1) * (m + 1)`. -/
def isqrt (y : ℕ) : ℕ := isqrtAux y (bitLength y) 0

/-- `Math.sqrt(x)` for `x ≥ 0`: the binary64 value nearest to the square root of `x`, ties to
even. The significand `r` of the result is found by comparing `x`, scaled by the square of the
spacing `q` at the square root, with the square of the midpoint between two neighbouring
significands. For negative `x` JavaScript returns `NaN`; the value 0 stands in for it here. -/
def sqrt (x : ℚ) : ℚ :=
  if x ≤ 0 then 0
  else
    let q : ℚ := pow2 (exponent x / 2 - 52)
    let y : ℚ := x / (q * q)
    let m : ℕ := isqrt ⌊y⌋.toNat
    let mid : ℚ := ((m : ℚ) + 1 / 2) * ((m : ℚ) + 1 / 2)
    let r : ℕ := if y < mid then m else if mid < y then m + 1 else if m % 2 = 0 then m else m + 1
    (r : ℚ) * q

end Binary64

namespace CheddarConsole

/-- A JavaScript string value. -/
abbrev Str := List Char

/-! ## Configuration and constants (console.js 11-27) -/

/-- The `config` object of the console. -/
structure Config where
  toggleKey : Str
  autoOpen : Bool
  sessionKey : Str
  asciiCacheSmall : Str
  asciiCacheBig : Str
  deriving DecidableEq, Repr

/-- The literal `config` of console.js 11-17. `init` is called by the page only with
`{ autoOpen: true }`, which leaves the two cache keys as written here. -/
def config : Config :=
  { toggleKey := "~".toList
    autoOpen := false
    sessionKey := "console_seen".toList
    asciiCacheSmall := "cheddar_ascii_small_v1".toList
    asciiCacheBig := "cheddar_ascii_big_v1".toList }

/-- The luminance ramp `RAMP` (console.js 27), darkest glyph first. -/
def RAMP : Str :=
  " .\x27\x60^\",:;Il!i~+_-?][\x7d\x7b1)(|\\/tfjrxnuvczXYUJCLQ0OZmwqpdbkhao*#MW&8%B@".toList

/-! ## JavaScript built-ins used by the renderer -/

/-- `Math.round`: the nearest integer, ties towards plus infinity. -/
def Math.round (x : ℚ) : ℤ := ⌊x + 1 / 2⌋

/-- `RAMP[i]` for a numeric index: `none` stands for `undefined` (index out of range). -/
def rampAt (i : ℤ) : Option Char :=
  if 0 ≤ i then RAMP[i.toNat]? else none

/-- The text appended by `row += v` when `v` is `undefined`. -/
def undefinedText : Str := "undefined".toList

/-! ## The pixel loop (console.js 607-617 and, verbatim again, 660-670) -/

/-- The formula of line 613 / 666 over exact numbers:
`L = (0.2126 * r + 0.7152 * g + 0.0722 * b) / 255`. -/
def luminance (r g b : ℕ) : ℚ :=
  (0.2126 * (r : ℚ) + 0.7152 * (g : ℚ) + 0.0722 * (b : ℚ)) / 255

/-- The index expression of line 614 / 667 over exact numbers:
`Math.min(RAMP.length - 1, Math.round(L * (RAMP.length - 1)))`. -/
def rampIndex (L : ℚ) : ℤ :=
  min ((RAMP.length : ℤ) - 1) (Math.round (L * ((RAMP.length : ℚ) - 1)))

/-- Line 613 / 666 as the code computes it:
`L = (0.2126 * r + 0.7152 * g + 0.0722 * b) / 255` in double arithmetic. Each literal is the
binary64 value nearest to it, and the three products, the two sums (from the left) and the
quotient are rounded one after the other. -/
def luminance64 (r g b : ℕ) : ℚ :=
  Binary64.div
    (Binary64.add
      (Binary64.add (Binary64.mul (Binary64.round 0.2126) (r : ℚ))
        (Binary64.mul (Binary64.round 0.7152) (g : ℚ)))
      (Binary64.mul (Binary64.round 0.0722) (b : ℚ)))
    255

/-- Line 614 / 667 as the code computes it:
`Math.min(RAMP.length - 1, Math.round(L * (RAMP.length - 1)))` with the product rounded to
binary64; `Math.round` and `Math.min` are exact. -/
def rampIndex64 (L : ℚ) : ℤ :=
  min ((RAMP.length : ℤ) - 1) (Math.round (Binary64.mul L ((RAMP.length : ℚ) - 1)))

/-- What `row += RAMP[i]` appends: the character, or the text `undefined`. -/
def rampText (i : ℤ) : Str :=
  match rampAt i with
  | some c => [c]
  | none => undefinedText

/-- Lines 611-614 for one pixel: read `data[i]`, `data[i+1]`, `data[i+2]`, compute the
luminance and return what `row +=` appends. A channel read past the end of `data` is
`undefined`, the arithmetic turns it into `NaN`, `RAMP[NaN]` is `undefined`, and the
concatenation appends the text `undefined`. -/
def pixelText (data : List ℕ) (i : ℕ) : Str :=
  match data[i]?, data[i + 1]?, data[i + 2]? with
  | some r, some g, some b => rampText (rampIndex64 (luminance64 r g b))
  | _, _, _ => undefinedText

/-- The inner loop `for (x = 0; x < targetW; x++)` of row `y`, with `i = (y * targetW + x) * 4`. -/
def rasterRow (data : List ℕ) (targetW y : ℕ) : Str :=
  (List.range targetW).foldl (fun row x => row ++ pixelText data ((y * targetW + x) * 4)) []

/-- The outer loop `for (y = 0; y < targetH; y++)` with `out += row + newline`. -/
def rasterLoop (data : List ℕ) (targetW targetH : ℕ) : Str :=
  (List.range targetH).foldl (fun out y => out ++ (rasterRow data targetW y ++ ['\n'])) []

/-! ## JavaScript string built-ins used by the dispatcher -/

/-- The characters matched by the regular expression class `\s`, which are also the ones
`String.prototype.trim` removes: WhiteSpace and LineTerminator of ECMAScript. -/
def isWhiteSpace (c : Char) : Bool :=
  let n := c.toNat
  n = 0x09 || n = 0x0A || n = 0x0B || n = 0x0C || n = 0x0D || n = 0x20 || n = 0xA0 ||
  n = 0x1680 || (0x2000 ≤ n && n ≤ 0x200A) || n = 0x2028 || n = 0x2029 || n = 0x202F ||
  n = 0x205F || n = 0x3000 || n = 0xFEFF

/-- `s.trim()`. -/
def trim (s : Str) : Str :=
  ((s.dropWhile isWhiteSpace).reverse.dropWhile isWhiteSpace).reverse

/-- The scan behind `s.split(/\s+/)`: `cur` is the piece being read and `inRun` says that the
previous character belonged to a separator that has already closed a piece. -/
def splitAux : Str → Str → Bool → List Str
  | [], cur, _ => [cur]
  | c :: cs, cur, inRun =>
    if isWhiteSpace c then
      if inRun then splitAux cs cur true else cur :: splitAux cs [] true
    else splitAux cs (cur ++ [c]) false

/-- `s.split(/\s+/)`: the pieces between maximal runs of white space; a leading or trailing
run yields an empty piece, and the empty string yields one empty piece. -/
def splitWhiteSpace (s : Str) : List Str := splitAux s [] false

/-- `tokenize` (console.js 1246-1248): `s.trim().split(/\s+/)`. -/
def tokenize (s : Str) : List Str := splitWhiteSpace (trim s)

/-- `String.prototype.toLowerCase` on one character, as far as a comparison with text made of
ASCII letters can see it: `A`-`Z` go to `a`-`z`, KELVIN SIGN (U+212A) goes to `k`, and
U+0130 goes to `i` followed by U+0307. These are the only characters whose lower-case form
contains an ASCII character without being the character itself. Any other character is kept;
JavaScript may map it to another character outside ASCII. -/
def toLowerCaseChar (c : Char) : Str :=
  if c.isUpper then [c.toLower]
  else if c.toNat = 0x212A then ['k']
  else if c.toNat = 0x0130 then ['i', Char.ofNat 0x0307]
  else [c]

/-- `s.toLowerCase()`, see `toLowerCaseChar`. -/
def toLowerCase (s : Str) : Str := s.flatMap toLowerCaseChar

/-- The replacement function of `escapeHtml` (console.js 1243) on one character. -/
def escapeChar (c : Char) : Str :=
  if c = '&' then "&amp;".toList
  else if c = '<' then "&lt;".toList
  else if c = '>' then "&gt;".toList
  else if c = '"' then "&quot;".toList
  else if c = Char.ofNat 39 then "&#39;".toList
  else [c]

/-- `escapeHtml` (console.js 1242-1244): every `&`, `<`, `>`, double quote and apostrophe is
replaced by its entity. -/
def escapeHtml (s : Str) : Str := s.flatMap escapeChar

/-! ## Web storage -/

/-- A `Storage` object (`sessionStorage`, `localStorage`): keys with their values. The order
of the keys is left to the browser by the Web Storage standard. -/
abbrev Storage := List (Str × Str)

/-- `storage.getItem(key)`; `none` is `null`. -/
def getItem (st : Storage) (key : Str) : Option Str :=
  (st.find? (fun p => p.1 = key)).map (fun p => p.2)

/-- `storage.removeItem(key)`. -/
def removeItem (st : Storage) (key : Str) : Storage :=
  st.filter (fun p => p.1 ≠ key)

/-- `storage.setItem(key, value)`. -/
def setItem (st : Storage) (key value : Str) : Storage :=
  removeItem st key ++ [(key, value)]

/-! ## The page state and the browser environment -/

/-- The element kinds the console appends to its log. -/
inductive Tag
  | div
  | pre
  deriving DecidableEq, Repr

/-- One child of the log element `#cheddarConsoleOut`: a `div` whose `innerHTML` was set to
`content` (by `println`) or a `pre` whose `textContent` was set to `content` (by `printPre`). -/
structure LogEntry where
  tag : Tag
  className : Str
  content : Str
  deriving DecidableEq, Repr

/-- Calls that leave the dispatcher: the renderer entry points (recorded so that a call
counter can be read off the trace) and the functions of the page whose effect is outside
`State`. -/
inductive Call
  | imageToAscii (src : Str) (width : ℕ) (invert : Bool)
  | emojiToAscii (emoji : Str) (width : ℕ)
  | matrixRainStart
  | activateGodMode
  | animateKairi
  | showModeNotification (message color : Str)
  | windowOpen (url target : Str)
  | injectDoomStyles
  | loadJsDosLibrary
  | loadJsDosCSS
  | dosRun
  deriving DecidableEq, Repr

/-- The part of the page the console reads and writes. -/
structure State where
  /-- The children of `#cheddarConsoleOut`, oldest first. -/
  out : List LogEntry
  sessionStorage : Storage
  localStorage : Storage
  /-- The body carries the class `dark-mode`. -/
  darkMode : Bool
  /-- The body carries the class `dream-mode`. -/
  dreamMode : Bool
  /-- Field `state.history`. -/
  history : List Str
  /-- Field `state.histIdx`. -/
  histIdx : ℤ
  /-- Field `state.isOpen`. -/
  isOpen : Bool
  /-- An element with id `kairi-pet` exists. -/
  kairiPet : Bool
  /-- An element with id `doom-overlay` exists. -/
  doomOverlay : Bool
  /-- The trace of outgoing calls, oldest first. -/
  calls : List Call
  deriving DecidableEq, Repr

/-- The state of a fresh browsing session before `init`. -/
def State.initial : State :=
  { out := [], sessionStorage := [], localStorage := [], darkMode := false, dreamMode := false,
    history := [], histIdx := -1, isOpen := false, kairiPet := false, doomOverlay := false,
    calls := [] }

/-- A pixel source that a canvas can scale: `sample w h i` is the byte `data[i]` that
`getImageData(0, 0, w, h)` returns after `drawImage(source, 0, 0, w, h)`. -/
structure Bitmap where
  width : ℕ
  height : ℕ
  sample : ℕ → ℕ → ℕ → ℕ

/-- The settlement of a promise: `rejected err` carries `String(err)`, and `pending` is a
promise that never settles. -/
inductive Outcome (α : Type)
  | resolved (value : α)
  | rejected (err : Str)
  | pending
  deriving DecidableEq, Repr

/-- What the browser contributes to one dispatched command. -/
structure Env where
  /-- The value of `Math.random()`. -/
  random : ℚ
  /-- The result `charW` of `measureCharBox`. -/
  charW : ℚ
  /-- The result `charH` of `measureCharBox`. -/
  charH : ℚ
  /-- Decoding of an image by its path: `none` fires `onerror`. -/
  loadImage : Str → Option Bitmap
  /-- The 512 x 512 canvas on which `emojiToAscii` draws the glyph; an error is an exception
  thrown by the canvas calls, given as `String(err)`. -/
  drawGlyph : Str → Except Str Bitmap
  /-- The text `String(err)` of the exception `getImageData` throws for an empty rectangle. -/
  indexSizeError : Str
  /-- The global `window.MatrixRain` is set. -/
  matrixRain : Bool
  /-- The global `window.SkillsRenderer.activateGodMode` is a function. -/
  skillsRenderer : Bool
  /-- The global `window.Dos` is set. -/
  windowDos : Bool
  /-- The global `window.emulators` is set. -/
  windowEmulators : Bool
  /-- The js-dos script loads (`onload`) rather than fails (`onerror`). -/
  jsDosScript : Bool
  /-- The outcome of `window.Dos(...)` and `dos.run(...)`; an error is
  `String(err.message || err)`. -/
  dosRun : Except Str Unit

/-! ## Output helpers (console.js 698-716) -/

/-- `println(html, className)`; an omitted `className` is the empty string. -/
def println (html className : Str) (s : State) : State :=
  { s with out := s.out ++
      [{ tag := Tag.div, className := trim ("cheddar-console__line ".toList ++ className),
         content := html }] }

/-- `printPre(text, className)`; an omitted `className` is the empty string. -/
def printPre (text className : Str) (s : State) : State :=
  { s with out := s.out ++
      [{ tag := Tag.pre, className := trim ("cheddar-console__line ".toList ++ className),
         content := text }] }

/-- `clearOut()`. -/
def clearOut (s : State) : State := { s with out := [] }

/-- Appends one entry to the trace of outgoing calls. -/
def State.call (s : State) (c : Call) : State := { s with calls := s.calls ++ [c] }

/-! ## The renderer (console.js 589-673) -/

/-- The `data` of `ctx.getImageData(0, 0, w, h)` after `ctx.drawImage(source, 0, 0, w, h)`:
a `Uint8ClampedArray` of `4 * w * h` bytes. -/
def getImageData (source : Bitmap) (w h : ℕ) : List ℕ :=
  (List.range (4 * w * h)).map (fun i => source.sample w h i % 256)

/-- `imageToAscii(src, { width, invert })` (console.js 589-624). The option `invert` is
destructured at line 589 and not read again. The handler `onload` runs outside the promise
executor, so the exception `getImageData` throws for a canvas of width zero leaves the promise
pending. The character metrics and the image dimensions are taken to be finite and positive
numbers (no `NaN`, no division by zero). The row count of line 598 is computed in double
arithmetic: the quotients and the products are rounded, `Math.round` and `Math.max` are
exact. -/
def imageToAscii (env : Env) (src : Str) (width : ℕ) (invert : Bool) : Outcome Str :=
  match env.loadImage src with
  | none => Outcome.rejected "[object Event]".toList
  | some img =>
    let targetW := width
    let targetH : ℤ := max 1 (Math.round
      (Binary64.mul (Binary64.mul (targetW : ℚ) (Binary64.div (img.height : ℚ) (img.width : ℚ)))
        (Binary64.div env.charW env.charH)))
    if targetW = 0 then Outcome.pending
    else
      let data := getImageData img targetW targetH.toNat
      Outcome.resolved (rasterLoop data targetW targetH.toNat)

/-- `emojiToAscii(emoji, { width })` (console.js 629-673). Everything runs inside the promise
executor, so an exception rejects the promise. -/
def emojiToAscii (env : Env) (emoji : Str) (width : ℕ) : Outcome Str :=
  match env.drawGlyph emoji with
  | Except.error err => Outcome.rejected err
  | Except.ok tempCanvas =>
    let targetW := width
    let targetH : ℤ :=
      max 1 (Math.round (Binary64.mul (targetW : ℚ) (Binary64.div env.charW env.charH)))
    if targetW = 0 then Outcome.rejected env.indexSizeError
    else
      let data := getImageData tempCanvas targetW targetH.toNat
      Outcome.resolved (rasterLoop data targetW targetH.toNat)

/-! ## summonCheddar (console.js 292-328) -/

/-- Line 294: `showCheese = Math.random() < 0.5`. -/
def showCheese (env : Env) : Bool := decide (env.random < 0.5)

/-- Lines 296-297: the session cache key for a subject and a width. -/
def cacheKey (showCheese : Bool) (widthChars : ℕ) : Str :=
  let cacheKeySuffix : Str := if showCheese then "_cheese".toList else []
  (if widthChars > 120 then config.asciiCacheBig else config.asciiCacheSmall) ++ cacheKeySuffix

/-- The class given to rendered blocks. -/
def asciiClass : Str := "cheddar-console__ascii".toList

/-- The line printed before a render starts (line 305). -/
def materializingText : Str := "materializing cheddar… 🧀".toList

/-- The head of the error line of line 326. -/
def failedText : Str := "Failed to summon. Error: ".toList

/-- The path of the cheese image (line 313). -/
def cheesePath : Str := "view/images/cheese_emoji.png".toList

/-- The path of the portrait (line 320). -/
def profilePath : Str := "view/images/profile_pic.png".toList

/-- The glyph of the fallback (line 316). -/
def cheeseEmoji : Str := "🧀".toList

/-- Lines 308-321, the body of the outer `try` up to the assignment of `ascii`: the cheese
subject tries its image and, when that promise rejects, the emoji; the portrait tries its
image only. Each renderer call is recorded in the trace. -/
def renderSubject (env : Env) (showCheese : Bool) (widthChars : ℕ) (s : State) :
    Outcome Str × State :=
  if showCheese then
    let s := s.call (Call.imageToAscii cheesePath widthChars false)
    match imageToAscii env cheesePath widthChars false with
    | Outcome.rejected _ =>
      (emojiToAscii env cheeseEmoji widthChars, s.call (Call.emojiToAscii cheeseEmoji widthChars))
    | r => (r, s)
  else
    (imageToAscii env profilePath widthChars false,
      s.call (Call.imageToAscii profilePath widthChars false))

/-- `summonCheddar(widthChars)` (console.js 292-328). `if (cached)` holds for a stored value
that is neither `null` nor the empty string. A pending render never resumes the function. The
storage quota is taken to suffice, so `setItem` does not throw. -/
def summonCheddar (env : Env) (widthChars : ℕ) (s : State) : State :=
  let key := cacheKey (showCheese env) widthChars
  match getItem s.sessionStorage key with
  | some (c :: cs) => printPre (c :: cs) asciiClass s
  | _ =>
    let s := println materializingText [] s
    match renderSubject env (showCheese env) widthChars s with
    | (Outcome.resolved ascii, s) =>
      printPre ascii asciiClass { s with sessionStorage := setItem s.sessionStorage key ascii }
    | (Outcome.rejected err, s) =>
      println (failedText ++ escapeHtml err) [] s
    | (Outcome.pending, s) => s

/-! ## The other actions -/

/-- `callKairi()` (console.js 333-406). -/
def callKairi (s : State) : State :=
  if s.kairiPet then println "🐕 Kairi is already here!".toList [] s
  else
    let s := println "🐕 Calling Kairi... *woof woof*".toList [] s
    let s := { s with kairiPet := true }
    let s := s.call Call.animateKairi
    let s := println
      "✨ Kairi has arrived! Close the console (~) to see her roaming around!".toList [] s
    let s := println "   • Click and drag to move her around".toList [] s
    println "   • Hover over Kairi to reveal look options and dismiss button".toList [] s

/-- `printResume()` (console.js 725-732). -/
def printResume (s : State) : State :=
  let s := println "📄 Opening resume PDF...".toList [] s
  let s := s.call (Call.windowOpen "view/files/OnlineResume.pdf".toList "_blank".toList)
  println "✅ Resume opened in a new tab!".toList [] s

/-- `toggle()` (console.js 143-157): the class `show` of the overlay and `state.isOpen`
flip together. -/
def toggle (s : State) : State := { s with isOpen := !s.isOpen }

/-- `loadJsDosLibrary()` (console.js 864-888): the error of a rejection, if any. -/
def loadJsDosLibrary (env : Env) (s : State) : Except Str Unit × State :=
  let s := s.call Call.loadJsDosLibrary
  if env.windowDos || env.windowEmulators then (Except.ok (), s)
  else if env.jsDosScript then (Except.ok (), println "✅ js-dos library loaded".toList [] s)
  else
    (Except.error "Failed to load js-dos library".toList,
      println "❌ Failed to load js-dos library".toList [] s)

/-- Lines 823-827: the library is fetched unless `window.Dos` is set; `loadJsDosCSS` always
resolves. -/
def fetchJsDos (env : Env) (s : State) : Except Str Unit × State :=
  if env.windowDos then (Except.ok (), s)
  else
    let s := println "📦 Downloading js-dos library...".toList [] s
    match loadJsDosLibrary env s with
    | (Except.ok (), s) => (Except.ok (), s.call Call.loadJsDosCSS)
    | (Except.error err, s) => (Except.error err, s)

/-- Lines 829-844: the emulator is started. -/
def runDos (env : Env) (s : State) : Except Str Unit × State :=
  let s := println "🎮 Starting DOOM emulator...".toList [] s
  let s := s.call Call.dosRun
  match env.dosRun with
  | Except.error err => (Except.error err, s)
  | Except.ok () => (Except.ok (), println "✅ DOOM loaded! Have fun!".toList [] s)

/-- Lines 818-844, the body of the `try` of `launchDoom`. -/
def startDoom (env : Env) (s : State) : Except Str Unit × State :=
  match fetchJsDos env s with
  | (Except.error err, s) => (Except.error err, s)
  | (Except.ok (), s) => runDos env s

/-- `launchDoom()` (console.js 774-859). -/
def launchDoom (env : Env) (s : State) : State :=
  if s.doomOverlay then println "🎮 DOOM is already running! Close it first.".toList [] s
  else
    let s := println "🔫 Loading DOOM...".toList [] s
    let s := println "⏳ Initializing js-dos emulator...".toList [] s
    let s := { s with doomOverlay := true }
    let s := if s.isOpen then toggle s else s
    let s := s.call Call.injectDoomStyles
    match startDoom env s with
    | (Except.ok (), s) => s
    | (Except.error err, s) => println ("❌ Error loading DOOM: ".toList ++ escapeHtml err) [] s

/-- `showModeNotification(message, color)` (console.js 1212-1222): a transient element outside
the log. -/
def showModeNotification (message color : Str) (s : State) : State :=
  s.call (Call.showModeNotification message color)

/-- The key under which the theme is persisted. -/
def themeKey : Str := "theme-mode".toList

/-- `restoreThemeMode()` (console.js 1143-1150). -/
def restoreThemeMode (s : State) : State :=
  let savedMode := getItem s.localStorage themeKey
  if savedMode = some "dark".toList then { s with darkMode := true }
  else if savedMode = some "dream".toList then { s with dreamMode := true }
  else s

/-- `toggleDarkMode()` (console.js 1155-1173). -/
def toggleDarkMode (s : State) : State :=
  let s := { s with dreamMode := false }
  if s.darkMode then
    let s := { s with darkMode := false }
    let s := println "🌞 Dark mode disabled. Returning to light mode.".toList [] s
    let s := showModeNotification "☀️ Light Mode".toList "#22A39F".toList s
    { s with localStorage := removeItem s.localStorage themeKey }
  else
    let s := { s with darkMode := true }
    let s := println "🌙 Dark mode activated. Your eyes will thank you.".toList [] s
    let s := showModeNotification "🌙 Dark Mode Activated".toList "#22d3ee".toList s
    { s with localStorage := setItem s.localStorage themeKey "dark".toList }

/-- `toggleDreamMode()` (console.js 1178-1196). -/
def toggleDreamMode (s : State) : State :=
  let s := { s with darkMode := false }
  if s.dreamMode then
    let s := { s with dreamMode := false }
    let s := println "✨ Dream mode disabled. Back to reality.".toList [] s
    let s := showModeNotification "☀️ Light Mode".toList "#22A39F".toList s
    { s with localStorage := removeItem s.localStorage themeKey }
  else
    let s := { s with dreamMode := true }
    let s := println "✨ Dream mode activated. Enter the purple realm...".toList [] s
    let s := showModeNotification "✨ Dream Mode Activated".toList "#a855f7".toList s
    { s with localStorage := setItem s.localStorage themeKey "dream".toList }

/-- `toggleLightMode()` (console.js 1201-1207). -/
def toggleLightMode (s : State) : State :=
  let s := { s with darkMode := false, dreamMode := false }
  let s := println "☀️ Light mode restored.".toList [] s
  let s := showModeNotification "☀️ Light Mode".toList "#22A39F".toList s
  { s with localStorage := removeItem s.localStorage themeKey }

/-! ## The command router (console.js 190-287) -/

/-- The `case` labels of the `switch` in `handleCommand`. -/
inductive Command
  | help | skills | projects | clear | summon | matrix | godmode | call
  | darkmode | dreammode | lightmode | print | doom
  deriving DecidableEq, Repr

/-- The `case` labels with their text, in source order. -/
def commandTable : List (Str × Command) :=
  [ ("help".toList, Command.help), ("skills".toList, Command.skills),
    ("projects".toList, Command.projects), ("clear".toList, Command.clear),
    ("summon".toList, Command.summon), ("matrix".toList, Command.matrix),
    ("godmode".toList, Command.godmode), ("call".toList, Command.call),
    ("darkmode".toList, Command.darkmode), ("dreammode".toList, Command.dreammode),
    ("lightmode".toList, Command.lightmode), ("print".toList, Command.print),
    ("doom".toList, Command.doom) ]

/-- The command names of the dispatcher. -/
def commandNames : List Str := commandTable.map (fun p => p.1)

/-- The `case` selected by `switch (key)`: the first label strictly equal to `key`, or `none`
for `default`. -/
def lookupCommand (key : Str) : Option Command :=
  (commandTable.find? (fun p => p.1 = key)).map (fun p => p.2)

/-- The text printed by `help` (console.js 195-207). -/
def helpText : Str :=
  ("commands:\n" ++
   "- <b>help</b> — show this help\n" ++
   "- <b>skills</b> — quick snapshot of my stack\n" ++
   "- <b>projects</b> — highlight reel\n" ++
   "- <b>summon cheddar</b> [--big] — render ASCII portrait\n" ++
   "- <b>call kairi</b> — summon an 8-bit Maltipoo screen pet (hover to change looks!)\n" ++
   "- <b>matrix</b> — activate the matrix\n" ++
   "- <b>godmode</b> — max out all skills to 100%\n" ++
   "- <b>darkmode</b> — toggle dark mode theme\n" ++
   "- <b>dreammode</b> — toggle dream mode theme (purple/pink vibes)\n" ++
   "- <b>lightmode</b> — return to default light theme\n" ++
   "- <b>print</b> — open print-friendly version\n" ++
   "- <b>clear</b> — wipe the console").toList

/-- The text printed by `skills` (console.js 211-214). -/
def skillsText : Str :=
  ("<b>Core:</b> .NET (C#), EF Core, SQL Server, Node-RED, Home Assistant, Python, JS\n" ++
   "<b>AI:</b> AWS Bedrock, Claude, embeddings/RAG, OCR pipelines\n" ++
   "<b>Ops:</b> Nginx Proxy Manager, Docker, Portainer, Pi-hole\n" ++
   "<b>Maker:</b> Bambu X1C, 3D prints, electronics").toList

/-- The text printed by `projects` (console.js 218-220). -/
def projectsText : Str :=
  ("<b>Policy AI:</b> OCR ➜ policy extraction ➜ Excel/DB\n" ++
   "<b>Intranet:</b> local-first apps (Hue, Mealie, OpenWebUI, etc.)\n" ++
   "<b>Unity:</b> 3d modeling and game developer").toList

/-- The test `args[0] && args[0].toLowerCase() === word` of lines 228 and 257. -/
def firstArgIs (args : List Str) (word : Str) : Bool :=
  match args with
  | [] => false
  | a :: _ => a ≠ [] && toLowerCase a = word

/-- The line printed by the `default` case (console.js 285). -/
def unknownCommandLine (name : Str) : Str :=
  "unknown command: <code>".toList ++ escapeHtml name ++ "</code>. try <b>help</b>.".toList

/-- The body of one `case` of the `switch` in `handleCommand`. -/
def runCommand (env : Env) (c : Command) (args : List Str) (s : State) : State :=
  match c with
  | Command.help => println helpText [] s
  | Command.skills => println skillsText [] s
  | Command.projects => println projectsText [] s
  | Command.clear => clearOut s
  | Command.summon =>
    if firstArgIs args "cheddar".toList then
      let big := args.contains "--big".toList
      summonCheddar env (if big then 240 else 160) s
    else println "try: <code>summon cheddar</code>".toList [] s
  | Command.matrix =>
    let s := println "Initializing Matrix Protocol...".toList [] s
    if env.matrixRain then
      let s := s.call Call.matrixRainStart
      println "<span style=\"color:#0f0\">█ MATRIX ACTIVATED █</span>".toList [] s
    else println "Matrix module not loaded.".toList [] s
  | Command.godmode =>
    let s := println "Activating GOD MODE...".toList [] s
    if env.skillsRenderer then
      let s := s.call Call.activateGodMode
      println ("<span style=\"color:#FFD700\">" ++
        "⚡ GOD MODE ACTIVATED! All skills maxed to 100%! ⚡</span>").toList [] s
    else println "Skills module not loaded.".toList [] s
  | Command.call =>
    if firstArgIs args "kairi".toList then callKairi s
    else println "try: <code>call kairi</code>".toList [] s
  | Command.darkmode => toggleDarkMode s
  | Command.dreammode => toggleDreamMode s
  | Command.lightmode => toggleLightMode s
  | Command.print => printResume s
  | Command.doom => launchDoom env s

/-- `handleCommand(cmd)` (console.js 190-287). The destructuring `[name, ...args]` leaves
`name` undefined for an empty token list, and `name.toLowerCase()` then throws; `error` is
that exception. -/
def handleCommand (env : Env) (cmd : Str) (s : State) : Except Str State :=
  match tokenize cmd with
  | [] => Except.error "TypeError: name is undefined".toList
  | name :: args =>
    match lookupCommand (toLowerCase name) with
    | some c => Except.ok (runCommand env c args s)
    | none => Except.ok (println (unknownCommandLine name) [] s)

/-! ## Vocabulary of the statements -/

/-- The text `out` is exactly `H` rows, each of exactly `W` characters of `RAMP` followed by one
line break, and nothing else. -/
def IsRaster (W H : ℕ) (out : Str) : Prop :=
  ∃ rows : List Str, rows.length = H ∧ (∀ row ∈ rows, row.length = W ∧ ∀ c ∈ row, c ∈ RAMP) ∧
    out = (rows.map (fun row => row ++ ['\n'])).flatten

/-- The scan behind `lines`: `cur` is the line being read. -/
def linesAux : Str → Str → List Str
  | [], cur => if cur = [] then [] else [cur]
  | c :: cs, cur => if c = '\n' then cur :: linesAux cs [] else linesAux cs (cur ++ [c])

/-- The lines of a text: the pieces ended by a line break, and the text after the last line
break when there is some. -/
def lines (s : Str) : List Str := linesAux s []

/-- The log entries of `t` that come after the entries `s` already had. -/
def appended (s t : State) : List LogEntry := t.out.drop s.out.length

/-- The contents of the preformatted blocks among some log entries. -/
def asciiBlocks (entries : List LogEntry) : List Str :=
  (entries.filter (fun e => e.tag = Tag.pre)).map (fun e => e.content)

/-- The log entry made by `printPre(text, 'cheddar-console__ascii')`. -/
def asciiEntry (text : Str) : LogEntry :=
  { tag := Tag.pre, className := "cheddar-console__line cheddar-console__ascii".toList,
    content := text }

/-- The log entry made by `println(html)`. -/
def lineEntry (html : Str) : LogEntry :=
  { tag := Tag.div, className := "cheddar-console__line".toList, content := html }

/-- The state `t` comes after `s` in the same browsing session: commands were dispatched, and
the rest of the page did whatever it does, which never touches the cached renders (line 323 is
the only write to these keys in the repository). -/
inductive Later (s : State) : State → Prop
  | refl : Later s s
  | dispatch {t u : State} (env : Env) (cmd : Str) :
      Later s t → handleCommand env cmd t = Except.ok u → Later s u
  | other {t u : State} :
      Later s t →
      (∀ (c : Bool) (w : ℕ),
        getItem u.sessionStorage (cacheKey c w) = getItem t.sessionStorage (cacheKey c w)) →
      Later s u

/-- The two widths the dispatcher passes to `summonCheddar` (line 230). -/
def widthOf (big : Bool) : ℕ := if big then 240 else 160

/-- The log entry is an error line of `summonCheddar`. -/
def isErrorLine (e : LogEntry) : Bool :=
  decide (e.tag = Tag.div ∧ e.content.take failedText.length = failedText)

/-! ## Concrete inputs -/

/-- A bitmap of the given size whose every channel byte is `v`. -/
def flatBitmap (width height v : ℕ) : Bitmap :=
  { width := width, height := height, sample := fun _ _ _ => v }

/-- A browser with square character cells in which every image decodes to a white strip of
160 x 1 pixels, the glyph canvas is white, no optional module is loaded, and `Math.random()`
returns `random`. -/
def whiteEnv (random : ℚ) : Env :=
  { random := random, charW := 1, charH := 1,
    loadImage := fun _ => some (flatBitmap 160 1 255),
    drawGlyph := fun _ => Except.ok (flatBitmap 512 512 255),
    indexSizeError := "IndexSizeError".toList,
    matrixRain := false, skillsRenderer := false, windowDos := false, windowEmulators := false,
    jsDosScript := false, dosRun := Except.ok () }

/-- The browser of `whiteEnv` in which every image is one black pixel. -/
def blackEnv (random : ℚ) : Env :=
  { whiteEnv random with loadImage := fun _ => some (flatBitmap 1 1 0) }

/-- The browser of `whiteEnv` in which every image is a white rectangle of 160 x 41 pixels. -/
def tallEnv (random : ℚ) : Env :=
  { whiteEnv random with loadImage := fun _ => some (flatBitmap 160 41 255) }

/-- The browser of `whiteEnv` in which no image can be loaded. -/
def noImageEnv (random : ℚ) : Env :=
  { whiteEnv random with loadImage := fun _ => none }

/-- The browser of `noImageEnv` in which the glyph canvas throws as well. -/
def nothingEnv (random : ℚ) : Env :=
  { noImageEnv random with drawGlyph := fun _ => Except.error "TypeError: ctx is null".toList }

/-! ## Vocabulary: the log and the theme -/

/-- The log of `t` is the log of `s` followed by further entries. -/
def Extends (s t : State) : Prop := ∃ l, t.out = s.out ++ l

/-- The theme classes of the body and the persisted `theme-mode` agree: at most one class is
set, the stored value is `dark` exactly when `dark-mode` is set, `dream` exactly when
`dream-mode` is set, and absent exactly when neither is. -/
def ThemeConsistent (s : State) : Prop :=
  ¬ (s.darkMode = true ∧ s.dreamMode = true) ∧
  (getItem s.localStorage themeKey = some "dark".toList ↔ s.darkMode = true) ∧
  (getItem s.localStorage themeKey = some "dream".toList ↔ s.dreamMode = true) ∧
  (getItem s.localStorage themeKey = none ↔ (s.darkMode = false ∧ s.dreamMode = false))

/-- The page after a reload: the body has no theme class yet, the storage is the one of `s`. -/
def reloaded (s : State) : State := { s with darkMode := false, dreamMode := false }

/-- The three theme commands. -/
def isThemeCommand (c : Command) : Bool :=
  decide (c = Command.darkmode ∨ c = Command.dreammode ∨ c = Command.lightmode)

/-- Several commands with their arguments, run in order. -/
def runCommands (env : Env) : List (Command × List Str) → State → State
  | [], s => s
  | (c, args) :: rest, s => runCommands env rest (runCommand env c args s)

/-! ## Vocabulary: markup characters -/

/-- The characters `escapeHtml` replaces. -/
def isSpecial (c : Char) : Bool :=
  decide (c = '&' ∨ c = '<' ∨ c = '>' ∨ c = '"' ∨ c = Char.ofNat 39)

/-- The five entities `escapeHtml` writes. -/
def entities : List Str :=
  ["&amp;".toList, "&lt;".toList, "&gt;".toList, "&quot;".toList, "&#39;".toList]

/-! ## The input line (console.js 162-185) -/

/-- The element `history[i]` for a numeric index; `none` is `undefined`. -/
def historyAt (history : List Str) (i : ℤ) : Option Str :=
  if 0 ≤ i then history[i.toNat]? else none

/-- The console together with its text field: `input` is `this.input.value`. -/
structure Console where
  state : State
  input : Str
  deriving DecidableEq, Repr

/-- `handleInputKey(e)` (console.js 162-185) for `e.key = key`. Assigning `undefined` to
`input.value` writes the text `undefined`. `handleCommand` is called without `await`: an
exception inside it rejects its promise and leaves the handler alone. -/
def handleInputKey (env : Env) (key : Str) (c : Console) : Console :=
  let s := c.state
  if key = "ArrowUp".toList then
    if s.history.length ≠ 0 then
      let histIdx : ℤ :=
        max 0 (if s.histIdx = -1 then (s.history.length : ℤ) - 1 else s.histIdx - 1)
      { state := { s with histIdx := histIdx },
        input := match historyAt s.history histIdx with
          | some v => v
          | none => undefinedText }
    else c
  else if key = "ArrowDown".toList then
    if s.history.length ≠ 0 then
      if s.histIdx = -1 then c
      else
        let histIdx : ℤ := min ((s.history.length : ℤ) - 1) (s.histIdx + 1)
        { state := { s with histIdx := histIdx },
          input := match historyAt s.history histIdx with
            | some v => v
            | none => [] }
    else c
  else if key = "Enter".toList then
    let cmd := trim c.input
    if cmd = [] then c
    else
      let s := { s with history := s.history ++ [cmd], histIdx := -1 }
      let s := println ("> ".toList ++ escapeHtml cmd) "cheddar-console__user".toList s
      match handleCommand env cmd s with
      | Except.ok t => { state := t, input := [] }
      | Except.error _ => { state := s, input := [] }
  else c

/-- What happens at the text field: a key goes to `handleInputKey`, or the user changes the
text. -/
inductive InputEvent
  | key (k : Str)
  | edit (text : Str)
  deriving DecidableEq, Repr

/-- One event at the text field. -/
def inputStep (env : Env) (c : Console) : InputEvent → Console
  | InputEvent.key k => handleInputKey env k c
  | InputEvent.edit text => { c with input := text }

/-- Several events at the text field, in order. -/
def inputRun (env : Env) (events : List InputEvent) (c : Console) : Console :=
  events.foldl (inputStep env) c

/-- The history cursor is `-1` or an index into the history. -/
def HistOk (s : State) : Prop :=
  s.histIdx = -1 ∨ (0 ≤ s.histIdx ∧ s.histIdx < (s.history.length : ℤ))

/-- The history and its cursor. -/
def State.hist (s : State) : List Str × ℤ := (s.history, s.histIdx)

end CheddarConsole

/-! # InterestGalaxy: placement of the interest nodes

A shallow embedding of `checkCollision`, `findNonOverlappingPosition` and `createNodes` of
`src/view/js/interest-galaxy.js`. The collision test is computed in double arithmetic
(`Binary64`); the positions tried by the search are exact rationals. `Math.PI`, `Math.cos` and
`Math.sin` are values of the page (`Page.pi`, `Page.cos`, `Page.sin`): a double is a rational
number, and nothing below depends on which rationals the browser returns unless a statement says
so. -/

namespace InterestGalaxy

/-- The field `size` of an interest (`'primary'`, `'secondary'`, `'tertiary'` in
`interestsData`); the comparisons of the source treat every value that is neither `'primary'`
nor `'secondary'` like `'tertiary'`. -/
inductive Size
  | primary
  | secondary
  | tertiary
  deriving DecidableEq, Repr

/-- What `findNonOverlappingPosition` reads of a placed node: its size and its position. -/
structure Node where
  size : Size
  x : ℚ
  y : ℚ
  deriving DecidableEq, Repr

/-- What the functions read of the page. -/
structure Page where
  /-- The value of `window.innerWidth`. -/
  innerWidth : ℚ
  /-- The value of `container.offsetWidth`. -/
  offsetWidth : ℚ
  /-- The value of `container.offsetHeight`. -/
  offsetHeight : ℚ
  /-- The value of `Math.PI`. -/
  pi : ℚ
  /-- The function `Math.cos`. -/
  cos : ℚ → ℚ
  /-- The function `Math.sin`. -/
  sin : ℚ → ℚ

/-- The sizes of the nine entries of `interestsData` (lines 10-146), in order. -/
def interestsData : List Size :=
  [Size.primary, Size.primary, Size.primary, Size.secondary, Size.secondary, Size.secondary,
   Size.tertiary, Size.tertiary, Size.tertiary]

/-- `isMobile()` (lines 177-179). -/
def isMobile (page : Page) : Bool := decide (page.innerWidth ≤ 767)

/-- `isVerySmallMobile()` (lines 184-186). -/
def isVerySmallMobile (page : Page) : Bool := decide (page.innerWidth ≤ 400)

/-- `isTablet()` (lines 191-193). -/
def isTablet (page : Page) : Bool := decide (page.innerWidth > 767 ∧ page.innerWidth ≤ 1024)

/-- `checkCollision(x1, y1, r1, x2, y2, r2, minGap)` (lines 229-235) in double arithmetic: the
differences, the products, the sums and the square root are each rounded to the nearest
double. -/
def checkCollision (x1 y1 r1 x2 y2 r2 minGap : ℚ) : Bool :=
  let dx := Binary64.sub x2 x1
  let dy := Binary64.sub y2 y1
  let distance := Binary64.sqrt (Binary64.add (Binary64.mul dx dx) (Binary64.mul dy dy))
  let minDistance := Binary64.add (Binary64.add r1 r2) minGap
  decide (distance < minDistance)

/-- The table of node sizes by device tier, written out at lines 248-257, 305-314 and
374-383. -/
def nodeSize (page : Page) (size : Size) : ℚ :=
  if isVerySmallMobile page then
    (if size = Size.primary then 52 else if size = Size.secondary then 42 else 34)
  else if isMobile page then
    (if size = Size.primary then 60 else if size = Size.secondary then 48 else 38)
  else if isTablet page then
    (if size = Size.primary then 85 else if size = Size.secondary then 65 else 50)
  else
    (if size = Size.primary then 120 else if size = Size.secondary then 90 else 70)

/-- Line 260: `minGap`. -/
def minGap (page : Page) : ℚ :=
  if isVerySmallMobile page then 18 else if isMobile page then 22
  else if isTablet page then 20 else 20

/-- Line 263: `padding`. -/
def padding (page : Page) : ℚ :=
  if isVerySmallMobile page then 40 else if isMobile page then 50
  else if isTablet page then 70 else 80

/-- Lines 264-269: `maxRadius`. -/
def maxRadius (page : Page) (size : Size) (centerX centerY : ℚ) : ℚ :=
  let radius := nodeSize page size / 2
  min (min (min (centerX - radius - padding page) (centerY - radius - padding page))
    (page.offsetWidth - centerX - radius - padding page))
    (page.offsetHeight - centerY - radius - padding page)

/-- Lines 273-294: the position tried at one attempt. -/
def candidate (page : Page) (size : Size) (index : ℕ) (centerX centerY : ℚ)
    (maxAttempts attempt : ℕ) : ℚ × ℚ :=
  let baseAngle := ((index : ℚ) / (interestsData.length : ℚ)) * page.pi * 2
  let angleOffset := ((attempt : ℚ) / (maxAttempts : ℚ)) * page.pi * 0.5
  let angle := baseAngle + angleOffset
  let baseRadius : ℚ :=
    if isVerySmallMobile page then
      (if size = Size.primary then 50 else if size = Size.secondary then 90 else 120)
    else if isMobile page then
      (if size = Size.primary then 70 else if size = Size.secondary then 115 else 150)
    else if isTablet page then
      (if size = Size.primary then 110 else if size = Size.secondary then 155 else 195)
    else
      (if size = Size.primary then 190 else if size = Size.secondary then 240 else 280)
  let step : ℚ :=
    if isVerySmallMobile page then 6 else if isMobile page then 8
    else if isTablet page then 10 else 15
  let baseRadius := min (baseRadius + (attempt : ℚ) * step) (maxRadius page size centerX centerY)
  (centerX + baseRadius * page.cos angle, centerY + baseRadius * page.sin angle)

/-- Lines 297-298: the test that makes the loop `continue`. -/
def outOfBounds (page : Page) (size : Size) (x y : ℚ) : Bool :=
  let radius := nodeSize page size / 2
  decide (x - radius < padding page ∨ x + radius > page.offsetWidth - padding page ∨
    y - radius < padding page ∨ y + radius > page.offsetHeight - padding page)

/-- Lines 303-321: `hasCollision` after the loop over `placedNodes`. -/
def hasCollision (page : Page) (size : Size) (placedNodes : List Node) (x y : ℚ) : Bool :=
  placedNodes.any (fun placed =>
    checkCollision x y (nodeSize page size / 2) placed.x placed.y
      (nodeSize page placed.size / 2) (minGap page))

/-- The body of the loop of lines 271-326 returns at this attempt. -/
def accepted (page : Page) (size : Size) (index : ℕ) (placedNodes : List Node)
    (centerX centerY : ℚ) (maxAttempts attempt : ℕ) : Bool :=
  let pos := candidate page size index centerX centerY maxAttempts attempt
  !outOfBounds page size pos.1 pos.2 && !hasCollision page size placedNodes pos.1 pos.2

/-- Lines 328-343: the fallback position. -/
def fallbackPosition (page : Page) (size : Size) (index : ℕ) (centerX centerY : ℚ) : ℚ × ℚ :=
  let fallbackAngle := ((index : ℚ) / (interestsData.length : ℚ)) * page.pi * 2
  let fallbackRadius : ℚ :=
    if isVerySmallMobile page then min (60 + (index : ℚ) * 8) (maxRadius page size centerX centerY)
    else if isMobile page then min (80 + (index : ℚ) * 10) (maxRadius page size centerX centerY)
    else if isTablet page then min (120 + (index : ℚ) * 12) (maxRadius page size centerX centerY)
    else min (270 + (index : ℚ) * 15) (maxRadius page size centerX centerY)
  (centerX + fallbackRadius * page.cos fallbackAngle,
    centerY + fallbackRadius * page.sin fallbackAngle)

/-- `findNonOverlappingPosition(interest, index, placedNodes, centerX, centerY, maxAttempts)`
(lines 240-344): the first attempt that is inside the bounds and collides with no placed node,
else the fallback. The default of `maxAttempts` is 50. -/
def findNonOverlappingPosition (page : Page) (size : Size) (index : ℕ) (placedNodes : List Node)
    (centerX centerY : ℚ) (maxAttempts : ℕ) : ℚ × ℚ :=
  match (List.range maxAttempts).find?
      (accepted page size index placedNodes centerX centerY maxAttempts) with
  | some attempt => candidate page size index centerX centerY maxAttempts attempt
  | none => fallbackPosition page size index centerX centerY

/-- The loop of `createNodes` (lines 360-371) from entry `index` on: each interest is placed
against the nodes placed before it and then joins them. -/
def placeFrom (page : Page) (centerX centerY : ℚ) :
    List Size → ℕ → List Node → List Node
  | [], _, placedNodes => placedNodes
  | size :: rest, index, placedNodes =>
    let position := findNonOverlappingPosition page size index placedNodes centerX centerY 50
    placeFrom page centerX centerY rest (index + 1)
      (placedNodes ++ [{ size := size, x := position.1, y := position.2 }])

/-- `createNodes()` (lines 349-371): the placed nodes, in order. -/
def createNodes (page : Page) : List Node :=
  placeFrom page (page.offsetWidth / 2) (page.offsetHeight / 2) interestsData 0 []

/-- A rational stand-in for `Math.sin` with `pi` for `Math.PI`: the angle is reduced to one
turn and the approximation `16 x (pi - x) / (5 pi^2 - 4 x (pi - x))` of Bhaskara I is used on
each half turn. It is exact at the multiples of a quarter turn. -/
def sinApprox (pi a : ℚ) : ℚ :=
  let t := a - 2 * pi * ((⌊a / (2 * pi)⌋ : ℤ) : ℚ)
  let half : ℚ → ℚ := fun x => 16 * x * (pi - x) / (5 * pi ^ 2 - 4 * x * (pi - x))
  if t ≤ pi then half t else - half (t - pi)

/-- A rational stand-in for `Math.cos`: `sinApprox` a quarter turn ahead. -/
def cosApprox (pi a : ℚ) : ℚ := sinApprox pi (a + pi / 2)

/-- A desktop page (inner width 1280) with a container of the given size; `Math.PI` is taken
as 355/113. -/
def desktopPage (offsetWidth offsetHeight : ℚ) : Page :=
  { innerWidth := 1280, offsetWidth := offsetWidth, offsetHeight := offsetHeight,
    pi := 355 / 113, cos := cosApprox (355 / 113), sin := sinApprox (355 / 113) }

end InterestGalaxy

/-! # SkillsRenderer: the star icons

A shallow embedding of `generateStars` of `src/view/js/skills.js`. -/

namespace SkillsRenderer

/-- The text of a full star (line 101). -/
def fullStar : List Char := "<i class=\"bi bi-star-fill\"></i>\n\t\t\t\t\t\t".toList

/-- The text of a half star (line 106). -/
def halfStar : List Char := "<i class=\"bi bi-star-half\"></i>\n\t\t\t\t\t\t".toList

/-- The text of an empty star (line 111). -/
def emptyStar : List Char := "<i class=\"bi bi-star\"></i>\n\t\t\t\t\t\t".toList

/-- The value of `x % 1`: `x` minus its integer part rounded towards zero. -/
def mod1 (x : ℚ) : ℚ := x - (if 0 ≤ x then ((⌊x⌋ : ℤ) : ℚ) else ((⌈x⌉ : ℤ) : ℚ))

/-- The loop `for (let i = 0; i < n; i++) html += piece`. -/
def appendTimes (n : ℤ) (piece html : List Char) : List Char :=
  (List.range n.toNat).foldl (fun html _ => html ++ piece) html

/-- `generateStars(rating)` (skills.js 92-115). -/
def generateStars (rating : ℚ) : List Char :=
  let fullStars : ℤ := ⌊rating⌋
  let hasHalfStar : Bool := decide (mod1 rating ≠ 0)
  let emptyStars : ℤ := 5 - ⌈rating⌉
  let html : List Char := []
  let html := appendTimes fullStars fullStar html
  let html := if hasHalfStar then html ++ halfStar else html
  let html := appendTimes emptyStars emptyStar html
  html

end SkillsRenderer

/-! # JourneyMap: the scroll-driven career journey

A shallow embedding of `handleScroll`, `updateJourney` and `updateVehiclePosition` of
`src/view/js/journey-map.js`, as far as the step index goes. Numbers are exact rationals; where
the source can divide by zero, the resulting `Infinity` or `NaN` is modelled explicitly. -/

namespace JourneyMap

open CheddarConsole (Str)

/-- What `updateJourney` reads of one entry of `data.journey`. -/
structure Step where
  type : Str
  title : Str
  company : Option Str
  deriving DecidableEq, Repr

/-- The element `journey[i]` for a numeric index; `none` is `undefined`. -/
def journeyAt (journey : List Step) (i : ℤ) : Option Step :=
  if 0 ≤ i then journey[i.toNat]? else none

/-- Line 389: `currentStepFloat = progress * (totalSteps - 1)`. -/
def currentStepFloat (journey : List Step) (progress : ℚ) : ℚ :=
  let totalSteps := journey.length
  progress * ((totalSteps : ℚ) - 1)

/-- Line 390: `currentStepIndex = Math.floor(currentStepFloat)`. -/
def currentStepIndex (journey : List Step) (progress : ℚ) : ℤ :=
  ⌊currentStepFloat journey progress⌋

/-- Line 391: `stepProgress = currentStepFloat - currentStepIndex`. -/
def stepProgress (journey : List Step) (progress : ℚ) : ℚ :=
  currentStepFloat journey progress - (currentStepIndex journey progress : ℚ)

/-- What `updateVehiclePosition` computes before it places the vehicle. -/
structure VehicleStep where
  stepIndex : ℤ
  stepProgress : ℚ
  currentStep : Step
  nextStep : Option Step
  deriving DecidableEq, Repr

/-- `updateVehiclePosition(stepFloat)` (lines 420-427): `none` is the early return of
`if (!currentStep) return`. -/
def updateVehiclePosition (journey : List Step) (stepFloat : ℚ) : Option VehicleStep :=
  let stepIndex : ℤ := ⌊stepFloat⌋
  let stepProgress := stepFloat - (stepIndex : ℚ)
  match journeyAt journey stepIndex with
  | none => none
  | some currentStep =>
    some { stepIndex := stepIndex, stepProgress := stepProgress, currentStep := currentStep,
           nextStep := journeyAt journey (stepIndex + 1) }

/-- What `updateJourney` computes and passes on. -/
structure JourneyUpdate where
  /-- The percentage written to the width of the progress bar. -/
  progressFill : ℚ
  currentStepIndex : ℤ
  stepProgress : ℚ
  currentStep : Step
  /-- The text written to the progress indicator. -/
  progressText : Str
  /-- The outcome of the call `updateVehiclePosition(currentStepFloat)`. -/
  vehicle : Option VehicleStep
  deriving DecidableEq, Repr

/-- `updateJourney(progress)` (lines 386-417): `none` is the early return of
`if (!currentStep) return`. -/
def updateJourney (journey : List Step) (progress : ℚ) : Option JourneyUpdate :=
  match journeyAt journey (currentStepIndex journey progress) with
  | none => none
  | some currentStep =>
    some { progressFill := progress * 100
           currentStepIndex := currentStepIndex journey progress
           stepProgress := stepProgress journey progress
           currentStep := currentStep
           progressText :=
             if currentStep.type = "transit".toList then currentStep.title
             else match currentStep.company with
               | some (c :: cs) => c :: cs
               | _ => currentStep.title
           vehicle := updateVehiclePosition journey (currentStepFloat journey progress) }

/-- The value of `progress` after line 373 of `handleScroll`, from `rect.top`, the height of the
section and the height of the viewport; `none` is `NaN`. A division of a positive number by zero
is `Infinity`, which the clamp turns into 1, and `0 / 0` is `NaN`, which the clamp keeps. -/
def scrollProgress (top sectionHeight viewportHeight : ℚ) : Option ℚ :=
  if top ≤ viewportHeight / 2 then
    let scrolled := viewportHeight / 2 - top
    let scrollableDistance := sectionHeight - viewportHeight / 2
    if scrollableDistance = 0 then
      if scrolled = 0 then none else some (max 0 (min 1 1))
    else some (max 0 (min 1 (scrolled / scrollableDistance)))
  else some (max 0 (min 1 0))

/-- The argument of the call `this.updateJourney(progress)` that `handleScroll` makes
(lines 361-379), if it makes one: the section is in view and `progress > 0`. -/
def handleScroll (top bottom sectionHeight viewportHeight : ℚ) : Option ℚ :=
  let inView := decide (top < viewportHeight ∧ bottom > 0)
  match scrollProgress top sectionHeight viewportHeight with
  | some progress => if inView && decide (progress > 0) then some progress else none
  | none => none

end JourneyMap

/-! # Script: the jumbotron background cycler

A shallow embedding of `applyJumbotronCycler` of `src/view/js/script.js`. A JavaScript number
that is an integer or `NaN` is a value of `Option ℤ`, where `none` is `NaN`. -/

namespace Script

open CheddarConsole (Str Storage getItem setItem isWhiteSpace)

/-- The array `backgrounds` (script.js 262-268). -/
def backgrounds : List Str :=
  [ "view/images/awesome_animation.gif".toList,
    "view/images/boxes_animation.gif".toList,
    "view/images/circle_animation.gif".toList,
    "view/images/endless_animation.gif".toList,
    "view/images/sphere_animation.gif".toList ]

/-- The key of the session storage the cycler uses. -/
def indexKey : Str := "jumbotronBgIndex".toList

/-- The value of a digit or letter as a digit of a numeral, if it is one. -/
def digitValue (c : Char) : Option ℕ :=
  if '0' ≤ c ∧ c ≤ '9' then some (c.toNat - '0'.toNat)
  else if 'a' ≤ c ∧ c ≤ 'z' then some (c.toNat - 'a'.toNat + 10)
  else if 'A' ≤ c ∧ c ≤ 'Z' then some (c.toNat - 'A'.toNat + 10)
  else none

/-- The character is a digit of the radix `R`. -/
def isRadixDigit (R : ℕ) (c : Char) : Bool :=
  match digitValue c with
  | some d => decide (d < R)
  | none => false

/-- `parseInt(string)` without a radix, after ECMAScript: leading white space is skipped, a sign
is read, `0x` or `0X` selects radix 16 and anything else radix 10, the longest run of digits is
read, and no digit at all gives `NaN`. The result is the exact integer; JavaScript rounds it to a
double, which does not change how it compares with a small integer. -/
def parseInt (string : Str) : Option ℤ :=
  let S := string.dropWhile isWhiteSpace
  let sign : ℤ := if S.head? = some '-' then -1 else 1
  let S := if S.head? = some '+' ∨ S.head? = some '-' then S.drop 1 else S
  let hex : Bool := decide (S.take 2 = "0x".toList ∨ S.take 2 = "0X".toList)
  let R : ℕ := if hex then 16 else 10
  let S := if hex then S.drop 2 else S
  let Z := S.takeWhile (isRadixDigit R)
  if Z = [] then none
  else some (sign * ((Z.foldl (fun n c => n * R + (digitValue c).getD 0) 0 : ℕ) : ℤ))

/-- `String(n)` for a number that is an integer or `NaN`. -/
def numberToString : Option ℤ → Str
  | some i => (toString i).toList
  | none => "NaN".toList

/-- The element `backgrounds[i]`; `none` is `undefined`, which is also what the index `NaN`
gives. -/
def backgroundAt : Option ℤ → Option Str
  | some i => if 0 ≤ i then backgrounds[i.toNat]? else none
  | none => none

/-- Lines 270-277: the index restored from the session storage. `getItem(...) || '1'` replaces
`null` and the empty string by `'1'`. Both comparisons of the guard are false for `NaN`. -/
def restoreIndex (sessionStorage : Storage) : Option ℤ :=
  let stored : Str :=
    match getItem sessionStorage indexKey with
    | some (c :: cs) => c :: cs
    | _ => "1".toList
  let currentIndex := parseInt stored
  match currentIndex with
  | some i => if i < 0 ∨ i ≥ (backgrounds.length : ℤ) then some 1 else some i
  | none => none

/-- The variable `currentIndex` of the closure and the session storage. -/
structure Cycler where
  currentIndex : Option ℤ
  sessionStorage : Storage
  deriving DecidableEq, Repr

/-- `applyJumbotronCycler()` up to the installation of the click handler. -/
def applyJumbotronCycler (sessionStorage : Storage) : Cycler :=
  { currentIndex := restoreIndex sessionStorage, sessionStorage := sessionStorage }

/-- The click handler (lines 280-296) for a click that is not on the scroll-down arrow: the new
state and the value of `newBackground`. The operator `%` is the remainder of the truncating
division, and `NaN + 1` and `NaN % 5` are `NaN`. -/
def click (c : Cycler) : Cycler × Option Str :=
  let currentIndex := c.currentIndex.map (fun i => Int.tmod (i + 1) (backgrounds.length : ℤ))
  ({ currentIndex := currentIndex,
     sessionStorage := setItem c.sessionStorage indexKey (numberToString currentIndex) },
    backgroundAt currentIndex)

/-- Several clicks in a row. -/
def clicks : ℕ → Cycler → Cycler
  | 0, c => c
  | n + 1, c => clicks n (click c).1

/-- The index is an integer from 0 to 4. -/
def ValidIndex (i : Option ℤ) : Prop := ∃ k : ℤ, i = some k ∧ 0 ≤ k ∧ k < (backgrounds.length : ℤ)

end Script

/-! # SkillsRenderer: the progress bars, the Konami code and the level-up clicks

A shallow embedding of `renderSkillItem`, `getPercent`, the Konami listener of `initEasterEggs`,
`levelUpSkill` and `addPrestigeStar` of `src/view/js/skills.js`. -/

namespace SkillsRenderer

open CheddarConsole (Str)

/-! ## From stars to percentages (skills.js 75-86 and 499-517) -/

/-- The inner HTML of the element `.ability-score` that `renderSkillItem` writes for a rating
(lines 79-81 of the template). -/
def abilityScore (rating : ℚ) : Str :=
  "\n            ".toList ++ generateStars rating ++ "\n          ".toList

/-- `container.querySelectorAll('i')`, each element given by the tokens of its class attribute
(its `classList`). This is the HTML parser of the browser on the markup `generateStars` writes:
an `i` element starts where the text `<i class="` starts, and its class attribute runs to the
next double quote. -/
def icons : Str → List (List Str)
  | [] => []
  | c :: cs =>
    if "<i class=\"".toList.isPrefixOf (c :: cs) then
      ((CheddarConsole.splitWhiteSpace ((cs.drop 9).takeWhile (fun d => d ≠ '"'))).filter
        (fun t => t ≠ [])) :: icons cs
    else icons cs

/-- The constant `STAR_FULL`. -/
def STAR_FULL : Str := "bi-star-fill".toList

/-- The constant `STAR_HALF`. -/
def STAR_HALF : Str := "bi-star-half".toList

/-- `getPercent(container)` (lines 504-513) on the icons of the container, in double
arithmetic: the sums, the quotient and the product are rounded, `Math.round` is exact. -/
def getPercent (icons : List (List Str)) : ℤ :=
  let score : ℚ := icons.foldl (fun score i =>
    if i.contains STAR_FULL then Binary64.add score 1
    else if i.contains STAR_HALF then Binary64.add score (1 / 2)
    else score) 0
  let max : ℚ := if icons.length = 0 then 5 else (icons.length : ℚ)
  CheddarConsole.Math.round (Binary64.mul (Binary64.div score max) 100)

/-! ## The Konami listener (skills.js 10-11 and 122-128) -/

/-- The field `konamiPattern`. -/
def konamiPattern : List Str :=
  [ "ArrowUp".toList, "ArrowUp".toList, "ArrowDown".toList, "ArrowDown".toList,
    "ArrowLeft".toList, "ArrowRight".toList, "ArrowLeft".toList, "ArrowRight".toList,
    "b".toList, "a".toList ]

/-- `array.join(',')` on an array of strings. -/
def joinComma : List Str → Str
  | [] => []
  | [x] => x
  | x :: y :: rest => x ++ ',' :: joinComma (y :: rest)

/-- The `keydown` listener (lines 122-128) for `e.key = key`: the new value of `konamiCode`, and
whether `activateGodMode` is called. -/
def keydown (konamiCode : List Str) (key : Str) : List Str × Bool :=
  let konamiCode := konamiCode ++ [key]
  let konamiCode := konamiCode.drop (konamiCode.length - 10)
  (konamiCode, decide (joinComma konamiCode = joinComma konamiPattern))

/-- The value of `konamiCode` after the keys pressed since the page was loaded. -/
def keydowns (keys : List Str) : List Str :=
  keys.foldl (fun konamiCode key => (keydown konamiCode key).1) []

/-! ## Level-up clicks (skills.js 194-279) -/

/-- What `levelUpSkill` and `addPrestigeStar` read and write of a skill item. -/
structure SkillItem where
  /-- The custom property `--fill` of the child `.skill-bar`; `none` without such a child. -/
  bar : Option Str
  /-- The text of the child `.skill-percent`; `none` without such a child. -/
  pct : Option Str
  /-- The attribute `dataset.celebrating`; `none` is `undefined`. -/
  celebrating : Option Str
  /-- The attribute `dataset.prestige`; `none` is `undefined`. -/
  prestige : Option Str
  /-- The inner HTML of the child `.prestige-stars`; `none` without such a child. -/
  prestigeStars : Option Str
  deriving DecidableEq, Repr

/-- The operator `a || b` on numbers that are integers or `NaN`: `0` and `NaN` are falsy. -/
def numberOr (a b : Option ℤ) : Option ℤ :=
  match a with
  | some i => if i = 0 then b else some i
  | none => b

/-- Line 205: `parseInt(bar.style.getPropertyValue('--fill')) || parseInt(pct.textContent)`. -/
def currentFill (bar pct : Str) : Option ℤ :=
  numberOr (Script.parseInt bar) (Script.parseInt pct)

/-- Lines 206 and 264: `parseInt(skillItem.dataset.prestige || 0)`; `undefined` and the empty
text give `parseInt(0)`, which is 0. -/
def prestigeLevel (item : SkillItem) : Option ℤ :=
  match item.prestige with
  | some (c :: cs) => Script.parseInt (c :: cs)
  | _ => Script.parseInt (Script.numberToString (some 0))

/-- `addPrestigeStar(skillItem)` (lines 263-288). `Math.min(5, NaN)` is `NaN`, and
`'★'.repeat(NaN)` is the empty text. For a negative count `repeat` throws a `RangeError`: the
attribute `prestige` is written by then and the container exists, created empty if it was
missing, with its content untouched. -/
def addPrestigeStar (item : SkillItem) : SkillItem :=
  match prestigeLevel item with
  | some prestigeLevel =>
    let newPrestige : ℤ := min 5 (prestigeLevel + 1)
    { item with
      prestige := some (Script.numberToString (some newPrestige)),
      prestigeStars :=
        if 0 ≤ newPrestige then some (List.replicate newPrestige.toNat '★')
        else match item.prestigeStars with
          | some stars => some stars
          | none => some [] }
  | none =>
    { item with prestige := some (Script.numberToString none), prestigeStars := some [] }

/-- `levelUpSkill(skillItem)` (lines 194-258) up to the timers it starts. A comparison with
`NaN` is false. -/
def levelUpSkill (item : SkillItem) : SkillItem :=
  match item.bar, item.pct with
  | some bar, some pct =>
    if item.celebrating = some "true".toList then item
    else
      let currentFill := currentFill bar pct
      let prestigeLevel := prestigeLevel item
      if (match currentFill with
          | some f => decide (f ≥ 100)
          | none => false) then
        if (match prestigeLevel with
            | some p => decide (p < 5)
            | none => false) then addPrestigeStar item
        else item
      else
        let newFill : Option ℤ := currentFill.map (fun f => min 100 (f + 10))
        let item := { item with
          bar := some (Script.numberToString newFill ++ "%".toList),
          pct := some (Script.numberToString newFill ++ "%".toList) }
        if newFill = some 100 then { item with celebrating := some "true".toList }
        else item
  | _, _ => item

/-- The timer of line 250, 6.5 seconds after a skill reached 100%. -/
def celebrationEnds (item : SkillItem) : SkillItem :=
  { item with celebrating := some "false".toList }

/-- What happens to a skill item: a click that reaches `levelUpSkill`, or the end of a
celebration. -/
inductive SkillEvent
  | click
  | celebrationEnds
  deriving DecidableEq, Repr

/-- One event on a skill item. -/
def skillStep (item : SkillItem) : SkillEvent → SkillItem
  | SkillEvent.click => levelUpSkill item
  | SkillEvent.celebrationEnds => celebrationEnds item

/-- The fill, the prestige level and the celebration flag that `levelUpSkill` reads from a skill
item. -/
def Reads (item : SkillItem) (fill prestige : ℤ) (celebrating : Bool) : Prop :=
  (∃ bar pct, item.bar = some bar ∧ item.pct = some pct ∧ currentFill bar pct = some fill) ∧
  prestigeLevel item = some prestige ∧
  (celebrating = true ↔ item.celebrating = some "true".toList)

/-- A skill item at 95% that has no prestige yet and is not celebrating. -/
def almostFull : SkillItem :=
  { bar := some "95%".toList, pct := some "95%".toList, celebrating := none, prestige := none,
    prestigeStars := none }

end SkillsRenderer

namespace Binary64
/-! ## Lemmas: powers of two and binary digits -/

theorem pow2_eq (z : ℤ) : pow2 z = (2 : ℚ) ^ z := by
  unfold pow2
  split
  · rename_i h
    have hz : z = (z.toNat : ℤ) := (Int.toNat_of_nonneg h).symm
    conv_rhs => rw [hz]
    rw [zpow_natCast]
    push_cast
    rfl
  · rename_i h
    have hz : z = -((-z).toNat : ℤ) := by
      rw [Int.toNat_of_nonneg (by omega)]
      ring
    conv_rhs => rw [hz]
    rw [zpow_neg, zpow_natCast]
    push_cast
    rw [one_div]

theorem pow2_pos (z : ℤ) : 0 < pow2 z := by
  rw [pow2_eq]
  positivity

theorem pow2_add (a b : ℤ) : pow2 (a + b) = pow2 a * pow2 b := by
  simp only [pow2_eq]
  exact zpow_add₀ (by norm_num) a b

theorem pow2_sub (a b : ℤ) : pow2 (a - b) = pow2 a / pow2 b := by
  simp only [pow2_eq]
  exact zpow_sub₀ (by norm_num) a b

theorem pow2_le_pow2 {a b : ℤ} (h : a ≤ b) : pow2 a ≤ pow2 b := by
  simp only [pow2_eq]
  exact zpow_le_zpow_right₀ (by norm_num) h

theorem pow2_lt_pow2 {a b : ℤ} (h : a < b) : pow2 a < pow2 b := by
  simp only [pow2_eq]
  exact (zpow_lt_zpow_iff_right₀ (by norm_num)).mpr h

theorem pow2_natCast (n : ℕ) : pow2 (n : ℤ) = (2 : ℚ) ^ n := by
  rw [pow2_eq, zpow_natCast]

theorem bitLengthAux_zero (fuel : ℕ) : bitLengthAux fuel 0 = 0 := by
  cases fuel <;> simp [bitLengthAux]

theorem bitLengthAux_spec (fuel : ℕ) : ∀ n : ℕ, n ≤ fuel → n ≠ 0 →
    1 ≤ bitLengthAux fuel n ∧ 2 ^ (bitLengthAux fuel n - 1) ≤ n ∧ n < 2 ^ bitLengthAux fuel n := by
  induction fuel with
  | zero =>
    intro n hn h0
    omega
  | succ fuel ih =>
    intro n hn h0
    simp only [bitLengthAux, h0, if_false]
    by_cases h2 : n / 2 = 0
    · rw [h2, bitLengthAux_zero]
      have : n = 1 := by omega
      subst this
      simp
    · obtain ⟨h1, hlo, hhi⟩ := ih (n / 2) (by omega) h2
      generalize bitLengthAux fuel (n / 2) = a at h1 hlo hhi
      refine ⟨by omega, ?_, ?_⟩
      · have e : a + 1 - 1 = (a - 1) + 1 := by omega
        rw [e, pow_succ]
        omega
      · rw [pow_succ]
        omega

theorem bitLength_spec {n : ℕ} (h0 : n ≠ 0) :
    1 ≤ bitLength n ∧ 2 ^ (bitLength n - 1) ≤ n ∧ n < 2 ^ bitLength n :=
  bitLengthAux_spec n n le_rfl h0

/-- With `a` binary digits, `2 ^ a / 2 ≤ n < 2 ^ a` over the rationals. -/
theorem bitLength_bounds {n : ℕ} (h0 : n ≠ 0) :
    (2 : ℚ) ^ bitLength n ≤ 2 * (n : ℚ) ∧ (n : ℚ) < (2 : ℚ) ^ bitLength n := by
  obtain ⟨h1, hlo, hhi⟩ := bitLength_spec h0
  constructor
  · have e : bitLength n = (bitLength n - 1) + 1 := by omega
    have hlo' : ((2 ^ (bitLength n - 1) : ℕ) : ℚ) ≤ (n : ℚ) := by exact_mod_cast hlo
    rw [e, pow_succ]
    push_cast at hlo'
    linarith
  · exact_mod_cast hhi

theorem abs_eq_natAbs_div_den (x : ℚ) : |x| = (x.num.natAbs : ℚ) / (x.den : ℚ) := by
  have h := Rat.num_div_den x
  have hd : (0 : ℚ) < (x.den : ℚ) := by exact_mod_cast x.den_pos
  conv_lhs => rw [← h]
  rw [abs_div, abs_of_pos hd]
  congr 1
  rw [Nat.cast_natAbs]
  push_cast
  rfl

theorem exponent_spec {x : ℚ} (hx : x ≠ 0) :
    pow2 (exponent x) ≤ |x| ∧ |x| < pow2 (exponent x + 1) := by
  have hn : x.num.natAbs ≠ 0 := by
    rw [Ne, Int.natAbs_eq_zero, Rat.num_eq_zero]
    exact hx
  have hd : x.den ≠ 0 := x.den_nz
  obtain ⟨hA1, hA2⟩ := bitLength_bounds hn
  obtain ⟨hB1, hB2⟩ := bitLength_bounds hd
  have hdpos : (0 : ℚ) < (x.den : ℚ) := by exact_mod_cast x.den_pos
  have hnpos : (0 : ℚ) < (x.num.natAbs : ℚ) := by exact_mod_cast Nat.pos_of_ne_zero hn
  have habs := abs_eq_natAbs_div_den x
  have hApos : (0 : ℚ) < (2 : ℚ) ^ bitLength x.num.natAbs := by positivity
  have hBpos : (0 : ℚ) < (2 : ℚ) ^ bitLength x.den := by positivity
  have hk : ∀ j : ℤ, pow2 ((bitLength x.num.natAbs : ℤ) - (bitLength x.den : ℤ) + j) =
      (2 : ℚ) ^ bitLength x.num.natAbs / (2 : ℚ) ^ bitLength x.den * pow2 j := by
    intro j
    rw [pow2_add, pow2_sub, pow2_natCast, pow2_natCast]
  unfold exponent
  dsimp only
  generalize hkk : (bitLength x.num.natAbs : ℤ) - (bitLength x.den : ℤ) = k at hk
  generalize (2 : ℚ) ^ bitLength x.num.natAbs = A at *
  generalize (2 : ℚ) ^ bitLength x.den = B at *
  generalize (x.num.natAbs : ℚ) = n at *
  generalize (x.den : ℚ) = d at *
  have h1 : pow2 (k + 1) = A / B * 2 := by
    rw [hk 1]
    congr 1
  have hm1 : pow2 (k - 1) = A / B / 2 := by
    have := hk (-1)
    rw [show k + -1 = k - 1 from by ring] at this
    rw [this]
    have : pow2 (-1) = 1 / 2 := by decide!
    rw [this]
    ring
  have hupper : n / d < A / B * 2 := by
    rw [div_lt_iff₀ hdpos]
    have : A / B * 2 * d = A * (2 * d) / B := by ring
    rw [this, lt_div_iff₀ hBpos]
    nlinarith
  have hlower : A / B / 2 < n / d := by
    rw [lt_div_iff₀ hdpos]
    have : A / B / 2 * d = A * d / (2 * B) := by ring
    rw [this, div_lt_iff₀ (by linarith)]
    nlinarith
  rw [habs]
  split
  · rename_i hle
    exact ⟨hle, by rw [h1]; exact hupper⟩
  · rename_i hle
    rw [not_le] at hle
    refine ⟨by rw [hm1]; exact le_of_lt hlower, ?_⟩
    rw [show k - 1 + 1 = k from by ring]
    exact hle

/-! ## Lemmas: rounding to the nearest integer, ties to even -/

theorem roundTiesEven_cases (m : ℚ) :
    (roundTiesEven m = ⌊m⌋ ∧ m - (⌊m⌋ : ℚ) ≤ 1 / 2) ∨
    (roundTiesEven m = ⌊m⌋ + 1 ∧ 1 / 2 ≤ m - (⌊m⌋ : ℚ)) := by
  unfold roundTiesEven
  dsimp only
  split_ifs with h1 h2 h3
  · exact Or.inl ⟨rfl, le_of_lt h1⟩
  · exact Or.inr ⟨rfl, le_of_lt h2⟩
  · exact Or.inl ⟨rfl, not_lt.mp h2⟩
  · exact Or.inr ⟨rfl, not_lt.mp h1⟩

theorem roundTiesEven_near (m : ℚ) :
    ((roundTiesEven m : ℤ) : ℚ) - 1 / 2 ≤ m ∧ m ≤ ((roundTiesEven m : ℤ) : ℚ) + 1 / 2 := by
  have hfl := Int.floor_le m
  have hlt := Int.lt_floor_add_one m
  rcases roundTiesEven_cases m with ⟨h, hr⟩ | ⟨h, hr⟩
  · rw [h]
    constructor <;> linarith
  · rw [h]
    push_cast
    constructor <;> linarith

theorem roundTiesEven_intCast (n : ℤ) : roundTiesEven (n : ℚ) = n := by
  unfold roundTiesEven
  simp

theorem roundTiesEven_mono {m₁ m₂ : ℚ} (h : m₁ ≤ m₂) : roundTiesEven m₁ ≤ roundTiesEven m₂ := by
  by_contra hlt
  rw [not_le] at hlt
  have h1 := (roundTiesEven_near m₁).1
  have h2 := (roundTiesEven_near m₂).2
  have hz : ((roundTiesEven m₂ : ℤ) : ℚ) + 1 ≤ ((roundTiesEven m₁ : ℤ) : ℚ) := by
    exact_mod_cast hlt
  have heq : m₁ = m₂ := le_antisymm h (by linarith)
  rw [heq] at hlt
  exact lt_irrefl _ hlt

theorem roundTiesEven_nonneg {m : ℚ} (h : 0 ≤ m) : 0 ≤ roundTiesEven m := by
  have := roundTiesEven_mono h
  rwa [show (0 : ℚ) = ((0 : ℤ) : ℚ) from by norm_num, roundTiesEven_intCast] at this

theorem roundTiesEven_neg (m : ℚ) : roundTiesEven (-m) = -roundTiesEven m := by
  by_cases hint : ((⌊m⌋ : ℤ) : ℚ) = m
  · rw [← hint, ← Int.cast_neg, roundTiesEven_intCast, roundTiesEven_intCast]
  · have hfl := Int.floor_le m
    have hlt := Int.lt_floor_add_one m
    have hgt : ((⌊m⌋ : ℤ) : ℚ) < m := lt_of_le_of_ne hfl hint
    have hfn : ⌊-m⌋ = -⌊m⌋ - 1 := by
      rw [Int.floor_eq_iff]
      push_cast
      constructor <;> linarith
    unfold roundTiesEven
    dsimp only
    rw [hfn]
    push_cast
    by_cases h1 : m - (⌊m⌋ : ℚ) < 1 / 2
    · have h1' : ¬ (-m - (-(⌊m⌋ : ℚ) - 1) < 1 / 2) := by
        rw [not_lt]
        linarith
      have h2' : (1 : ℚ) / 2 < -m - (-(⌊m⌋ : ℚ) - 1) := by linarith
      rw [if_pos h1, if_neg h1', if_pos h2']
      ring
    · by_cases h2 : 1 / 2 < m - (⌊m⌋ : ℚ)
      · have h1' : -m - (-(⌊m⌋ : ℚ) - 1) < 1 / 2 := by linarith
        rw [if_neg h1, if_pos h2, if_pos h1']
        ring
      · have h1' : ¬ (-m - (-(⌊m⌋ : ℚ) - 1) < 1 / 2) := by
          rw [not_lt]
          linarith [not_lt.mp h1, not_lt.mp h2]
        have h2' : ¬ ((1 : ℚ) / 2 < -m - (-(⌊m⌋ : ℚ) - 1)) := by
          rw [not_lt]
          linarith [not_lt.mp h1, not_lt.mp h2]
        rw [if_neg h1, if_neg h2, if_neg h1', if_neg h2']
        by_cases hev : ⌊m⌋ % 2 = 0
        · have hod : ¬ ((-⌊m⌋ - 1) % 2 = 0) := by omega
          rw [if_pos hev, if_neg hod]
          ring
        · have hod : (-⌊m⌋ - 1) % 2 = 0 := by omega
          rw [if_neg hev, if_pos hod]
          ring

/-! ## Lemmas: rounding to binary64 -/

theorem exponent_neg (x : ℚ) : exponent (-x) = exponent x := by
  unfold exponent
  simp only [Rat.neg_num, Int.natAbs_neg, Rat.neg_den, abs_neg]

theorem ulp_neg (x : ℚ) : ulp (-x) = ulp x := by
  unfold ulp
  rw [exponent_neg]

theorem ulp_pos (x : ℚ) : 0 < ulp x := pow2_pos _

theorem round_zero : round 0 = 0 := by
  unfold round
  rw [if_pos rfl]

theorem round_neg (x : ℚ) : round (-x) = -round x := by
  unfold round
  by_cases hx : x = 0
  · subst hx
    simp
  · have hx' : -x ≠ 0 := neg_ne_zero.mpr hx
    rw [if_neg hx, if_neg hx', ulp_neg, neg_div, roundTiesEven_neg]
    push_cast
    ring

theorem round_nonneg_of_nonneg {x : ℚ} (h : 0 ≤ x) : 0 ≤ round x := by
  unfold round
  split
  · exact le_rfl
  · have hq := ulp_pos x
    have : 0 ≤ roundTiesEven (x / ulp x) := roundTiesEven_nonneg (div_nonneg h (le_of_lt hq))
    have hc : (0 : ℚ) ≤ ((roundTiesEven (x / ulp x) : ℤ) : ℚ) := by exact_mod_cast this
    exact mul_nonneg hc (le_of_lt hq)

theorem round_nonpos {x : ℚ} (h : x ≤ 0) : round x ≤ 0 := by
  have := round_nonneg_of_nonneg (neg_nonneg.mpr h)
  rw [round_neg] at this
  linarith

theorem exponent_mono {x y : ℚ} (hx : 0 < x) (h : x ≤ y) : exponent x ≤ exponent y := by
  by_contra hlt
  rw [not_le] at hlt
  have hy : 0 < y := lt_of_lt_of_le hx h
  obtain ⟨hx1, -⟩ := exponent_spec (ne_of_gt hx)
  obtain ⟨-, hy2⟩ := exponent_spec (ne_of_gt hy)
  rw [abs_of_pos hx] at hx1
  rw [abs_of_pos hy] at hy2
  have : pow2 (exponent y + 1) ≤ pow2 (exponent x) := pow2_le_pow2 (by omega)
  linarith

/-- A positive number lies below the top of its binade. -/
theorem lt_top_of_pos {x : ℚ} (hx : 0 < x) : x < pow2 (max (exponent x) (-1022) + 1) := by
  obtain ⟨-, h2⟩ := exponent_spec (ne_of_gt hx)
  rw [abs_of_pos hx] at h2
  exact lt_of_lt_of_le h2 (pow2_le_pow2 (by have := le_max_left (exponent x) (-1022); omega))

theorem pow2_53_mul_ulp (x : ℚ) : ((2 ^ 53 : ℤ) : ℚ) * ulp x = pow2 (max (exponent x) (-1022) + 1) := by
  unfold ulp
  have h53 : ((2 ^ 53 : ℤ) : ℚ) = pow2 53 := by decide!
  rw [h53, ← pow2_add]
  congr 1
  ring

theorem pow2_52_mul_ulp (x : ℚ) : ((2 ^ 52 : ℤ) : ℚ) * ulp x = pow2 (max (exponent x) (-1022)) := by
  unfold ulp
  have h52 : ((2 ^ 52 : ℤ) : ℚ) = pow2 52 := by decide!
  rw [h52, ← pow2_add]
  congr 1
  ring

theorem round_le_top {x : ℚ} (hx : 0 < x) : round x ≤ pow2 (max (exponent x) (-1022) + 1) := by
  have hq := ulp_pos x
  have hlt := lt_top_of_pos hx
  rw [← pow2_53_mul_ulp] at hlt ⊢
  unfold round
  rw [if_neg (ne_of_gt hx)]
  have hm : x / ulp x ≤ ((2 ^ 53 : ℤ) : ℚ) := by
    rw [div_le_iff₀ hq]
    exact le_of_lt hlt
  have := roundTiesEven_mono hm
  rw [roundTiesEven_intCast] at this
  have hc : ((roundTiesEven (x / ulp x) : ℤ) : ℚ) ≤ ((2 ^ 53 : ℤ) : ℚ) := by exact_mod_cast this
  exact mul_le_mul_of_nonneg_right hc (le_of_lt hq)

theorem bottom_le_round {x : ℚ} (hx : 0 < x) (hnormal : -1022 < max (exponent x) (-1022)) :
    pow2 (max (exponent x) (-1022)) ≤ round x := by
  have hq := ulp_pos x
  have he : max (exponent x) (-1022) = exponent x := by
    rcases max_choice (exponent x) (-1022) with h | h
    · exact h
    · omega
  obtain ⟨h1, -⟩ := exponent_spec (ne_of_gt hx)
  rw [abs_of_pos hx, ← he, ← pow2_52_mul_ulp] at h1
  rw [← pow2_52_mul_ulp]
  unfold round
  rw [if_neg (ne_of_gt hx)]
  have hm : ((2 ^ 52 : ℤ) : ℚ) ≤ x / ulp x := by
    rw [le_div_iff₀ hq]
    exact h1
  have := roundTiesEven_mono hm
  rw [roundTiesEven_intCast] at this
  have hc : ((2 ^ 52 : ℤ) : ℚ) ≤ ((roundTiesEven (x / ulp x) : ℤ) : ℚ) := by exact_mod_cast this
  exact mul_le_mul_of_nonneg_right hc (le_of_lt hq)

theorem round_mono_of_pos {x y : ℚ} (hx : 0 < x) (h : x ≤ y) : round x ≤ round y := by
  have hy : 0 < y := lt_of_lt_of_le hx h
  have he : max (exponent x) (-1022) ≤ max (exponent y) (-1022) :=
    max_le_max (exponent_mono hx h) le_rfl
  rcases lt_or_eq_of_le he with hlt | heq
  · have h1 := round_le_top hx
    have h2 := bottom_le_round hy (by have := le_max_right (exponent x) (-1022); omega)
    exact le_trans h1 (le_trans (pow2_le_pow2 (by omega)) h2)
  · have hq : ulp x = ulp y := by
      unfold ulp
      rw [heq]
    have hqpos := ulp_pos y
    unfold round
    rw [if_neg (ne_of_gt hx), if_neg (ne_of_gt hy), hq]
    have hm : x / ulp y ≤ y / ulp y := div_le_div_of_nonneg_right h (le_of_lt hqpos)
    have := roundTiesEven_mono hm
    have hc : ((roundTiesEven (x / ulp y) : ℤ) : ℚ) ≤ ((roundTiesEven (y / ulp y) : ℤ) : ℚ) := by
      exact_mod_cast this
    exact mul_le_mul_of_nonneg_right hc (le_of_lt hqpos)

/-- Rounding to binary64 is monotone. -/
theorem round_mono {x y : ℚ} (h : x ≤ y) : round x ≤ round y := by
  rcases lt_trichotomy 0 x with hx | hx | hx
  · exact round_mono_of_pos hx h
  · subst hx
    rw [round_zero]
    exact round_nonneg_of_nonneg h
  · rcases le_or_lt 0 y with hy | hy
    · exact le_trans (round_nonpos (le_of_lt hx)) (round_nonneg_of_nonneg hy)
    · have := round_mono_of_pos (neg_pos.mpr hy) (neg_le_neg h)
      rw [round_neg, round_neg] at this
      linarith

/-- A number whose quotient by its spacing is an integer is a binary64 value. -/
theorem round_eq_self_of_int {x : ℚ} {k : ℤ} (h : x / ulp x = (k : ℚ)) : round x = x := by
  unfold round
  split
  · rename_i h0
    exact h0.symm
  · rw [h, roundTiesEven_intCast, ← h]
    exact div_mul_cancel₀ x (ne_of_gt (ulp_pos x))

/-- The numbers `k * 2 ^ j` with `|k| ≤ 2 ^ 53` and `j ≥ -1074` are binary64 values. -/
theorem round_representable (k j : ℤ) (hk : |k| ≤ 2 ^ 53) (hj : -1074 ≤ j) :
    round ((k : ℚ) * pow2 j) = (k : ℚ) * pow2 j := by
  by_cases hk0 : k = 0
  · subst hk0
    simp [round_zero]
  have hx : (k : ℚ) * pow2 j ≠ 0 := mul_ne_zero (by exact_mod_cast hk0) (ne_of_gt (pow2_pos j))
  generalize hxe : (k : ℚ) * pow2 j = x at hx ⊢
  by_cases hcase : max (exponent x) (-1022) - 52 ≤ j
  · -- the spacing divides `2 ^ j`
    have hd : pow2 j / ulp x = ((2 ^ (j - (max (exponent x) (-1022) - 52)).toNat : ℤ) : ℚ) := by
      unfold ulp
      rw [← pow2_sub]
      have hnn : 0 ≤ j - (max (exponent x) (-1022) - 52) := by omega
      rw [pow2_eq]
      conv_lhs => rw [← Int.toNat_of_nonneg hnn]
      rw [zpow_natCast]
      push_cast
      rfl
    apply @round_eq_self_of_int x (k * 2 ^ (j - (max (exponent x) (-1022) - 52)).toNat)
    have hxq : x / ulp x = (k : ℚ) * (pow2 j / ulp x) := by
      rw [← mul_div_assoc, hxe]
    rw [hxq, hd]
    push_cast
    rfl
  · -- otherwise `|x|` is the bottom of its binade
    rw [not_le] at hcase
    have hmax : max (exponent x) (-1022) = exponent x := by
      rcases max_choice (exponent x) (-1022) with h | h
      · exact h
      · omega
    rw [hmax] at hcase
    obtain ⟨h1, -⟩ := exponent_spec hx
    have habs : |x| ≤ pow2 (exponent x) := by
      have hxa : |x| = |(k : ℚ)| * pow2 j := by
        rw [← hxe, abs_mul, abs_of_pos (pow2_pos j)]
      rw [hxa]
      have hk' : |(k : ℚ)| ≤ pow2 53 := by
        have : |(k : ℚ)| = ((|k| : ℤ) : ℚ) := by push_cast; rfl
        rw [this]
        have h53 : pow2 53 = (((2 : ℤ) ^ 53 : ℤ) : ℚ) := by decide!
        rw [h53]
        exact_mod_cast hk
      calc |(k : ℚ)| * pow2 j ≤ pow2 53 * pow2 j :=
            mul_le_mul_of_nonneg_right hk' (le_of_lt (pow2_pos j))
        _ = pow2 (53 + j) := (pow2_add 53 j).symm
        _ ≤ pow2 (exponent x) := pow2_le_pow2 (by omega)
    have heq : |x| = pow2 (exponent x) := le_antisymm habs h1
    have hq : |x| / ulp x = ((2 ^ 52 : ℤ) : ℚ) := by
      rw [heq, div_eq_iff (ne_of_gt (ulp_pos x)), pow2_52_mul_ulp, hmax]
    rcases abs_cases x with ⟨ha, -⟩ | ⟨ha, -⟩
    · rw [ha] at hq
      exact round_eq_self_of_int hq
    · rw [ha, neg_div] at hq
      apply @round_eq_self_of_int x (-(2 ^ 52))
      push_cast
      push_cast at hq
      linarith

/-- The integers up to `2 ^ 53` in absolute value are binary64 values. -/
theorem round_intCast (k : ℤ) (hk : |k| ≤ 2 ^ 53) : round (k : ℚ) = (k : ℚ) := by
  have := round_representable k 0 hk (by norm_num)
  have h0 : pow2 0 = 1 := by decide!
  rwa [h0, mul_one] at this

/-- The rounding error is at most half the spacing. -/
theorem abs_round_sub_le (x : ℚ) : |round x - x| ≤ ulp x / 2 := by
  unfold round
  split
  · rename_i h0
    rw [h0, sub_zero, abs_zero]
    exact le_of_lt (half_pos (ulp_pos 0))
  · have hq := ulp_pos x
    obtain ⟨h1, h2⟩ := roundTiesEven_near (x / ulp x)
    have e : ((roundTiesEven (x / ulp x) : ℤ) : ℚ) * ulp x - x =
        (((roundTiesEven (x / ulp x) : ℤ) : ℚ) - x / ulp x) * ulp x := by
      rw [sub_mul, div_mul_cancel₀ x (ne_of_gt hq)]
    rw [e, abs_le]
    constructor
    · have : -(1 / 2) * ulp x ≤ (((roundTiesEven (x / ulp x) : ℤ) : ℚ) - x / ulp x) * ulp x :=
        mul_le_mul_of_nonneg_right (by linarith) (le_of_lt hq)
      linarith
    · have : (((roundTiesEven (x / ulp x) : ℤ) : ℚ) - x / ulp x) * ulp x ≤ (1 / 2) * ulp x :=
        mul_le_mul_of_nonneg_right (by linarith) (le_of_lt hq)
      linarith

/-! ## Lemmas: the square root -/

theorem isqrtAux_spec (y : ℕ) : ∀ (k r : ℕ), r * r ≤ y → y < (r + 2 ^ k) * (r + 2 ^ k) →
    isqrtAux y k r * isqrtAux y k r ≤ y ∧ y < (isqrtAux y k r + 1) * (isqrtAux y k r + 1) := by
  intro k
  induction k with
  | zero =>
    intro r h1 h2
    simpa [isqrtAux] using And.intro h1 h2
  | succ k ih =>
    intro r h1 h2
    simp only [isqrtAux]
    split
    · rename_i hle
      apply ih _ hle
      have e : r + 2 ^ k + 2 ^ k = r + 2 ^ (k + 1) := by
        rw [pow_succ]
        ring
      rw [e]
      exact h2
    · rename_i hle
      exact ih _ h1 (not_le.mp hle)

theorem isqrt_spec (y : ℕ) : isqrt y * isqrt y ≤ y ∧ y < (isqrt y + 1) * (isqrt y + 1) := by
  unfold isqrt
  apply isqrtAux_spec y (bitLength y) 0 (by simp)
  rw [zero_add]
  by_cases h0 : y = 0
  · subst h0
    have : bitLength 0 = 0 := rfl
    rw [this]
    norm_num
  · obtain ⟨-, -, hlt⟩ := bitLength_spec h0
    have h1 : 1 ≤ 2 ^ bitLength y := Nat.one_le_two_pow
    calc y < 2 ^ bitLength y := hlt
      _ = 2 ^ bitLength y * 1 := (mul_one _).symm
      _ ≤ 2 ^ bitLength y * 2 ^ bitLength y := Nat.mul_le_mul_left _ h1

theorem sqrt_nonneg (x : ℚ) : 0 ≤ sqrt x := by
  unfold sqrt
  split
  · exact le_rfl
  · dsimp only
    exact mul_nonneg (Nat.cast_nonneg _) (le_of_lt (pow2_pos _))

theorem sqrt_zero : sqrt 0 = 0 := by
  unfold sqrt
  rw [if_pos le_rfl]

/-- What the definition of `sqrt` gives for a positive `x`: with the spacing `q` and the scaled
argument `y = x / q²`, the result is `r * q` for a natural number `r` with `r - 1/2 ≤ √y ≤
r + 1/2`, stated through squares. -/
theorem sqrt_pos_spec {x : ℚ} (hx : 0 < x) :
    ∃ r : ℕ, sqrt x = (r : ℚ) * pow2 (exponent x / 2 - 52) ∧
      (∀ J : ℕ, (J : ℚ) * (J : ℚ) ≤ x / (pow2 (exponent x / 2 - 52) * pow2 (exponent x / 2 - 52)) →
        J ≤ r) ∧
      (∀ J : ℕ, 1 ≤ J → J ≤ r →
        ((J : ℚ) - 1 / 2) * ((J : ℚ) - 1 / 2) ≤
          x / (pow2 (exponent x / 2 - 52) * pow2 (exponent x / 2 - 52))) := by
  have hq := pow2_pos (exponent x / 2 - 52)
  generalize hqe : pow2 (exponent x / 2 - 52) = q at hq
  have hy : 0 < x / (q * q) := div_pos hx (mul_pos hq hq)
  generalize hye : x / (q * q) = y at hy
  obtain ⟨hm1, hm2⟩ := isqrt_spec ⌊y⌋.toNat
  generalize hme : isqrt ⌊y⌋.toNat = m at hm1 hm2
  have hfl0 : 0 ≤ ⌊y⌋ := Int.floor_nonneg.mpr (le_of_lt hy)
  have hcast : ((⌊y⌋.toNat : ℕ) : ℚ) = ((⌊y⌋ : ℤ) : ℚ) := by
    have : ((⌊y⌋.toNat : ℕ) : ℤ) = ⌊y⌋ := Int.toNat_of_nonneg hfl0
    exact_mod_cast this
  -- m² ≤ y < (m + 1)²
  have hlo : (m : ℚ) * (m : ℚ) ≤ y := by
    have h : ((m * m : ℕ) : ℚ) ≤ ((⌊y⌋.toNat : ℕ) : ℚ) := by exact_mod_cast hm1
    rw [hcast] at h
    push_cast at h
    exact le_trans h (Int.floor_le y)
  have hhi : y < ((m : ℚ) + 1) * ((m : ℚ) + 1) := by
    have h : ((⌊y⌋.toNat : ℕ) : ℚ) + 1 ≤ (((m + 1) * (m + 1) : ℕ) : ℚ) := by exact_mod_cast hm2
    rw [hcast] at h
    push_cast at h
    exact lt_of_lt_of_le (Int.lt_floor_add_one y) h
  have hmnn : (0 : ℚ) ≤ (m : ℚ) := Nat.cast_nonneg m
  -- from J² ≤ y follows J ≤ m
  have hJm : ∀ J : ℕ, (J : ℚ) * (J : ℚ) ≤ y → J ≤ m := by
    intro J hJ
    by_contra hlt
    rw [not_le] at hlt
    have h1 : (m : ℚ) + 1 ≤ (J : ℚ) := by exact_mod_cast hlt
    have : ((m : ℚ) + 1) * ((m : ℚ) + 1) ≤ (J : ℚ) * (J : ℚ) :=
      mul_le_mul h1 h1 (by linarith) (by linarith)
    linarith
  have hsq : ∀ J : ℕ, 1 ≤ J → ∀ t : ℚ, (J : ℚ) - 1 / 2 ≤ t → t * t ≤ y →
      ((J : ℚ) - 1 / 2) * ((J : ℚ) - 1 / 2) ≤ y := by
    intro J hJ t ht hty
    have hJ1 : (1 : ℚ) ≤ (J : ℚ) := by exact_mod_cast hJ
    have : ((J : ℚ) - 1 / 2) * ((J : ℚ) - 1 / 2) ≤ t * t :=
      mul_le_mul ht ht (by linarith) (by linarith)
    linarith
  unfold sqrt
  rw [if_neg (not_le.mpr hx)]
  dsimp only
  rw [hqe, hye, hme]
  by_cases h1 : y < ((m : ℚ) + 1 / 2) * ((m : ℚ) + 1 / 2)
  · rw [if_pos h1]
    refine ⟨m, rfl, hJm, ?_⟩
    intro J hJ hJr
    have hJq : (J : ℚ) ≤ (m : ℚ) := by exact_mod_cast hJr
    exact hsq J hJ (m : ℚ) (by linarith) hlo
  · have hmid : ((m : ℚ) + 1 / 2) * ((m : ℚ) + 1 / 2) ≤ y := not_lt.mp h1
    rw [if_neg h1]
    have hup : ∀ J : ℕ, 1 ≤ J → J ≤ m + 1 →
        ((J : ℚ) - 1 / 2) * ((J : ℚ) - 1 / 2) ≤ y := by
      intro J hJ hJr
      have hJq : (J : ℚ) ≤ (m : ℚ) + 1 := by exact_mod_cast hJr
      exact hsq J hJ ((m : ℚ) + 1 / 2) (by linarith) hmid
    have hJm1 : ∀ J : ℕ, (J : ℚ) * (J : ℚ) ≤ y → J ≤ m + 1 := fun J hJ =>
      le_trans (hJm J hJ) (Nat.le_succ m)
    have hdown : ∀ J : ℕ, 1 ≤ J → J ≤ m →
        ((J : ℚ) - 1 / 2) * ((J : ℚ) - 1 / 2) ≤ y := fun J hJ hJr =>
      hup J hJ (le_trans hJr (Nat.le_succ m))
    by_cases h2 : ((m : ℚ) + 1 / 2) * ((m : ℚ) + 1 / 2) < y
    · rw [if_pos h2]
      exact ⟨m + 1, rfl, hJm1, hup⟩
    · rw [if_neg h2]
      by_cases h3 : m % 2 = 0
      · rw [if_pos h3]
        exact ⟨m, rfl, hJm, hdown⟩
      · rw [if_neg h3]
        exact ⟨m + 1, rfl, hJm1, hup⟩

theorem pow2_of_nonneg {z : ℤ} (h : 0 ≤ z) : pow2 z = ((2 ^ z.toNat : ℕ) : ℚ) := by
  unfold pow2
  rw [if_pos h]

/-- On natural numbers below `2 ^ 53` the rounded square root compares with a natural number up
to `2 ^ 26` as the exact one does. -/
theorem sqrt_natCast_lt_iff (S M : ℕ) (hS : S < 2 ^ 53) (hM : M ≤ 2 ^ 26) :
    sqrt (S : ℚ) < (M : ℚ) ↔ S < M * M := by
  by_cases hS0 : S = 0
  · subst hS0
    rw [Nat.cast_zero, sqrt_zero]
    constructor
    · intro h
      have : 0 < M := by exact_mod_cast h
      exact Nat.mul_pos this this
    · intro h
      have : 0 < M := Nat.pos_of_mul_pos_left h
      exact_mod_cast this
  have hx : (0 : ℚ) < (S : ℚ) := by exact_mod_cast Nat.pos_of_ne_zero hS0
  obtain ⟨he1, he2⟩ := exponent_spec (ne_of_gt hx)
  rw [abs_of_pos hx] at he1 he2
  have hS1 : (1 : ℚ) ≤ (S : ℚ) := by exact_mod_cast Nat.pos_of_ne_zero hS0
  have hS53 : (S : ℚ) < pow2 53 := by
    rw [pow2_of_nonneg (by norm_num)]
    exact_mod_cast hS
  have he0 : 0 ≤ exponent (S : ℚ) := by
    by_contra hneg
    rw [not_le] at hneg
    have : pow2 (exponent (S : ℚ) + 1) ≤ pow2 0 := pow2_le_pow2 (by omega)
    have h0 : pow2 0 = 1 := by decide!
    linarith
  have he52 : exponent (S : ℚ) ≤ 52 := by
    by_contra hbig
    rw [not_le] at hbig
    have : pow2 53 ≤ pow2 (exponent (S : ℚ)) := pow2_le_pow2 (by omega)
    linarith
  obtain ⟨r, hr, hP1, hP2⟩ := sqrt_pos_spec hx
  generalize hse : exponent (S : ℚ) / 2 = s at hr hP1 hP2
  have hs0 : 0 ≤ s := by omega
  have hs26 : s ≤ 26 := by omega
  -- the spacing is `1 / T` for a natural number `T ≥ 2 ^ 26`
  have hTdef : pow2 (52 - s) = ((2 ^ (52 - s).toNat : ℕ) : ℚ) := pow2_of_nonneg (by omega)
  generalize hTe : 2 ^ (52 - s).toNat = T at hTdef
  have hT26 : 2 ^ 26 ≤ T := by
    rw [← hTe]
    exact Nat.pow_le_pow_right (by norm_num) (by omega)
  have hqT : pow2 (s - 52) * (T : ℚ) = 1 := by
    rw [← hTdef, ← pow2_add]
    have : s - 52 + (52 - s) = 0 := by ring
    rw [this]
    decide!
  have hTpos : (0 : ℚ) < (T : ℚ) := by
    have : 0 < T := lt_of_lt_of_le (by norm_num) hT26
    exact_mod_cast this
  have hq : pow2 (s - 52) = 1 / (T : ℚ) := by
    rw [eq_div_iff (ne_of_gt hTpos)]
    exact hqT
  rw [hq] at hr hP1 hP2
  have hy : (S : ℚ) / (1 / (T : ℚ) * (1 / (T : ℚ))) = (S : ℚ) * ((T : ℚ) * (T : ℚ)) := by
    field_simp
  rw [hy] at hP1 hP2
  rw [hr]
  have hlt_iff : (r : ℚ) * (1 / (T : ℚ)) < (M : ℚ) ↔ r < M * T := by
    rw [mul_one_div, div_lt_iff₀ hTpos]
    exact_mod_cast Iff.rfl
  rw [hlt_iff]
  constructor
  · intro hrM
    by_contra hge
    rw [not_lt] at hge
    have hJ : ((M * T : ℕ) : ℚ) * ((M * T : ℕ) : ℚ) ≤ (S : ℚ) * ((T : ℚ) * (T : ℚ)) := by
      have h1 : ((M * M : ℕ) : ℚ) ≤ (S : ℚ) := by exact_mod_cast hge
      have h2 : (0 : ℚ) ≤ (T : ℚ) * (T : ℚ) := by positivity
      have := mul_le_mul_of_nonneg_right h1 h2
      push_cast at this ⊢
      linarith
    have := hP1 (M * T) hJ
    omega
  · intro hSM
    by_contra hge
    rw [not_lt] at hge
    have hM1 : 1 ≤ M := by
      rcases Nat.eq_zero_or_pos M with h | h
      · subst h
        simp at hSM
      · exact h
    have hJ1 : 1 ≤ M * T := Nat.mul_pos hM1 (lt_of_lt_of_le (by norm_num) hT26)
    have h2 := hP2 (M * T) hJ1 hge
    have hS' : (S : ℚ) + 1 ≤ (M : ℚ) * (M : ℚ) := by exact_mod_cast hSM
    have hMT : (M : ℚ) ≤ (T : ℚ) := by exact_mod_cast le_trans hM hT26
    have hM1q : (1 : ℚ) ≤ (M : ℚ) := by exact_mod_cast hM1
    push_cast at h2
    have hTT : (0 : ℚ) ≤ (T : ℚ) * (T : ℚ) := by positivity
    have h3 : ((S : ℚ) + 1) * ((T : ℚ) * (T : ℚ)) ≤ (M : ℚ) * (M : ℚ) * ((T : ℚ) * (T : ℚ)) :=
      mul_le_mul_of_nonneg_right hS' hTT
    have h4 : (M : ℚ) * (T : ℚ) ≤ (T : ℚ) * (T : ℚ) :=
      mul_le_mul_of_nonneg_right hMT (le_of_lt hTpos)
    have e2 : ((M : ℚ) * (T : ℚ) - 1 / 2) * ((M : ℚ) * (T : ℚ) - 1 / 2) =
        (M : ℚ) * (M : ℚ) * ((T : ℚ) * (T : ℚ)) - (M : ℚ) * (T : ℚ) + 1 / 4 := by ring
    have e3 : ((S : ℚ) + 1) * ((T : ℚ) * (T : ℚ)) =
        (S : ℚ) * ((T : ℚ) * (T : ℚ)) + (T : ℚ) * (T : ℚ) := by ring
    rw [e2] at h2
    rw [e3] at h3
    linarith

/-- Values of the model against the doubles every JavaScript engine prints: `0.1` is
`3602879701896397 / 2 ^ 55`, `0.1 + 0.2` is `0.30000000000000004`, `1 / 3` and `Math.sqrt(2)`
are the nearest doubles, `Math.sqrt(25)` is 5, and a number below half of the least positive
double `2 ^ (-1074)` rounds to 0. -/
theorem known_values :
    round (1 / 10) = 3602879701896397 / 36028797018963968 ∧
    add (round (1 / 10)) (round (2 / 10)) = 1351079888211149 / 4503599627370496 ∧
    round (3 / 10) < add (round (1 / 10)) (round (2 / 10)) ∧
    div 1 3 = 6004799503160661 / 18014398509481984 ∧
    sqrt 2 = 6369051672525773 / 4503599627370496 ∧
    sqrt 25 = 5 ∧
    round (pow2 (-1074)) = pow2 (-1074) ∧
    round (pow2 (-1076)) = 0 := by
  refine ⟨by decide!, by decide!, by decide!, by decide!, by decide!, by decide!, by decide!,
    by decide!⟩

end Binary64

namespace CheddarConsole

/-! ## Lemmas: the pixel loop -/

theorem foldl_append_eq_flatten {α β : Type} (f : α → List β) (l : List α) (init : List β) :
    l.foldl (fun acc x => acc ++ f x) init = init ++ (l.map f).flatten := by
  induction l generalizing init with
  | nil => simp
  | cons a l ih => simp [ih, List.append_assoc]

theorem flatten_singletons {α β : Type} (P : β → Prop) (f : α → List β) (l : List α)
    (h : ∀ x ∈ l, ∃ c, P c ∧ f x = [c]) :
    ((l.map f).flatten).length = l.length ∧ ∀ c ∈ (l.map f).flatten, P c := by
  induction l with
  | nil => simp
  | cons a l ih =>
    obtain ⟨c, hc, hfa⟩ := h a (List.mem_cons_self _ _)
    obtain ⟨hlen, hall⟩ := ih (fun x hx => h x (List.mem_cons_of_mem _ hx))
    refine ⟨?_, ?_⟩
    · simp only [List.map_cons, List.flatten_cons, List.length_append, hfa, hlen,
        List.length_cons, List.length_nil]
      omega
    · intro d hd
      simp only [List.map_cons, List.flatten_cons, List.mem_append, hfa, List.mem_singleton] at hd
      rcases hd with rfl | hd
      · exact hc
      · exact hall d hd

theorem RAMP_length : RAMP.length = 67 := by decide

theorem luminance_nonneg (r g b : ℕ) : 0 ≤ luminance r g b := by
  unfold luminance
  positivity

theorem round_nonneg {x : ℚ} (hx : 0 ≤ x) : 0 ≤ Math.round x := by
  unfold Math.round
  exact Int.floor_nonneg.mpr (by linarith)

theorem rampIndex_nonneg {L : ℚ} (hL : 0 ≤ L) : 0 ≤ rampIndex L := by
  unfold rampIndex
  rw [RAMP_length]
  refine le_min (by norm_num) (round_nonneg ?_)
  have : (0 : ℚ) ≤ ((67 : ℕ) : ℚ) - 1 := by norm_num
  exact mul_nonneg hL this

theorem rampIndex_le (L : ℚ) : rampIndex L ≤ 66 := by
  unfold rampIndex
  rw [RAMP_length]
  exact le_trans (min_le_left _ _) (by norm_num)

theorem rampAt_rampIndex {L : ℚ} (hL : 0 ≤ L) : ∃ c ∈ RAMP, rampAt (rampIndex L) = some c := by
  have h0 := rampIndex_nonneg hL
  have h1 := rampIndex_le L
  have hlt : (rampIndex L).toNat < RAMP.length := by
    rw [RAMP_length]
    omega
  refine ⟨RAMP[(rampIndex L).toNat], List.getElem_mem _, ?_⟩
  simp [rampAt, h0, List.getElem?_eq_getElem hlt]

theorem mul_nonneg64 {a b : ℚ} (ha : 0 ≤ a) (hb : 0 ≤ b) : 0 ≤ Binary64.mul a b :=
  Binary64.round_nonneg_of_nonneg (mul_nonneg ha hb)

theorem add_nonneg64 {a b : ℚ} (ha : 0 ≤ a) (hb : 0 ≤ b) : 0 ≤ Binary64.add a b :=
  Binary64.round_nonneg_of_nonneg (add_nonneg ha hb)

theorem div_nonneg64 {a b : ℚ} (ha : 0 ≤ a) (hb : 0 ≤ b) : 0 ≤ Binary64.div a b :=
  Binary64.round_nonneg_of_nonneg (div_nonneg ha hb)

theorem mul_mono64 {a b c : ℚ} (ha : 0 ≤ a) (h : b ≤ c) : Binary64.mul a b ≤ Binary64.mul a c :=
  Binary64.round_mono (mul_le_mul_of_nonneg_left h ha)

theorem mul_mono_left64 {a b c : ℚ} (hc : 0 ≤ c) (h : a ≤ b) :
    Binary64.mul a c ≤ Binary64.mul b c :=
  Binary64.round_mono (mul_le_mul_of_nonneg_right h hc)

theorem add_mono64 {a b c d : ℚ} (h1 : a ≤ b) (h2 : c ≤ d) :
    Binary64.add a c ≤ Binary64.add b d :=
  Binary64.round_mono (add_le_add h1 h2)

theorem div_mono64 {a b c : ℚ} (hc : 0 ≤ c) (h : a ≤ b) : Binary64.div a c ≤ Binary64.div b c :=
  Binary64.round_mono (div_le_div_of_nonneg_right h hc)

theorem luminance64_nonneg (r g b : ℕ) : 0 ≤ luminance64 r g b := by
  unfold luminance64
  have h1 : (0 : ℚ) ≤ Binary64.round 0.2126 := Binary64.round_nonneg_of_nonneg (by norm_num)
  have h2 : (0 : ℚ) ≤ Binary64.round 0.7152 := Binary64.round_nonneg_of_nonneg (by norm_num)
  have h3 : (0 : ℚ) ≤ Binary64.round 0.0722 := Binary64.round_nonneg_of_nonneg (by norm_num)
  exact div_nonneg64 (add_nonneg64 (add_nonneg64 (mul_nonneg64 h1 (Nat.cast_nonneg r))
    (mul_nonneg64 h2 (Nat.cast_nonneg g))) (mul_nonneg64 h3 (Nat.cast_nonneg b))) (by norm_num)

/-- The luminance in double arithmetic grows with each channel. -/
theorem luminance64_mono {r g b r2 g2 b2 : ℕ} (hr : r ≤ r2) (hg : g ≤ g2) (hb : b ≤ b2) :
    luminance64 r g b ≤ luminance64 r2 g2 b2 := by
  unfold luminance64
  have h1 : (0 : ℚ) ≤ Binary64.round 0.2126 := Binary64.round_nonneg_of_nonneg (by norm_num)
  have h2 : (0 : ℚ) ≤ Binary64.round 0.7152 := Binary64.round_nonneg_of_nonneg (by norm_num)
  have h3 : (0 : ℚ) ≤ Binary64.round 0.0722 := Binary64.round_nonneg_of_nonneg (by norm_num)
  have hr' : (r : ℚ) ≤ (r2 : ℚ) := by exact_mod_cast hr
  have hg' : (g : ℚ) ≤ (g2 : ℚ) := by exact_mod_cast hg
  have hb' : (b : ℚ) ≤ (b2 : ℚ) := by exact_mod_cast hb
  exact div_mono64 (by norm_num) (add_mono64 (add_mono64 (mul_mono64 h1 hr') (mul_mono64 h2 hg'))
    (mul_mono64 h3 hb'))

/-- The luminance of a white pixel in double arithmetic is the binary64 value just below 1. -/
theorem luminance64_white : luminance64 255 255 255 = 1 - 1 / 2 ^ 53 := by decide!

theorem luminance64_le_one {r g b : ℕ} (hr : r ≤ 255) (hg : g ≤ 255) (hb : b ≤ 255) :
    luminance64 r g b ≤ 1 := by
  have h := luminance64_mono hr hg hb
  rw [luminance64_white] at h
  have : (1 : ℚ) - 1 / 2 ^ 53 ≤ 1 := by norm_num
  exact le_trans h this

theorem rampIndex64_nonneg {L : ℚ} (hL : 0 ≤ L) : 0 ≤ rampIndex64 L := by
  unfold rampIndex64
  rw [RAMP_length]
  refine le_min (by norm_num) (round_nonneg ?_)
  have : (0 : ℚ) ≤ ((67 : ℕ) : ℚ) - 1 := by norm_num
  exact mul_nonneg64 hL this

theorem rampIndex64_le (L : ℚ) : rampIndex64 L ≤ 66 := by
  unfold rampIndex64
  rw [RAMP_length]
  exact le_trans (min_le_left _ _) (by norm_num)

theorem rampAt_rampIndex64 {L : ℚ} (hL : 0 ≤ L) :
    ∃ c ∈ RAMP, rampAt (rampIndex64 L) = some c := by
  have h0 := rampIndex64_nonneg hL
  have h1 := rampIndex64_le L
  have hlt : (rampIndex64 L).toNat < RAMP.length := by
    rw [RAMP_length]
    omega
  refine ⟨RAMP[(rampIndex64 L).toNat], List.getElem_mem _, ?_⟩
  simp [rampAt, h0, List.getElem?_eq_getElem hlt]

theorem rampIndex64_mono {L₁ L₂ : ℚ} (h : L₁ ≤ L₂) : rampIndex64 L₁ ≤ rampIndex64 L₂ := by
  unfold rampIndex64 Math.round
  refine min_le_min le_rfl (Int.floor_mono ?_)
  have h66 : (0 : ℚ) ≤ (RAMP.length : ℚ) - 1 := by
    rw [RAMP_length]
    norm_num
  have := mul_mono_left64 h66 h
  linarith

theorem rampText_of_rampAt {i : ℤ} {c : Char} (h : rampAt i = some c) : rampText i = [c] := by
  unfold rampText
  rw [h]

theorem pixelText_of_lt (data : List ℕ) (i : ℕ) (h : i + 2 < data.length) :
    ∃ c ∈ RAMP, pixelText data i = [c] := by
  have h0 : i < data.length := by omega
  have h1 : i + 1 < data.length := by omega
  obtain ⟨c, hc, hcx⟩ :=
    rampAt_rampIndex64 (luminance64_nonneg data[i] data[i + 1] data[i + 2])
  refine ⟨c, hc, ?_⟩
  unfold pixelText
  rw [List.getElem?_eq_getElem h0, List.getElem?_eq_getElem h1, List.getElem?_eq_getElem h]
  exact rampText_of_rampAt hcx

theorem rasterRow_spec (data : List ℕ) (W H y : ℕ) (hdata : data.length = 4 * W * H)
    (hy : y < H) :
    (rasterRow data W y).length = W ∧ ∀ c ∈ rasterRow data W y, c ∈ RAMP := by
  have hpix : ∀ x ∈ List.range W, ∃ c, c ∈ RAMP ∧ pixelText data ((y * W + x) * 4) = [c] := by
    intro x hx
    apply pixelText_of_lt
    have hx' : x < W := List.mem_range.mp hx
    have : y * W + x < W * H := by
      calc y * W + x < y * W + W := by omega
        _ = (y + 1) * W := by ring
        _ ≤ H * W := Nat.mul_le_mul_right W hy
        _ = W * H := by ring
    rw [hdata]
    have e : 4 * W * H = (W * H) * 4 := by ring
    omega
  unfold rasterRow
  rw [foldl_append_eq_flatten, List.nil_append]
  have key := flatten_singletons (fun c => c ∈ RAMP)
    (fun x => pixelText data ((y * W + x) * 4)) (List.range W) hpix
  rw [List.length_range] at key
  exact key

theorem rasterLoop_isRaster (data : List ℕ) (W H : ℕ) (hdata : data.length = 4 * W * H) :
    IsRaster W H (rasterLoop data W H) := by
  refine ⟨(List.range H).map (fun y => rasterRow data W y), by simp, ?_, ?_⟩
  · intro row hrow
    rw [List.mem_map] at hrow
    obtain ⟨y, hy, rfl⟩ := hrow
    exact rasterRow_spec data W H y hdata (List.mem_range.mp hy)
  · unfold rasterLoop
    rw [foldl_append_eq_flatten, List.nil_append, List.map_map]
    rfl

/-! ## Lemmas: the renderer -/

theorem getImageData_length (source : Bitmap) (w h : ℕ) :
    (getImageData source w h).length = 4 * w * h := by
  simp [getImageData]

theorem isRaster_ne_nil {W H : ℕ} {out : Str} (hH : 1 ≤ H) (h : IsRaster W H out) : out ≠ [] := by
  obtain ⟨rows, hlen, -, rfl⟩ := h
  match rows, hlen with
  | [], hlen => simp at hlen; omega
  | row :: rest, _ => simp

theorem toNat_max_one_pos (x : ℤ) : 1 ≤ (max 1 x).toNat := by
  have h : (1 : ℤ) ≤ max 1 x := le_max_left 1 x
  omega

theorem imageToAscii_resolved {env : Env} {src : Str} {width : ℕ} {invert : Bool} {out : Str}
    (h : imageToAscii env src width invert = Outcome.resolved out) :
    0 < width ∧ ∃ H, 1 ≤ H ∧ IsRaster width H out := by
  unfold imageToAscii at h
  split at h
  · exact absurd h (by simp)
  · rename_i img himg
    by_cases hw : width = 0
    · simp [hw] at h
    · simp only [hw, if_false] at h
      injection h with h
      subst h
      exact ⟨Nat.pos_of_ne_zero hw, _, toNat_max_one_pos _,
        rasterLoop_isRaster _ _ _ (getImageData_length _ _ _)⟩

theorem emojiToAscii_resolved {env : Env} {emoji : Str} {width : ℕ} {out : Str}
    (h : emojiToAscii env emoji width = Outcome.resolved out) :
    0 < width ∧ ∃ H, 1 ≤ H ∧ IsRaster width H out := by
  unfold emojiToAscii at h
  split at h
  · exact absurd h (by simp)
  · by_cases hw : width = 0
    · simp [hw] at h
    · simp only [hw, if_false] at h
      injection h with h
      subst h
      exact ⟨Nat.pos_of_ne_zero hw, _, toNat_max_one_pos _,
        rasterLoop_isRaster _ _ _ (getImageData_length _ _ _)⟩

/-! ## Lemmas: storage -/

theorem getItem_cons (p : Str × Str) (st : Storage) (k : Str) :
    getItem (p :: st) k = if p.1 = k then some p.2 else getItem st k := by
  by_cases hp : p.1 = k <;> simp [getItem, List.find?_cons, hp]

theorem removeItem_cons (p : Str × Str) (st : Storage) (k : Str) :
    removeItem (p :: st) k = if p.1 = k then removeItem st k else p :: removeItem st k := by
  by_cases hp : p.1 = k <;> simp [removeItem, List.filter_cons, hp]

theorem getItem_removeItem_self (st : Storage) (k : Str) : getItem (removeItem st k) k = none := by
  induction st with
  | nil => rfl
  | cons p st ih =>
    rw [removeItem_cons]
    by_cases hp : p.1 = k
    · rw [if_pos hp]
      exact ih
    · rw [if_neg hp, getItem_cons, if_neg hp]
      exact ih

theorem getItem_removeItem_of_ne (st : Storage) {k k' : Str} (h : k' ≠ k) :
    getItem (removeItem st k) k' = getItem st k' := by
  induction st with
  | nil => rfl
  | cons p st ih =>
    rw [removeItem_cons, getItem_cons]
    by_cases hp : p.1 = k
    · have hp' : ¬ p.1 = k' := fun e => h (e.symm.trans hp)
      rw [if_pos hp, if_neg hp']
      exact ih
    · rw [if_neg hp, getItem_cons, ih]

theorem getItem_append (st st' : Storage) (k : Str) :
    getItem (st ++ st') k = (getItem st k).orElse (fun _ => getItem st' k) := by
  induction st with
  | nil => simp [getItem]
  | cons p st ih =>
    rw [List.cons_append, getItem_cons, getItem_cons]
    by_cases hp : p.1 = k
    · simp [hp]
    · rw [if_neg hp, if_neg hp]
      exact ih

theorem getItem_setItem_self (st : Storage) (k v : Str) : getItem (setItem st k v) k = some v := by
  rw [setItem, getItem_append, getItem_removeItem_self, getItem_cons]
  simp

theorem getItem_setItem_of_ne (st : Storage) {k k' : Str} (v : Str) (h : k' ≠ k) :
    getItem (setItem st k v) k' = getItem st k' := by
  rw [setItem, getItem_append, getItem_removeItem_of_ne st h, getItem_cons]
  have hk : ¬ k = k' := fun e => h e.symm
  cases hg : getItem st k' <;> simp [getItem, hk]

/-! ## Lemmas: output helpers -/

theorem trim_line : trim ("cheddar-console__line ".toList ++ []) = "cheddar-console__line".toList := by
  decide

theorem trim_line_ascii :
    trim ("cheddar-console__line ".toList ++ asciiClass) =
      "cheddar-console__line cheddar-console__ascii".toList := by
  decide

theorem println_eq (html : Str) (s : State) :
    println html [] s = { s with out := s.out ++ [lineEntry html] } := by
  simp only [println, trim_line, lineEntry]

theorem printPre_eq (text : Str) (s : State) :
    printPre text asciiClass s = { s with out := s.out ++ [asciiEntry text] } := by
  simp only [printPre, trim_line_ascii, asciiEntry]

/-! ## Lemmas: summonCheddar -/

theorem materializing_ne_failed (err : Str) :
    lineEntry materializingText ≠ lineEntry (failedText ++ escapeHtml err) := by
  intro h
  have h1 := congrArg (fun e => e.content.head?) h
  have h2 : (failedText ++ escapeHtml err).head? = some 'F' := rfl
  have h3 : materializingText.head? = some 'm' := rfl
  simp only [lineEntry] at h1
  rw [h2, h3] at h1
  exact absurd h1 (by decide)

theorem renderSubject_snd (env : Env) (c : Bool) (w : ℕ) (s : State) :
    ∃ cs, cs ≠ [] ∧ (renderSubject env c w s).2 = { s with calls := s.calls ++ cs } := by
  unfold renderSubject
  cases c with
  | false =>
    exact ⟨[Call.imageToAscii profilePath w false], by simp, by simp [State.call]⟩
  | true =>
    simp only [if_true]
    split
    · exact ⟨[Call.imageToAscii cheesePath w false, Call.emojiToAscii cheeseEmoji w], by simp,
        by simp [State.call]⟩
    · exact ⟨[Call.imageToAscii cheesePath w false], by simp, by simp [State.call]⟩

theorem renderSubject_resolved {env : Env} {c : Bool} {w : ℕ} {s : State} {ascii : Str}
    (h : (renderSubject env c w s).1 = Outcome.resolved ascii) :
    0 < w ∧ ∃ H, 1 ≤ H ∧ IsRaster w H ascii := by
  unfold renderSubject at h
  cases c with
  | false =>
    simp only [Bool.false_eq_true, if_false] at h
    exact imageToAscii_resolved h
  | true =>
    simp only [if_true] at h
    split at h
    · exact emojiToAscii_resolved h
    · exact @imageToAscii_resolved env cheesePath w false ascii h

theorem summonCheddar_hit {env : Env} {w : ℕ} {s : State} {v : Str}
    (h : getItem s.sessionStorage (cacheKey (showCheese env) w) = some v) (hv : v ≠ []) :
    summonCheddar env w s = { s with out := s.out ++ [asciiEntry v] } := by
  unfold summonCheddar
  simp only [h]
  cases v with
  | nil => exact absurd rfl hv
  | cons c cs => exact printPre_eq _ _

theorem summonCheddar_miss {env : Env} {w : ℕ} {s : State}
    (h : ∀ v, getItem s.sessionStorage (cacheKey (showCheese env) w) = some v → v = []) :
    summonCheddar env w s =
      match renderSubject env (showCheese env) w (println materializingText [] s) with
      | (Outcome.resolved ascii, s) =>
        printPre ascii asciiClass
          { s with sessionStorage := setItem s.sessionStorage (cacheKey (showCheese env) w) ascii }
      | (Outcome.rejected err, s) =>
        println (failedText ++ escapeHtml err) [] s
      | (Outcome.pending, s) => s := by
  unfold summonCheddar
  dsimp only
  cases hg : getItem s.sessionStorage (cacheKey (showCheese env) w) with
  | none => rfl
  | some v =>
    cases v with
    | nil => rfl
    | cons c cs => exact absurd (h _ hg) (by simp)

/-- The four ways a call of `summonCheddar` can go. -/
theorem summonCheddar_cases (env : Env) (w : ℕ) (s : State) :
    (∃ v, getItem s.sessionStorage (cacheKey (showCheese env) w) = some v ∧ v ≠ [] ∧
      summonCheddar env w s = { s with out := s.out ++ [asciiEntry v] }) ∨
    ((∀ v, getItem s.sessionStorage (cacheKey (showCheese env) w) = some v → v = []) ∧
      ∃ cs, cs ≠ [] ∧
      ((∃ ascii H, 0 < w ∧ 1 ≤ H ∧ IsRaster w H ascii ∧
          summonCheddar env w s =
            { s with
              out := s.out ++ [lineEntry materializingText, asciiEntry ascii]
              sessionStorage := setItem s.sessionStorage (cacheKey (showCheese env) w) ascii
              calls := s.calls ++ cs }) ∨
        (∃ err, summonCheddar env w s =
            { s with
              out := s.out ++ [lineEntry materializingText,
                lineEntry (failedText ++ escapeHtml err)]
              calls := s.calls ++ cs }) ∨
        summonCheddar env w s =
            { s with
              out := s.out ++ [lineEntry materializingText]
              calls := s.calls ++ cs })) := by
  by_cases hhit : ∃ v, getItem s.sessionStorage (cacheKey (showCheese env) w) = some v ∧ v ≠ []
  · obtain ⟨v, hv, hne⟩ := hhit
    exact Or.inl ⟨v, hv, hne, summonCheddar_hit hv hne⟩
  · have hmiss : ∀ v, getItem s.sessionStorage (cacheKey (showCheese env) w) = some v → v = [] := by
      intro v hv
      by_contra hne
      exact hhit ⟨v, hv, hne⟩
    refine Or.inr ⟨hmiss, ?_⟩
    obtain ⟨cs, hcs, hsnd⟩ := renderSubject_snd env (showCheese env) w
      (println materializingText [] s)
    refine ⟨cs, hcs, ?_⟩
    rw [summonCheddar_miss hmiss]
    rcases hr : renderSubject env (showCheese env) w
      (println materializingText [] s) with ⟨o, s'⟩
    rw [hr] at hsnd
    simp only at hsnd
    subst hsnd
    cases o with
    | resolved ascii =>
      obtain ⟨hw, H, hH, hras⟩ := renderSubject_resolved (congrArg Prod.fst hr)
      refine Or.inl ⟨ascii, H, hw, hH, hras, ?_⟩
      simp [printPre_eq, println_eq]
    | rejected err =>
      refine Or.inr (Or.inl ⟨err, ?_⟩)
      simp [println_eq]
    | pending =>
      refine Or.inr (Or.inr ?_)
      simp [println_eq]

/-! ## Lemmas: what the actions leave alone -/

@[simp] theorem println_sessionStorage (html cls : Str) (s : State) :
    (println html cls s).sessionStorage = s.sessionStorage := rfl

@[simp] theorem printPre_sessionStorage (text cls : Str) (s : State) :
    (printPre text cls s).sessionStorage = s.sessionStorage := rfl

@[simp] theorem call_sessionStorage (c : Call) (s : State) :
    (s.call c).sessionStorage = s.sessionStorage := rfl

@[simp] theorem clearOut_sessionStorage (s : State) :
    (clearOut s).sessionStorage = s.sessionStorage := rfl

@[simp] theorem toggle_sessionStorage (s : State) :
    (toggle s).sessionStorage = s.sessionStorage := rfl

@[simp] theorem showModeNotification_sessionStorage (m c : Str) (s : State) :
    (showModeNotification m c s).sessionStorage = s.sessionStorage := rfl

@[simp] theorem callKairi_sessionStorage (s : State) :
    (callKairi s).sessionStorage = s.sessionStorage := by
  unfold callKairi
  split <;> rfl

@[simp] theorem printResume_sessionStorage (s : State) :
    (printResume s).sessionStorage = s.sessionStorage := rfl

@[simp] theorem toggleDarkMode_sessionStorage (s : State) :
    (toggleDarkMode s).sessionStorage = s.sessionStorage := by
  unfold toggleDarkMode
  dsimp only
  split <;> rfl

@[simp] theorem toggleDreamMode_sessionStorage (s : State) :
    (toggleDreamMode s).sessionStorage = s.sessionStorage := by
  unfold toggleDreamMode
  dsimp only
  split <;> rfl

@[simp] theorem toggleLightMode_sessionStorage (s : State) :
    (toggleLightMode s).sessionStorage = s.sessionStorage := rfl

@[simp] theorem loadJsDosLibrary_sessionStorage (env : Env) (s : State) :
    (loadJsDosLibrary env s).2.sessionStorage = s.sessionStorage := by
  unfold loadJsDosLibrary
  dsimp only
  split
  · rfl
  · split <;> rfl

@[simp] theorem fetchJsDos_sessionStorage (env : Env) (s : State) :
    (fetchJsDos env s).2.sessionStorage = s.sessionStorage := by
  unfold fetchJsDos
  split
  · rfl
  · dsimp only
    generalize hs0 : println _ [] s = s0
    have h0 : s0.sessionStorage = s.sessionStorage := by
      rw [← hs0]
      rfl
    have h1 := loadJsDosLibrary_sessionStorage env s0
    rcases hL : loadJsDosLibrary env s0 with ⟨r, s1⟩
    rw [hL] at h1
    cases r with
    | error e => exact h1.trans h0
    | ok u => exact h1.trans h0

@[simp] theorem runDos_sessionStorage (env : Env) (s : State) :
    (runDos env s).2.sessionStorage = s.sessionStorage := by
  unfold runDos
  dsimp only
  split <;> rfl

@[simp] theorem startDoom_sessionStorage (env : Env) (s : State) :
    (startDoom env s).2.sessionStorage = s.sessionStorage := by
  unfold startDoom
  have h := fetchJsDos_sessionStorage env s
  rcases hF : fetchJsDos env s with ⟨r, s1⟩
  rw [hF] at h
  cases r with
  | error e => exact h
  | ok u => exact (runDos_sessionStorage env s1).trans h

@[simp] theorem launchDoom_sessionStorage (env : Env) (s : State) :
    (launchDoom env s).sessionStorage = s.sessionStorage := by
  unfold launchDoom
  split
  · rfl
  · dsimp only
    generalize hs0 : State.call _ Call.injectDoomStyles = s0
    have h0 : s0.sessionStorage = s.sessionStorage := by
      rw [← hs0]
      simp only [call_sessionStorage]
      split <;> rfl
    have h1 := startDoom_sessionStorage env s0
    rcases hS : startDoom env s0 with ⟨r, s1⟩
    rw [hS] at h1
    cases r with
    | error e => exact h1.trans h0
    | ok u => exact h1.trans h0

theorem runCommand_sessionStorage (env : Env) (c : Command) (args : List Str) (s : State)
    (hc : c ≠ Command.summon) : (runCommand env c args s).sessionStorage = s.sessionStorage := by
  cases c with
  | summon => exact absurd rfl hc
  | matrix => unfold runCommand; dsimp only; split <;> rfl
  | godmode => unfold runCommand; dsimp only; split <;> rfl
  | call => unfold runCommand; dsimp only; split <;> simp
  | help => rfl
  | skills => rfl
  | projects => rfl
  | clear => rfl
  | darkmode => exact toggleDarkMode_sessionStorage s
  | dreammode => exact toggleDreamMode_sessionStorage s
  | lightmode => rfl
  | print => rfl
  | doom => exact launchDoom_sessionStorage env s

/-! ## Lemmas: cache keys -/

theorem cacheKey_inj {c c' : Bool} {w w' : ℕ} (h : cacheKey c w = cacheKey c' w') :
    c = c' ∧ (120 < w ↔ 120 < w') := by
  unfold cacheKey at h
  by_cases hw : w > 120 <;> by_cases hw' : w' > 120 <;> cases c <;> cases c' <;>
    simp only [hw, hw', if_true, if_false, Bool.false_eq_true] at h <;>
    first
      | exact absurd h (by decide)
      | exact ⟨rfl, by simp [hw, hw']⟩

/-! ## Lemmas: lines of a raster -/

theorem newline_not_mem_RAMP : '\n' ∉ RAMP := by decide

theorem linesAux_row (row : Str) (hrow : '\n' ∉ row) (cur rest : Str) :
    linesAux (row ++ '\n' :: rest) cur = (cur ++ row) :: linesAux rest [] := by
  induction row generalizing cur with
  | nil => simp [linesAux]
  | cons c row ih =>
    have hc : c ≠ '\n' := fun e => hrow (e ▸ List.mem_cons_self _ _)
    have hrow' : '\n' ∉ row := fun hm => hrow (List.mem_cons_of_mem _ hm)
    rw [List.cons_append, linesAux, if_neg hc, ih hrow']
    simp

theorem lines_rows (rows : List Str) (hrows : ∀ row ∈ rows, '\n' ∉ row) :
    lines ((rows.map (fun row => row ++ ['\n'])).flatten) = rows := by
  unfold lines
  induction rows with
  | nil => simp [linesAux]
  | cons row rows ih =>
    have h1 := linesAux_row row (hrows row (List.mem_cons_self _ _)) []
      ((rows.map (fun row => row ++ ['\n'])).flatten)
    simp only [List.map_cons, List.flatten_cons, List.append_assoc, List.singleton_append]
    rw [h1, ih (fun r hr => hrows r (List.mem_cons_of_mem _ hr))]
    simp

theorem lines_of_isRaster {W H : ℕ} {out : Str} (h : IsRaster W H out) :
    (lines out).length = H ∧ ∀ l ∈ lines out, l.length = W := by
  obtain ⟨rows, hlen, hrows, rfl⟩ := h
  have hnl : ∀ row ∈ rows, '\n' ∉ row := fun row hr hm =>
    newline_not_mem_RAMP ((hrows row hr).2 _ hm)
  rw [lines_rows rows hnl]
  exact ⟨hlen, fun l hl => (hrows l hl).1⟩

/-! ## Lemmas: the dispatcher -/

theorem splitAux_ne_nil (s cur : Str) (inRun : Bool) : splitAux s cur inRun ≠ [] := by
  induction s generalizing cur inRun with
  | nil => simp [splitAux]
  | cons c cs ih =>
    unfold splitAux
    split
    · split
      · exact ih _ _
      · simp
    · exact ih _ _

theorem tokenize_ne_nil (cmd : Str) : tokenize cmd ≠ [] := splitAux_ne_nil _ _ _

theorem handleCommand_eq (env : Env) (cmd : Str) (s : State) :
    ∃ name args, tokenize cmd = name :: args ∧
      handleCommand env cmd s = Except.ok
        (match lookupCommand (toLowerCase name) with
          | some c => runCommand env c args s
          | none => println (unknownCommandLine name) [] s) := by
  unfold handleCommand
  cases ht : tokenize cmd with
  | nil => exact absurd ht (tokenize_ne_nil cmd)
  | cons name args =>
    refine ⟨name, args, rfl, ?_⟩
    dsimp only
    cases lookupCommand (toLowerCase name) <;> rfl

theorem handleCommand_summon (env : Env) (s : State) (big : Bool) :
    handleCommand env (if big then "summon cheddar --big".toList else "summon cheddar".toList) s =
      Except.ok (summonCheddar env (widthOf big) s) := by
  cases big with
  | true =>
    have ht : tokenize "summon cheddar --big".toList =
        ["summon".toList, "cheddar".toList, "--big".toList] := by decide
    have hl : lookupCommand (toLowerCase "summon".toList) = some Command.summon := by decide
    have hf : firstArgIs ["cheddar".toList, "--big".toList] "cheddar".toList = true := by decide
    have hb : ["cheddar".toList, "--big".toList].contains "--big".toList = true := by decide
    simp only [if_true, handleCommand, ht, hl, runCommand, hf, hb, widthOf]
  | false =>
    have ht : tokenize "summon cheddar".toList = ["summon".toList, "cheddar".toList] := by decide
    have hl : lookupCommand (toLowerCase "summon".toList) = some Command.summon := by decide
    have hf : firstArgIs ["cheddar".toList] "cheddar".toList = true := by decide
    have hb : ["cheddar".toList].contains "--big".toList = false := by decide
    simp only [Bool.false_eq_true, if_false, handleCommand, ht, hl, runCommand, hf, hb, widthOf,
      if_true]

/-- A dispatched command leaves the session storage alone or is a call of `summonCheddar` with
one of the two widths. -/
theorem handleCommand_storage {env : Env} {cmd : Str} {s t : State}
    (h : handleCommand env cmd s = Except.ok t) :
    t.sessionStorage = s.sessionStorage ∨ ∃ big, t = summonCheddar env (widthOf big) s := by
  obtain ⟨name, args, -, heq⟩ := handleCommand_eq env cmd s
  rw [heq] at h
  injection h with h
  subst h
  cases hl : lookupCommand (toLowerCase name) with
  | none => exact Or.inl rfl
  | some c =>
    by_cases hc : c = Command.summon
    · subst hc
      dsimp only [runCommand]
      split
      · exact Or.inr ⟨args.contains "--big".toList, by simp [widthOf]⟩
      · exact Or.inl rfl
    · exact Or.inl (runCommand_sessionStorage env c args s hc)

/-! ## Lemmas: command lookup and lower-casing -/

theorem lookupCommand_eq_none_iff (key : Str) :
    lookupCommand key = none ↔ key ∉ commandNames := by
  unfold lookupCommand commandNames
  rw [Option.map_eq_none', List.find?_eq_none]
  simp only [decide_eq_true_eq, List.mem_map, not_exists, not_and]

theorem lookupCommand_some_mem {key : Str} {c : Command} (h : lookupCommand key = some c) :
    key ∈ commandNames := by
  by_contra hn
  rw [(lookupCommand_eq_none_iff key).mpr hn] at h
  exact absurd h (by simp)

theorem upper_cases (c : Char) (h : c.isUpper = true) :
    c ∈ "ABCDEFGHIJKLMNOPQRSTUVWXYZ".toList := by
  have hc : c = Char.ofNat c.toNat := (Char.ofNat_toNat c).symm
  have hb : 65 ≤ c.toNat ∧ c.toNat ≤ 90 := by
    simp only [Char.isUpper, Bool.and_eq_true, decide_eq_true_eq] at h
    exact ⟨h.1, h.2⟩
  obtain ⟨h1, h2⟩ := hb
  generalize c.toNat = n at hc h1 h2
  subst hc
  interval_cases n <;> decide

theorem toLowerCase_char_idem (c : Char) :
    toLowerCase (toLowerCaseChar c) = toLowerCaseChar c := by
  by_cases hu : c.isUpper = true
  · have hm := upper_cases c hu
    simp only [String.toList, List.mem_cons, List.mem_singleton, List.not_mem_nil, or_false] at hm
    rcases hm with h | h | h | h | h | h | h | h | h | h | h | h | h | h | h | h | h | h | h | h |
      h | h | h | h | h | h <;> subst h <;> decide
  · by_cases hk : c.toNat = 0x212A
    · have : toLowerCaseChar c = ['k'] := by simp [toLowerCaseChar, hu, hk]
      rw [this]
      decide
    · by_cases hi : c.toNat = 0x0130
      · have : toLowerCaseChar c = ['i', Char.ofNat 0x0307] := by
          simp [toLowerCaseChar, hu, hk, hi]
        rw [this]
        decide
      · have : toLowerCaseChar c = [c] := by simp [toLowerCaseChar, hu, hk, hi]
        rw [this]
        simp [toLowerCase, this]

theorem toLowerCase_append (a b : Str) : toLowerCase (a ++ b) = toLowerCase a ++ toLowerCase b := by
  simp [toLowerCase]

theorem toLowerCase_idem (s : Str) : toLowerCase (toLowerCase s) = toLowerCase s := by
  induction s with
  | nil => rfl
  | cons c s ih =>
    have h1 : toLowerCase (c :: s) = toLowerCaseChar c ++ toLowerCase s := by simp [toLowerCase]
    rw [h1, toLowerCase_append, toLowerCase_char_idem, ih]

/-! ## Lemmas: the session cache over time -/

theorem summonCheddar_keeps_entry {env : Env} {w : ℕ} {t : State} {key ascii : Str}
    (hne : ascii ≠ []) (h : getItem t.sessionStorage key = some ascii) :
    getItem (summonCheddar env w t).sessionStorage key = some ascii := by
  rcases summonCheddar_cases env w t with ⟨v, -, -, heq⟩ | ⟨hmiss, cs, -, hcase⟩
  · rw [heq]
    exact h
  · rcases hcase with ⟨ascii', H, -, -, -, heq⟩ | ⟨err, heq⟩ | heq
    · rw [heq]
      have hkey : key ≠ cacheKey (showCheese env) w := by
        intro e
        rw [e] at h
        exact hne (hmiss _ h)
      simpa [getItem_setItem_of_ne _ _ hkey] using h
    · rw [heq]
      exact h
    · rw [heq]
      exact h

theorem later_keeps_entry {s t : State} {c : Bool} {w : ℕ} {ascii : Str} (hne : ascii ≠ [])
    (h0 : getItem s.sessionStorage (cacheKey c w) = some ascii) (hl : Later s t) :
    getItem t.sessionStorage (cacheKey c w) = some ascii := by
  induction hl with
  | refl => exact h0
  | dispatch env cmd _ hstep ih =>
    rcases handleCommand_storage hstep with hsame | ⟨big, hsum⟩
    · rw [hsame]
      exact ih
    · rw [hsum]
      exact summonCheddar_keeps_entry hne ih
  | other _ hsame ih =>
    rw [hsame]
    exact ih

theorem summonCheddar_stores {env : Env} {w : ℕ} {s : State} {ascii : Str}
    (hmiss : ∀ v, getItem s.sessionStorage (cacheKey (showCheese env) w) = some v → v = [])
    (hrender : (renderSubject env (showCheese env) w (println materializingText [] s)).1 =
      Outcome.resolved ascii) :
    ascii ≠ [] ∧
    getItem (summonCheddar env w s).sessionStorage (cacheKey (showCheese env) w) = some ascii ∧
    ∃ cs, summonCheddar env w s =
      { s with
        out := s.out ++ [lineEntry materializingText, asciiEntry ascii]
        sessionStorage := setItem s.sessionStorage (cacheKey (showCheese env) w) ascii
        calls := s.calls ++ cs } := by
  obtain ⟨-, H, hH, hras⟩ := renderSubject_resolved hrender
  obtain ⟨cs, -, hsnd⟩ := renderSubject_snd env (showCheese env) w (println materializingText [] s)
  have heq : summonCheddar env w s =
      { s with
        out := s.out ++ [lineEntry materializingText, asciiEntry ascii]
        sessionStorage := setItem s.sessionStorage (cacheKey (showCheese env) w) ascii
        calls := s.calls ++ cs } := by
    rw [summonCheddar_miss hmiss]
    rcases hr : renderSubject env (showCheese env) w (println materializingText [] s) with ⟨o, s'⟩
    rw [hr] at hsnd hrender
    simp only at hsnd hrender
    subst hsnd
    subst hrender
    simp [printPre_eq, println_eq]
  refine ⟨isRaster_ne_nil hH hras, ?_, cs, heq⟩
  rw [heq]
  exact getItem_setItem_self _ _ _

/-! ## Lemmas: load outcomes -/

theorem imageToAscii_of_none {env : Env} {src : Str} (h : env.loadImage src = none) (w : ℕ)
    (invert : Bool) : imageToAscii env src w invert = Outcome.rejected "[object Event]".toList := by
  unfold imageToAscii
  rw [h]

theorem imageToAscii_of_some {env : Env} {src : Str} {img : Bitmap} (h : env.loadImage src = some img)
    {w : ℕ} (hw : w ≠ 0) (invert : Bool) :
    ∃ out, imageToAscii env src w invert = Outcome.resolved out := by
  unfold imageToAscii
  rw [h]
  simp only [hw, if_false]
  exact ⟨_, rfl⟩

theorem emojiToAscii_ne_pending (env : Env) (emoji : Str) (w : ℕ) :
    emojiToAscii env emoji w ≠ Outcome.pending := by
  unfold emojiToAscii
  split
  · simp
  · dsimp only
    split <;> simp

theorem appended_append (s t : State) (l : List LogEntry) (h : t.out = s.out ++ l) :
    appended s t = l := by
  unfold appended
  rw [h]
  simp

theorem emojiToAscii_of_ok {env : Env} {emoji : Str} {canvas : Bitmap}
    (h : env.drawGlyph emoji = Except.ok canvas) {w : ℕ} (hw : w ≠ 0) :
    ∃ out, emojiToAscii env emoji w = Outcome.resolved out := by
  unfold emojiToAscii
  rw [h]
  simp only [hw, if_false]
  exact ⟨_, rfl⟩

theorem renderSubject_portrait (env : Env) (w : ℕ) (s : State) :
    renderSubject env false w s =
      (imageToAscii env profilePath w false, s.call (Call.imageToAscii profilePath w false)) := by
  unfold renderSubject
  simp only [Bool.false_eq_true, if_false]

theorem renderSubject_cheese_rejected {env : Env} {w : ℕ} {e : Str}
    (h : imageToAscii env cheesePath w false = Outcome.rejected e) (s : State) :
    renderSubject env true w s =
      (emojiToAscii env cheeseEmoji w,
        (s.call (Call.imageToAscii cheesePath w false)).call (Call.emojiToAscii cheeseEmoji w)) := by
  unfold renderSubject
  simp only [if_true, h]

theorem summonCheddar_portrait_none {env : Env} {w : ℕ} {s : State}
    (hmiss : ∀ v, getItem s.sessionStorage (cacheKey (showCheese env) w) = some v → v = [])
    (hc : showCheese env = false) (hload : env.loadImage profilePath = none) :
    summonCheddar env w s =
      { s with
        out := s.out ++ [lineEntry materializingText,
          lineEntry (failedText ++ "[object Event]".toList)]
        calls := s.calls ++ [Call.imageToAscii profilePath w false] } := by
  have hesc : escapeHtml "[object Event]".toList = "[object Event]".toList := by decide
  rw [summonCheddar_miss hmiss, hc, renderSubject_portrait, imageToAscii_of_none hload]
  simp only [println_eq, State.call, hesc, List.append_assoc, List.singleton_append]

theorem summonCheddar_cheese_rejected {env : Env} {w : ℕ} {s : State} {err : Str}
    (hmiss : ∀ v, getItem s.sessionStorage (cacheKey (showCheese env) w) = some v → v = [])
    (hc : showCheese env = true) (hload : env.loadImage cheesePath = none)
    (hglyph : emojiToAscii env cheeseEmoji w = Outcome.rejected err) :
    summonCheddar env w s =
      { s with
        out := s.out ++ [lineEntry materializingText, lineEntry (failedText ++ escapeHtml err)]
        calls := s.calls ++
          [Call.imageToAscii cheesePath w false, Call.emojiToAscii cheeseEmoji w] } := by
  rw [summonCheddar_miss hmiss, hc, renderSubject_cheese_rejected (imageToAscii_of_none hload w false),
    hglyph]
  simp only [println_eq, State.call, List.append_assoc, List.singleton_append]

theorem summonCheddar_cheese_resolved {env : Env} {w : ℕ} {s : State} {ascii : Str}
    (hmiss : ∀ v, getItem s.sessionStorage (cacheKey (showCheese env) w) = some v → v = [])
    (hc : showCheese env = true) (hload : env.loadImage cheesePath = none)
    (hglyph : emojiToAscii env cheeseEmoji w = Outcome.resolved ascii) :
    summonCheddar env w s =
      { s with
        out := s.out ++ [lineEntry materializingText, asciiEntry ascii]
        sessionStorage := setItem s.sessionStorage (cacheKey true w) ascii
        calls := s.calls ++
          [Call.imageToAscii cheesePath w false, Call.emojiToAscii cheeseEmoji w] } := by
  rw [summonCheddar_miss hmiss, hc, renderSubject_cheese_rejected (imageToAscii_of_none hload w false),
    hglyph]
  simp only [println_eq, printPre_eq, State.call, List.append_assoc, List.singleton_append]

theorem isErrorLine_failed (x : Str) : isErrorLine (lineEntry (failedText ++ x)) = true := by
  simp [isErrorLine, lineEntry]

theorem isErrorLine_materializing : isErrorLine (lineEntry materializingText) = false := by
  decide

/-! ## The claims -/

/-- C1. For every width `W`, row count `H` and pixel buffer of `W x H` pixels of four bytes,
the text built by the pixel loop is exactly `H` rows, each of exactly `W` characters of `RAMP`
followed by one line break, and `RAMP` has no line break; so the text has `H` lines of
length `W`. Whenever `imageToAscii` or `emojiToAscii` resolves for a width, the text it
resolves with has this shape for that width and at least one row. -/
theorem rasterLoop_exact_rows (W H : ℕ) (data : List ℕ) (hdata : data.length = 4 * W * H) :
    IsRaster W H (rasterLoop data W H) ∧ '\n' ∉ RAMP ∧
    (lines (rasterLoop data W H)).length = H ∧
    (∀ l ∈ lines (rasterLoop data W H), l.length = W) ∧
    (∀ (env : Env) (src : Str) (invert : Bool) (out : Str),
      imageToAscii env src W invert = Outcome.resolved out → ∃ H', 1 ≤ H' ∧ IsRaster W H' out) ∧
    (∀ (env : Env) (emoji : Str) (out : Str),
      emojiToAscii env emoji W = Outcome.resolved out → ∃ H', 1 ≤ H' ∧ IsRaster W H' out) := by
  have h := rasterLoop_isRaster data W H hdata
  exact ⟨h, newline_not_mem_RAMP, (lines_of_isRaster h).1, (lines_of_isRaster h).2,
    fun env src invert out ho => (imageToAscii_resolved ho).2,
    fun env emoji out ho => (emojiToAscii_resolved ho).2⟩

/-- C1 at a buffer of two pixels in one row. -/
theorem rasterLoop_exact_rows_witness :
    [255, 255, 255, 255, 0, 0, 0, 255].length = 4 * 2 * 1 ∧
    (IsRaster 2 1 (rasterLoop [255, 255, 255, 255, 0, 0, 0, 255] 2 1) ∧ '\n' ∉ RAMP ∧
    (lines (rasterLoop [255, 255, 255, 255, 0, 0, 0, 255] 2 1)).length = 1 ∧
    (∀ l ∈ lines (rasterLoop [255, 255, 255, 255, 0, 0, 0, 255] 2 1), l.length = 2) ∧
    (∀ (env : Env) (src : Str) (invert : Bool) (out : Str),
      imageToAscii env src 2 invert = Outcome.resolved out → ∃ H', 1 ≤ H' ∧ IsRaster 2 H' out) ∧
    (∀ (env : Env) (emoji : Str) (out : Str),
      emojiToAscii env emoji 2 = Outcome.resolved out → ∃ H', 1 ≤ H' ∧ IsRaster 2 H' out)) :=
  ⟨by decide, rasterLoop_exact_rows 2 1 [255, 255, 255, 255, 0, 0, 0, 255] (by decide)⟩

/-- C3, evaluated: the two widths of the dispatcher give the same cache key for the same
subject, because both 160 and 240 exceed the threshold 120 of line 297; the key is the big one,
and the four combinations of subject and width take only two values. -/
theorem cacheKey_small_big_collide :
    cacheKey false 160 = cacheKey false 240 ∧ cacheKey true 160 = cacheKey true 240 ∧
    cacheKey false 160 = "cheddar_ascii_big_v1".toList ∧
    cacheKey true 160 = "cheddar_ascii_big_v1_cheese".toList ∧
    ¬ [cacheKey false 160, cacheKey true 160, cacheKey false 240, cacheKey true 240].Nodup := by
  decide

/-- C5, evaluated: with `invert` set, a black pixel is still rendered as the first character of
`RAMP` (the space), where the index computed from `1 - L` selects the last one; for every
input the flag changes nothing. -/
theorem imageToAscii_invert_ignored :
    imageToAscii (blackEnv 0) profilePath 1 true = Outcome.resolved [' ', '\n'] ∧
    rampAt (Math.round ((1 - luminance 0 0 0) * ((RAMP.length : ℚ) - 1))) = some '@' ∧
    ∀ (env : Env) (src : Str) (width : ℕ),
      imageToAscii env src width true = imageToAscii env src width false := by
  refine ⟨by decide!, by decide!, fun env src width => rfl⟩

/-- C10. The index expression sends luminance 0 to index 0 and luminance 1 to the last index
of `RAMP`; a black pixel has luminance 0 and is rendered as the first character of `RAMP`, the
space, and a white pixel has luminance 1 and is rendered as the last one, `@`. The two ends
are stable: every luminance below 1/132 has index 0 and every luminance from 131/132 on has the
last index. In the double arithmetic of the code the index expression has the same two ends, a
black pixel has luminance 0, a white pixel has the luminance just below 1, whose index is the
last one, and every luminance from 131/132 on has the last index. -/
theorem rampIndex_endpoints :
    rampIndex 0 = 0 ∧ rampIndex 1 = (RAMP.length : ℤ) - 1 ∧
    luminance 0 0 0 = 0 ∧ luminance 255 255 255 = 1 ∧
    RAMP.head? = some ' ' ∧ RAMP.getLast? = some '@' ∧
    pixelText [0, 0, 0, 255] 0 = [' '] ∧ pixelText [255, 255, 255, 255] 0 = ['@'] ∧
    (∀ L : ℚ, 0 ≤ L → L < 1 / 132 → rampIndex L = 0) ∧
    (∀ L : ℚ, 131 / 132 ≤ L → rampIndex L = (RAMP.length : ℤ) - 1) ∧
    rampIndex64 0 = 0 ∧ rampIndex64 1 = (RAMP.length : ℤ) - 1 ∧
    luminance64 0 0 0 = 0 ∧ luminance64 255 255 255 = 1 - 1 / 2 ^ 53 ∧
    rampIndex64 (luminance64 255 255 255) = (RAMP.length : ℤ) - 1 ∧
    (∀ L : ℚ, 131 / 132 ≤ L → rampIndex64 L = (RAMP.length : ℤ) - 1) := by
  refine ⟨by decide!, by decide!, by decide!, by decide!, by decide!, by decide!, by decide!,
    by decide!, ?_, ?_, by decide!, by decide!, by decide!, luminance64_white, by decide!, ?_⟩
  rotate_left 2
  · intro L h
    have h0 : rampIndex64 (131 / 132) = (RAMP.length : ℤ) - 1 := by decide!
    have h1 := rampIndex64_mono h
    have h2 := rampIndex64_le L
    rw [h0] at h1
    rw [RAMP_length] at h1 ⊢
    have h67 : (((67 : ℕ) : ℤ) - 1 : ℤ) = 66 := by norm_num
    rw [h67] at h1 ⊢
    omega
  · intro L h0 h1
    have hfloor : Math.round (L * (((67 : ℕ) : ℚ) - 1)) = 0 := by
      unfold Math.round
      rw [Int.floor_eq_iff]
      constructor
      · push_cast
        linarith
      · push_cast
        linarith
    unfold rampIndex
    rw [RAMP_length, hfloor]
    decide
  · intro L h
    have hfloor : (66 : ℤ) ≤ Math.round (L * (((67 : ℕ) : ℚ) - 1)) := by
      unfold Math.round
      rw [Int.le_floor]
      push_cast
      linarith
    unfold rampIndex
    rw [RAMP_length]
    exact min_eq_left hfloor

/-- C6. For every input line whose first token, lower-cased, is not a command name of the
dispatcher, `handleCommand` returns without an exception, and the only change of the page state
is one new line at the end of the log: the message `unknown command: <code>NAME</code>. try
<b>help</b>.`, where `NAME` is `escapeHtml` of the first token as typed. The line has a first
token whatever the input is. -/
theorem unknown_command_one_line (env : Env) (cmd : Str) (s : State)
    (hunknown : ∀ name args, tokenize cmd = name :: args → toLowerCase name ∉ commandNames) :
    ∃ name args, tokenize cmd = name :: args ∧
      handleCommand env cmd s = Except.ok
        { s with out := s.out ++ [lineEntry ("unknown command: <code>".toList ++ escapeHtml name ++
          "</code>. try <b>help</b>.".toList)] } := by
  obtain ⟨name, args, htok, heq⟩ := handleCommand_eq env cmd s
  refine ⟨name, args, htok, ?_⟩
  rw [heq, (lookupCommand_eq_none_iff _).mpr (hunknown name args htok)]
  simp only [println_eq, unknownCommandLine]

/-- C6 at the line `FOO <b>` typed into a fresh session. -/
theorem unknown_command_one_line_witness :
    (∀ name args, tokenize "FOO <b>".toList = name :: args → toLowerCase name ∉ commandNames) ∧
    ∃ name args, tokenize "FOO <b>".toList = name :: args ∧
      handleCommand (whiteEnv 0) "FOO <b>".toList State.initial = Except.ok
        { State.initial with out := State.initial.out ++ [lineEntry ("unknown command: <code>".toList ++
          escapeHtml name ++ "</code>. try <b>help</b>.".toList)] } :=
  have hun : ∀ name args, tokenize "FOO <b>".toList = name :: args →
      toLowerCase name ∉ commandNames := by
    intro name args ht
    have h : tokenize "FOO <b>".toList = ["FOO".toList, "<b>".toList] := by decide
    rw [h] at ht
    injection ht with h1 h2
    subst h1
    decide
  ⟨hun, unknown_command_one_line (whiteEnv 0) "FOO <b>".toList State.initial hun⟩

/-- C7 as stated fails: `FOO` and its lower-cased form `foo` are both unknown names, and the
two dispatches append different log lines, since each echoes the name as typed. -/
theorem upper_and_lower_unknown_differ :
    toLowerCase "FOO".toList = "foo".toList ∧
    ∃ t t', handleCommand (whiteEnv 0) "FOO".toList State.initial = Except.ok t ∧
      handleCommand (whiteEnv 0) "foo".toList State.initial = Except.ok t' ∧
      t.out = [lineEntry "unknown command: <code>FOO</code>. try <b>help</b>.".toList] ∧
      t'.out = [lineEntry "unknown command: <code>foo</code>. try <b>help</b>.".toList] ∧
      t.out ≠ t'.out := by
  refine ⟨by decide, _, _, rfl, rfl, by decide, by decide, by decide⟩

/-- C7, amended. Lookup is case-insensitive: a line whose name is `n` and the line with `n`
lower-cased select the same `case` of the `switch`. When the lower-cased name is a command name,
the two dispatches give the same result: the same log output and the same state change. When it
is not, both take the `default` case and each echoes its own name as typed. No command name is
listed twice, so a name selects at most one action. -/
theorem lookup_case_insensitive (env : Env) (s : State) (n : Str) (args : List Str)
    (cmd cmd' : Str) (hcmd : tokenize cmd = n :: args)
    (hcmd' : tokenize cmd' = toLowerCase n :: args) :
    lookupCommand (toLowerCase (toLowerCase n)) = lookupCommand (toLowerCase n) ∧
    (toLowerCase n ∈ commandNames → handleCommand env cmd s = handleCommand env cmd' s) ∧
    (toLowerCase n ∉ commandNames →
      handleCommand env cmd s = Except.ok (println (unknownCommandLine n) [] s) ∧
      handleCommand env cmd' s =
        Except.ok (println (unknownCommandLine (toLowerCase n)) [] s)) ∧
    commandNames.Nodup := by
  have h1 : handleCommand env cmd s = Except.ok
      (match lookupCommand (toLowerCase n) with
        | some c => runCommand env c args s
        | none => println (unknownCommandLine n) [] s) := by
    obtain ⟨name, args', htok, heq⟩ := handleCommand_eq env cmd s
    rw [hcmd] at htok
    injection htok with hn ha
    subst hn
    subst ha
    exact heq
  have h2 : handleCommand env cmd' s = Except.ok
      (match lookupCommand (toLowerCase n) with
        | some c => runCommand env c args s
        | none => println (unknownCommandLine (toLowerCase n)) [] s) := by
    obtain ⟨name, args', htok, heq⟩ := handleCommand_eq env cmd' s
    rw [hcmd'] at htok
    injection htok with hn ha
    subst hn
    subst ha
    rw [toLowerCase_idem] at heq
    exact heq
  refine ⟨by rw [toLowerCase_idem], ?_, ?_, by decide⟩
  · intro hmem
    rw [h1, h2]
    cases hl : lookupCommand (toLowerCase n) with
    | none => exact absurd hmem ((lookupCommand_eq_none_iff _).mp hl)
    | some c => rfl
  · intro hnot
    rw [h1, h2, (lookupCommand_eq_none_iff _).mpr hnot]
    exact ⟨rfl, rfl⟩

/-- C7, amended, at the lines `HELP` and `help`. -/
theorem lookup_case_insensitive_witness :
    (tokenize "HELP".toList = "HELP".toList :: [] ∧
      tokenize "help".toList = toLowerCase "HELP".toList :: []) ∧
    (lookupCommand (toLowerCase (toLowerCase "HELP".toList)) =
        lookupCommand (toLowerCase "HELP".toList) ∧
    (toLowerCase "HELP".toList ∈ commandNames →
      handleCommand (whiteEnv 0) "HELP".toList State.initial =
        handleCommand (whiteEnv 0) "help".toList State.initial) ∧
    (toLowerCase "HELP".toList ∉ commandNames →
      handleCommand (whiteEnv 0) "HELP".toList State.initial =
        Except.ok (println (unknownCommandLine "HELP".toList) [] State.initial) ∧
      handleCommand (whiteEnv 0) "help".toList State.initial =
        Except.ok (println (unknownCommandLine (toLowerCase "HELP".toList)) [] State.initial)) ∧
    commandNames.Nodup) :=
  ⟨⟨by decide, by decide⟩,
    lookup_case_insensitive (whiteEnv 0) State.initial "HELP".toList [] "HELP".toList
      "help".toList (by decide) (by decide)⟩

/-- C4. Suppose a call of `summonCheddar` missed the cache, rendered `ascii` and stored it.
Then at every later state of the session, every call of `summonCheddar` whose subject and width
resolve to the same cache key appends exactly `ascii` as one preformatted block and changes
nothing else: no call of `imageToAscii` or `emojiToAscii` joins the trace, and the session
storage is the same. -/
theorem cache_hit_replays (env₀ : Env) (w₀ : ℕ) (s₀ : State) (ascii : Str)
    (hmiss : ∀ v, getItem s₀.sessionStorage (cacheKey (showCheese env₀) w₀) = some v → v = [])
    (hrender : (renderSubject env₀ (showCheese env₀) w₀ (println materializingText [] s₀)).1 =
      Outcome.resolved ascii) :
    getItem (summonCheddar env₀ w₀ s₀).sessionStorage (cacheKey (showCheese env₀) w₀) =
      some ascii ∧
    ∀ t, Later (summonCheddar env₀ w₀ s₀) t →
      ∀ (env : Env) (w : ℕ), cacheKey (showCheese env) w = cacheKey (showCheese env₀) w₀ →
        summonCheddar env w t = { t with out := t.out ++ [asciiEntry ascii] } ∧
        (summonCheddar env w t).calls = t.calls ∧
        (summonCheddar env w t).sessionStorage = t.sessionStorage := by
  obtain ⟨hne, hstored, -⟩ := summonCheddar_stores hmiss hrender
  refine ⟨hstored, fun t hl env w hkey => ?_⟩
  have hentry := later_keeps_entry hne hstored hl
  rw [← hkey] at hentry
  have heq := summonCheddar_hit hentry hne
  refine ⟨heq, ?_, ?_⟩ <;> rw [heq]

/-- C4 at a fresh session in which the portrait (a white strip) is rendered two columns wide. -/
theorem cache_hit_replays_witness :
    ((∀ v, getItem State.initial.sessionStorage (cacheKey (showCheese (whiteEnv (3 / 4))) 2) =
        some v → v = []) ∧
      (renderSubject (whiteEnv (3 / 4)) (showCheese (whiteEnv (3 / 4))) 2
        (println materializingText [] State.initial)).1 = Outcome.resolved ['@', '@', '\n']) ∧
    (getItem (summonCheddar (whiteEnv (3 / 4)) 2 State.initial).sessionStorage
        (cacheKey (showCheese (whiteEnv (3 / 4))) 2) = some ['@', '@', '\n'] ∧
    ∀ t, Later (summonCheddar (whiteEnv (3 / 4)) 2 State.initial) t →
      ∀ (env : Env) (w : ℕ),
        cacheKey (showCheese env) w = cacheKey (showCheese (whiteEnv (3 / 4))) 2 →
        summonCheddar env w t = { t with out := t.out ++ [asciiEntry ['@', '@', '\n']] } ∧
        (summonCheddar env w t).calls = t.calls ∧
        (summonCheddar env w t).sessionStorage = t.sessionStorage) :=
  have hmiss : ∀ v, getItem State.initial.sessionStorage
      (cacheKey (showCheese (whiteEnv (3 / 4))) 2) = some v → v = [] :=
    fun v hv => absurd hv (by simp [State.initial, getItem])
  have hrender : (renderSubject (whiteEnv (3 / 4)) (showCheese (whiteEnv (3 / 4))) 2
      (println materializingText [] State.initial)).1 = Outcome.resolved ['@', '@', '\n'] := by
    decide!
  ⟨⟨hmiss, hrender⟩,
    cache_hit_replays (whiteEnv (3 / 4)) 2 State.initial ['@', '@', '\n'] hmiss hrender⟩

/-- C2, evaluated. In a fresh session `summon cheddar` renders the portrait (here a white
strip) and caches it; from the state it leaves, `summon cheddar --big` with the same subject
appends that same cached block, whose lines have 160 characters, and so does `summon cheddar`:
the block of `--big` is not wider. -/
theorem big_after_small_replays_small :
    ∃ B s₁ t t',
      handleCommand (whiteEnv (3 / 4)) "summon cheddar".toList State.initial = Except.ok s₁ ∧
      handleCommand (whiteEnv (3 / 4)) "summon cheddar --big".toList s₁ = Except.ok t ∧
      handleCommand (whiteEnv (3 / 4)) "summon cheddar".toList s₁ = Except.ok t' ∧
      asciiBlocks (appended State.initial s₁) = [B] ∧
      asciiBlocks (appended s₁ t) = [B] ∧ asciiBlocks (appended s₁ t') = [B] ∧
      lines B ≠ [] ∧ ∀ l ∈ lines B, l.length = 160 := by
  have hc : showCheese (whiteEnv (3 / 4)) = false := by decide!
  have hmiss : ∀ v, getItem State.initial.sessionStorage
      (cacheKey (showCheese (whiteEnv (3 / 4))) 160) = some v → v = [] :=
    fun v hv => absurd hv (by simp [State.initial, getItem])
  obtain ⟨B, hB⟩ : ∃ B, (renderSubject (whiteEnv (3 / 4)) (showCheese (whiteEnv (3 / 4))) 160
      (println materializingText [] State.initial)).1 = Outcome.resolved B := by
    rw [hc]
    exact @imageToAscii_of_some (whiteEnv (3 / 4)) profilePath (flatBitmap 160 1 255) rfl 160
      (by decide) false
  obtain ⟨hne, hstored, cs, heq⟩ := summonCheddar_stores hmiss hB
  obtain ⟨-, H, hH, hras⟩ := renderSubject_resolved hB
  have hkey : cacheKey (showCheese (whiteEnv (3 / 4))) 240 =
      cacheKey (showCheese (whiteEnv (3 / 4))) 160 := by
    rw [hc]
    decide
  have hbig := @summonCheddar_hit (whiteEnv (3 / 4)) 240 _ B (by rw [hkey]; exact hstored) hne
  have hsmall := summonCheddar_hit hstored hne
  have hlines := lines_of_isRaster hras
  refine ⟨B, _, _, _, handleCommand_summon _ _ false, handleCommand_summon _ _ true,
    handleCommand_summon _ _ false, ?_, ?_, ?_, ?_, hlines.2⟩
  · rw [appended_append _ _ [lineEntry materializingText, asciiEntry B]
      (by rw [show widthOf false = 160 from rfl, heq])]
    rfl
  · rw [appended_append _ _ [asciiEntry B]
      (by rw [show widthOf true = 240 from rfl, show widthOf false = 160 from rfl, hbig])]
    rfl
  · rw [appended_append _ _ [asciiEntry B] (by rw [show widthOf false = 160 from rfl, hsmall])]
    rfl
  · intro hnil
    rw [hnil] at hlines
    simp at hlines
    omega

/-- C8 as stated fails for the portrait: when the portrait cannot be loaded, `summonCheddar`
appends the error line and no block, and never calls `emojiToAscii`, although glyph synthesis
would have succeeded in that browser. -/
theorem portrait_failure_has_no_fallback :
    showCheese (noImageEnv (3 / 4)) = false ∧
    (∃ ascii, emojiToAscii (noImageEnv (3 / 4)) cheeseEmoji 160 = Outcome.resolved ascii) ∧
    summonCheddar (noImageEnv (3 / 4)) 160 State.initial =
      { State.initial with
        out := [lineEntry materializingText,
          lineEntry "Failed to summon. Error: [object Event]".toList]
        calls := [Call.imageToAscii profilePath 160 false] } := by
  refine ⟨by decide!, ?_, by decide!⟩
  exact @emojiToAscii_of_ok (noImageEnv (3 / 4)) cheeseEmoji (flatBitmap 512 512 255) rfl 160
    (by decide)

/-- C8, amended. On a cache miss with the chosen image failing to load: for the cheese subject
`summonCheddar` calls `emojiToAscii` in the same call; when that resolves, the block is stored
and appended after the progress line and no error line is appended; an error line is appended
only when the glyph synthesis is rejected too (it never stays pending). For the portrait there
is no fallback: the error line is appended and `emojiToAscii` is not called. -/
theorem cheese_falls_back_to_glyph (env : Env) (w : ℕ) (s : State)
    (hmiss : ∀ v, getItem s.sessionStorage (cacheKey (showCheese env) w) = some v → v = [])
    (hload : env.loadImage (if showCheese env then cheesePath else profilePath) = none) :
    (showCheese env = true →
      (∀ ascii, emojiToAscii env cheeseEmoji w = Outcome.resolved ascii →
        summonCheddar env w s =
          { s with
            out := s.out ++ [lineEntry materializingText, asciiEntry ascii]
            sessionStorage := setItem s.sessionStorage (cacheKey true w) ascii
            calls := s.calls ++
              [Call.imageToAscii cheesePath w false, Call.emojiToAscii cheeseEmoji w] }) ∧
      (∀ err, emojiToAscii env cheeseEmoji w = Outcome.rejected err →
        summonCheddar env w s =
          { s with
            out := s.out ++
              [lineEntry materializingText, lineEntry (failedText ++ escapeHtml err)]
            calls := s.calls ++
              [Call.imageToAscii cheesePath w false, Call.emojiToAscii cheeseEmoji w] }) ∧
      emojiToAscii env cheeseEmoji w ≠ Outcome.pending) ∧
    (showCheese env = false →
      summonCheddar env w s =
        { s with
          out := s.out ++ [lineEntry materializingText,
            lineEntry (failedText ++ "[object Event]".toList)]
          calls := s.calls ++ [Call.imageToAscii profilePath w false] }) := by
  constructor
  · intro hc
    rw [hc] at hload
    exact ⟨fun ascii h => summonCheddar_cheese_resolved hmiss hc hload h,
      fun err h => summonCheddar_cheese_rejected hmiss hc hload h,
      emojiToAscii_ne_pending env cheeseEmoji w⟩
  · intro hc
    rw [hc] at hload
    exact summonCheddar_portrait_none hmiss hc hload

/-- C8, amended, at a fresh session with the cheese subject and no loadable image. -/
theorem cheese_falls_back_to_glyph_witness :
    ((∀ v, getItem State.initial.sessionStorage (cacheKey (showCheese (noImageEnv (1 / 4))) 2) =
        some v → v = []) ∧
      (noImageEnv (1 / 4)).loadImage
        (if showCheese (noImageEnv (1 / 4)) then cheesePath else profilePath) = none) ∧
    ((showCheese (noImageEnv (1 / 4)) = true →
      (∀ ascii, emojiToAscii (noImageEnv (1 / 4)) cheeseEmoji 2 = Outcome.resolved ascii →
        summonCheddar (noImageEnv (1 / 4)) 2 State.initial =
          { State.initial with
            out := State.initial.out ++ [lineEntry materializingText, asciiEntry ascii]
            sessionStorage := setItem State.initial.sessionStorage (cacheKey true 2) ascii
            calls := State.initial.calls ++
              [Call.imageToAscii cheesePath 2 false, Call.emojiToAscii cheeseEmoji 2] }) ∧
      (∀ err, emojiToAscii (noImageEnv (1 / 4)) cheeseEmoji 2 = Outcome.rejected err →
        summonCheddar (noImageEnv (1 / 4)) 2 State.initial =
          { State.initial with
            out := State.initial.out ++
              [lineEntry materializingText, lineEntry (failedText ++ escapeHtml err)]
            calls := State.initial.calls ++
              [Call.imageToAscii cheesePath 2 false, Call.emojiToAscii cheeseEmoji 2] }) ∧
      emojiToAscii (noImageEnv (1 / 4)) cheeseEmoji 2 ≠ Outcome.pending) ∧
    (showCheese (noImageEnv (1 / 4)) = false →
      summonCheddar (noImageEnv (1 / 4)) 2 State.initial =
        { State.initial with
          out := State.initial.out ++ [lineEntry materializingText,
            lineEntry (failedText ++ "[object Event]".toList)]
          calls := State.initial.calls ++ [Call.imageToAscii profilePath 2 false] })) :=
  have hmiss : ∀ v, getItem State.initial.sessionStorage
      (cacheKey (showCheese (noImageEnv (1 / 4))) 2) = some v → v = [] :=
    fun v hv => absurd hv (by simp [State.initial, getItem])
  ⟨⟨hmiss, rfl⟩, cheese_falls_back_to_glyph (noImageEnv (1 / 4)) 2 State.initial hmiss rfl⟩

/-- C9. On a cache miss, if the chosen image fails to load and the glyph synthesis is rejected,
`summonCheddar` returns a state: the log gains the progress line and then exactly one error line
`Failed to summon. Error: ...` and nothing else changes but the call trace. The two new entries
differ, one of them is an error line, and the log is not empty. -/
theorem both_fail_one_error_line (env : Env) (w : ℕ) (s : State) (gerr : Str)
    (hmiss : ∀ v, getItem s.sessionStorage (cacheKey (showCheese env) w) = some v → v = [])
    (hload : env.loadImage (if showCheese env then cheesePath else profilePath) = none)
    (hglyph : emojiToAscii env cheeseEmoji w = Outcome.rejected gerr) :
    ∃ err cs,
      summonCheddar env w s =
        { s with
          out := s.out ++ [lineEntry materializingText, lineEntry (failedText ++ escapeHtml err)]
          calls := s.calls ++ cs } ∧
      err = (if showCheese env then gerr else "[object Event]".toList) ∧
      ((appended s (summonCheddar env w s)).filter isErrorLine).length = 1 ∧
      (appended s (summonCheddar env w s)).Nodup ∧
      (summonCheddar env w s).out ≠ [] := by
  have hfinish : ∀ (err : Str) (cs : List Call),
      summonCheddar env w s =
        { s with
          out := s.out ++ [lineEntry materializingText, lineEntry (failedText ++ escapeHtml err)]
          calls := s.calls ++ cs } →
      ((appended s (summonCheddar env w s)).filter isErrorLine).length = 1 ∧
      (appended s (summonCheddar env w s)).Nodup ∧ (summonCheddar env w s).out ≠ [] := by
    intro err cs heq
    have happ := appended_append s (summonCheddar env w s)
      [lineEntry materializingText, lineEntry (failedText ++ escapeHtml err)] (by rw [heq])
    refine ⟨?_, ?_, ?_⟩
    · rw [happ]
      simp [List.filter_cons, isErrorLine_failed, isErrorLine_materializing]
    · rw [happ]
      simp [materializing_ne_failed]
    · rw [heq]
      simp
  cases hc : showCheese env with
  | true =>
    rw [hc] at hload
    have heq := summonCheddar_cheese_rejected hmiss hc hload hglyph
    exact ⟨gerr, _, heq, by simp, hfinish _ _ heq⟩
  | false =>
    rw [hc] at hload
    have hesc : escapeHtml "[object Event]".toList = "[object Event]".toList := by decide
    have heq := summonCheddar_portrait_none hmiss hc hload
    rw [← hesc] at heq
    exact ⟨"[object Event]".toList, _, heq, by simp, hfinish _ _ heq⟩

/-- C9 at a fresh session with the cheese subject where neither the image nor the glyph
canvas works. -/
theorem both_fail_one_error_line_witness :
    ((∀ v, getItem State.initial.sessionStorage (cacheKey (showCheese (nothingEnv (1 / 4))) 160) =
        some v → v = []) ∧
      (nothingEnv (1 / 4)).loadImage
        (if showCheese (nothingEnv (1 / 4)) then cheesePath else profilePath) = none ∧
      emojiToAscii (nothingEnv (1 / 4)) cheeseEmoji 160 =
        Outcome.rejected "TypeError: ctx is null".toList) ∧
    ∃ err cs,
      summonCheddar (nothingEnv (1 / 4)) 160 State.initial =
        { State.initial with
          out := State.initial.out ++
            [lineEntry materializingText, lineEntry (failedText ++ escapeHtml err)]
          calls := State.initial.calls ++ cs } ∧
      err = (if showCheese (nothingEnv (1 / 4)) then "TypeError: ctx is null".toList
        else "[object Event]".toList) ∧
      ((appended State.initial (summonCheddar (nothingEnv (1 / 4)) 160 State.initial)).filter
        isErrorLine).length = 1 ∧
      (appended State.initial (summonCheddar (nothingEnv (1 / 4)) 160 State.initial)).Nodup ∧
      (summonCheddar (nothingEnv (1 / 4)) 160 State.initial).out ≠ [] :=
  have hmiss : ∀ v, getItem State.initial.sessionStorage
      (cacheKey (showCheese (nothingEnv (1 / 4))) 160) = some v → v = [] :=
    fun v hv => absurd hv (by simp [State.initial, getItem])
  ⟨⟨hmiss, rfl, rfl⟩,
    both_fail_one_error_line (nothingEnv (1 / 4)) 160 State.initial "TypeError: ctx is null".toList
      hmiss rfl rfl⟩

/-- C11. The index expression is monotonic non-decreasing in the luminance: for all
`L₁ ≤ L₂` (in particular within `[0, 1]`),
`min(rampLength - 1, round(L₁ * (rampLength - 1))) ≤ min(rampLength - 1, round(L₂ * (rampLength - 1)))`,
both over exact numbers and with the product rounded to a double as the code computes it. -/
theorem rampIndex_monotone (L₁ L₂ : ℚ) (h : L₁ ≤ L₂) :
    rampIndex L₁ ≤ rampIndex L₂ ∧ rampIndex64 L₁ ≤ rampIndex64 L₂ := by
  refine ⟨?_, rampIndex64_mono h⟩
  unfold rampIndex Math.round
  refine min_le_min le_rfl (Int.floor_mono ?_)
  have h66 : (0 : ℚ) ≤ (RAMP.length : ℚ) - 1 := by
    rw [RAMP_length]
    norm_num
  have := mul_le_mul_of_nonneg_right h h66
  linarith

/-- C11 at the luminances 1/4 and 3/4. -/
theorem rampIndex_monotone_witness :
    (1 / 4 : ℚ) ≤ 3 / 4 ∧
    (rampIndex (1 / 4) ≤ rampIndex (3 / 4) ∧ rampIndex64 (1 / 4) ≤ rampIndex64 (3 / 4)) :=
  ⟨by norm_num, rampIndex_monotone (1 / 4) (3 / 4) (by norm_num)⟩

/-- C12. For byte channels the luminance `(0.2126 R + 0.7152 G + 0.0722 B) / 255` lies in
`[0, 1]`: the three coefficients are non-negative and add up to 1, so no clamp is needed. The
value the code computes in double arithmetic lies in `[0, 1]` as well. -/
theorem luminance_unit_interval (r g b : ℕ) (hr : r ≤ 255) (hg : g ≤ 255) (hb : b ≤ 255) :
    0 ≤ luminance r g b ∧ luminance r g b ≤ 1 ∧ (0.2126 + 0.7152 + 0.0722 : ℚ) = 1 ∧
    0 ≤ luminance64 r g b ∧ luminance64 r g b ≤ 1 := by
  refine ⟨luminance_nonneg r g b, ?_, by norm_num, luminance64_nonneg r g b,
    luminance64_le_one hr hg hb⟩
  have hr' : (r : ℚ) ≤ 255 := by exact_mod_cast hr
  have hg' : (g : ℚ) ≤ 255 := by exact_mod_cast hg
  have hb' : (b : ℚ) ≤ 255 := by exact_mod_cast hb
  unfold luminance
  rw [div_le_one (by norm_num)]
  norm_num
  linarith

/-- C12 at the pixel (200, 100, 50). -/
theorem luminance_unit_interval_witness :
    (200 ≤ 255 ∧ 100 ≤ 255 ∧ 50 ≤ 255) ∧
    (0 ≤ luminance 200 100 50 ∧ luminance 200 100 50 ≤ 1 ∧
      (0.2126 + 0.7152 + 0.0722 : ℚ) = 1 ∧
      0 ≤ luminance64 200 100 50 ∧ luminance64 200 100 50 ≤ 1) :=
  ⟨by decide, luminance_unit_interval 200 100 50 (by decide) (by decide) (by decide)⟩

/-! ## Lemmas: the double arithmetic of the pixel loop against the exact formulas -/

/-- Below 256 the rounding error is at most `2 ^ (-46)`. -/
theorem round_near {x : ℚ} (h0 : 0 ≤ x) (h : x < 256) :
    0 ≤ Binary64.round x ∧
    x - 1 / 2 ^ 46 ≤ Binary64.round x ∧ Binary64.round x ≤ x + 1 / 2 ^ 46 := by
  refine ⟨Binary64.round_nonneg_of_nonneg h0, ?_⟩
  by_cases hx : x = 0
  · subst hx
    rw [Binary64.round_zero]
    constructor <;> norm_num
  have hpos : 0 < x := lt_of_le_of_ne h0 (Ne.symm hx)
  have herr := Binary64.abs_round_sub_le x
  obtain ⟨he1, -⟩ := Binary64.exponent_spec hx
  rw [abs_of_pos hpos] at he1
  have he : Binary64.exponent x ≤ 7 := by
    by_contra hbig
    rw [not_le] at hbig
    have h8 : Binary64.pow2 8 ≤ Binary64.pow2 (Binary64.exponent x) :=
      Binary64.pow2_le_pow2 (by omega)
    have : Binary64.pow2 8 = 256 := by decide!
    linarith
  have hulp : Binary64.ulp x ≤ 1 / 2 ^ 45 := by
    unfold Binary64.ulp
    have h45 : Binary64.pow2 (-45) = 1 / 2 ^ 45 := by decide!
    rw [← h45]
    apply Binary64.pow2_le_pow2
    have := max_le he (show (-1022 : ℤ) ≤ 7 by norm_num)
    omega
  rw [abs_le] at herr
  constructor
  · have : (1 : ℚ) / 2 ^ 46 = 1 / 2 ^ 45 / 2 := by norm_num
    linarith
  · have : (1 : ℚ) / 2 ^ 46 = 1 / 2 ^ 45 / 2 := by norm_num
    linarith

theorem round_literals :
    Binary64.round 0.2126 = 1914930561557935 / 9007199254740992 ∧
    Binary64.round 0.7152 = 6441948906990757 / 9007199254740992 ∧
    Binary64.round 0.0722 = 5202558289538397 / 72057594037927936 := by
  refine ⟨by decide!, by decide!, by decide!⟩

/-- For byte channels the product `L * 66` of the code differs from the exact one by less than
`2 ^ (-39)`. -/
theorem product64_near {r g b : ℕ} (hr : r ≤ 255) (hg : g ≤ 255) (hb : b ≤ 255) :
    luminance r g b * 66 - 1 / 2 ^ 39 ≤ Binary64.mul (luminance64 r g b) 66 ∧
    Binary64.mul (luminance64 r g b) 66 ≤ luminance r g b * 66 + 1 / 2 ^ 39 := by
  have hr' : (r : ℚ) ≤ 255 := by exact_mod_cast hr
  have hg' : (g : ℚ) ≤ 255 := by exact_mod_cast hg
  have hb' : (b : ℚ) ≤ 255 := by exact_mod_cast hb
  have hr0 : (0 : ℚ) ≤ (r : ℚ) := Nat.cast_nonneg r
  have hg0 : (0 : ℚ) ≤ (g : ℚ) := Nat.cast_nonneg g
  have hb0 : (0 : ℚ) ≤ (b : ℚ) := Nat.cast_nonneg b
  obtain ⟨hc1, hc2, hc3⟩ := round_literals
  unfold luminance64 luminance Binary64.div Binary64.add Binary64.mul
  rw [hc1, hc2, hc3]
  generalize (r : ℚ) = R at *
  generalize (g : ℚ) = G at *
  generalize (b : ℚ) = B at *
  obtain ⟨a0, a1, a2⟩ := @round_near (1914930561557935 / 9007199254740992 * R)
    (by positivity) (by linarith)
  generalize Binary64.round (1914930561557935 / 9007199254740992 * R) = t1 at *
  obtain ⟨b0, b1, b2⟩ := @round_near (6441948906990757 / 9007199254740992 * G)
    (by positivity) (by linarith)
  generalize Binary64.round (6441948906990757 / 9007199254740992 * G) = t2 at *
  obtain ⟨c0, c1, c2⟩ := @round_near (5202558289538397 / 72057594037927936 * B)
    (by positivity) (by linarith)
  generalize Binary64.round (5202558289538397 / 72057594037927936 * B) = t3 at *
  obtain ⟨d0, d1, d2⟩ := @round_near (t1 + t2) (by linarith) (by linarith)
  generalize Binary64.round (t1 + t2) = s1 at *
  obtain ⟨e0, e1, e2⟩ := @round_near (s1 + t3) (by linarith) (by linarith)
  generalize Binary64.round (s1 + t3) = s2 at *
  obtain ⟨f0, f1, f2⟩ := @round_near (s2 / 255) (by positivity) (by linarith)
  generalize Binary64.round (s2 / 255) = L at *
  obtain ⟨g0, g1, g2⟩ := @round_near (L * 66) (by positivity) (by linarith)
  generalize Binary64.round (L * 66) = P at *
  constructor <;> linarith

theorem round_sub_round_le {a b : ℚ} (h1 : b - 1 ≤ a) (h2 : a ≤ b + 1) :
    Math.round b - 1 ≤ Math.round a ∧ Math.round a ≤ Math.round b + 1 := by
  unfold Math.round
  constructor
  · have : ⌊b + 1 / 2⌋ - 1 = ⌊b - 1 + 1 / 2⌋ := by
      rw [show b - 1 + 1 / 2 = b + 1 / 2 - 1 from by ring, Int.floor_sub_one]
    rw [this]
    exact Int.floor_mono (by linarith)
  · have : ⌊b + 1 / 2⌋ + 1 = ⌊b + 1 + 1 / 2⌋ := by
      rw [show b + 1 + 1 / 2 = b + 1 / 2 + 1 from by ring, Int.floor_add_one]
    rw [this]
    exact Int.floor_mono (by linarith)

/-- The rows of `imageToAscii`: when the image loads and the width is not zero, the promise
resolves with the raster of `H` rows, `H` being the row count of line 598 in double
arithmetic. -/
theorem imageToAscii_rows {env : Env} {src : Str} {img : Bitmap}
    (hload : env.loadImage src = some img) {W : ℕ} (hW : W ≠ 0) (invert : Bool) :
    ∃ H : ℕ,
      (H : ℤ) = max 1 (Math.round
        (Binary64.mul (Binary64.mul (W : ℚ) (Binary64.div (img.height : ℚ) (img.width : ℚ)))
          (Binary64.div env.charW env.charH))) ∧
      1 ≤ H ∧
      imageToAscii env src W invert = Outcome.resolved (rasterLoop (getImageData img W H) W H) ∧
      (lines (rasterLoop (getImageData img W H) W H)).length = H := by
  have hcast : ∀ x : ℤ, (((max 1 x).toNat : ℕ) : ℤ) = max 1 x := fun x =>
    Int.toNat_of_nonneg (le_trans (by norm_num) (le_max_left 1 x))
  refine ⟨_, hcast _, toNat_max_one_pos _, ?_, ?_⟩
  · unfold imageToAscii
    rw [hload]
    simp only [hW, if_false]
  · exact (lines_of_isRaster (rasterLoop_isRaster _ _ _ (getImageData_length _ _ _))).1

/-- The rows of `emojiToAscii`, see `imageToAscii_rows`. -/
theorem emojiToAscii_rows {env : Env} {emoji : Str} {canvas : Bitmap}
    (hglyph : env.drawGlyph emoji = Except.ok canvas) {W : ℕ} (hW : W ≠ 0) :
    ∃ H : ℕ,
      (H : ℤ) = max 1 (Math.round (Binary64.mul (W : ℚ) (Binary64.div env.charW env.charH))) ∧
      1 ≤ H ∧
      emojiToAscii env emoji W = Outcome.resolved (rasterLoop (getImageData canvas W H) W H) ∧
      (lines (rasterLoop (getImageData canvas W H) W H)).length = H := by
  have hcast : ∀ x : ℤ, (((max 1 x).toNat : ℕ) : ℤ) = max 1 x := fun x =>
    Int.toNat_of_nonneg (le_trans (by norm_num) (le_max_left 1 x))
  refine ⟨_, hcast _, toNat_max_one_pos _, ?_, ?_⟩
  · unfold emojiToAscii
    rw [hglyph]
    simp only [hW, if_false]
  · exact (lines_of_isRaster (rasterLoop_isRaster _ _ _ (getImageData_length _ _ _))).1

/-- C13 as stated fails. For the pixel (1, 131, 171) the luminance formula gives
`L * 66 = 27.5` exactly, which `Math.round` takes to 28 (the character `t`). The code computes
`L` and the product in double arithmetic, gets a number just below 27.5 and uses the index 27:
the pixel is rendered as `/`. -/
theorem index_differs_from_exact_round :
    luminance 1 131 171 * ((RAMP.length : ℚ) - 1) = 55 / 2 ∧
    Math.round (luminance 1 131 171 * ((RAMP.length : ℚ) - 1)) = 28 ∧
    rampAt 28 = some 't' ∧
    Binary64.mul (luminance64 1 131 171) ((RAMP.length : ℚ) - 1) < 55 / 2 ∧
    rampIndex64 (luminance64 1 131 171) = 27 ∧
    rampAt 27 = some '/' ∧
    pixelText [1, 131, 171, 255] 0 = ['/'] := by
  refine ⟨by decide!, by decide!, by decide!, by decide!, by decide!, by decide!, by decide!⟩

/-- C13, amended. For byte channels the index used is `round(P)`, where `P` is the product
`L * (rampLength - 1)` as the code computes it in double arithmetic; the upper clamp is idle.
`P` differs from the exact value of the formula by at most `2 ^ (-39)`, so the index is the
rounded exact value or, next to a tie, its neighbour. The index lies in
`[0, rampLength - 1]`; so the lookup in `RAMP` is defined and the pixel contributes exactly one
character of `RAMP`. -/
theorem rampIndex_in_range (r g b : ℕ) (hr : r ≤ 255) (hg : g ≤ 255) (hb : b ≤ 255) :
    rampIndex64 (luminance64 r g b) =
      Math.round (Binary64.mul (luminance64 r g b) ((RAMP.length : ℚ) - 1)) ∧
    (luminance r g b * ((RAMP.length : ℚ) - 1) - 1 / 2 ^ 39 ≤
        Binary64.mul (luminance64 r g b) ((RAMP.length : ℚ) - 1) ∧
      Binary64.mul (luminance64 r g b) ((RAMP.length : ℚ) - 1) ≤
        luminance r g b * ((RAMP.length : ℚ) - 1) + 1 / 2 ^ 39) ∧
    (Math.round (luminance r g b * ((RAMP.length : ℚ) - 1)) - 1 ≤
        rampIndex64 (luminance64 r g b) ∧
      rampIndex64 (luminance64 r g b) ≤
        Math.round (luminance r g b * ((RAMP.length : ℚ) - 1)) + 1) ∧
    0 ≤ rampIndex64 (luminance64 r g b) ∧
    rampIndex64 (luminance64 r g b) ≤ (RAMP.length : ℤ) - 1 ∧
    ∃ c, c ∈ RAMP ∧ rampAt (rampIndex64 (luminance64 r g b)) = some c ∧
      rampText (rampIndex64 (luminance64 r g b)) = [c] ∧
      ∀ a : ℕ, pixelText [r, g, b, a] 0 = [c] := by
  have h0 := luminance64_nonneg r g b
  have h1 := luminance64_le_one hr hg hb
  have h66 : ((RAMP.length : ℚ) - 1) = 66 := by
    rw [RAMP_length]
    norm_num
  have h66r : Binary64.round 66 = 66 := by decide!
  have hP : Binary64.mul (luminance64 r g b) 66 ≤ 66 := by
    have := @mul_mono_left64 (luminance64 r g b) 1 66 (by norm_num) h1
    unfold Binary64.mul at this ⊢
    rw [one_mul, h66r] at this
    exact this
  have hround : Math.round (Binary64.mul (luminance64 r g b) ((RAMP.length : ℚ) - 1)) ≤
      (RAMP.length : ℤ) - 1 := by
    rw [h66, RAMP_length]
    unfold Math.round
    have hlt : Binary64.mul (luminance64 r g b) 66 + 1 / 2 < ((67 : ℤ) : ℚ) := by
      push_cast
      linarith
    have hfl := Int.floor_lt.mpr hlt
    have h67 : (((67 : ℕ) : ℤ) - 1 : ℤ) = 66 := by norm_num
    rw [h67]
    omega
  have heq : rampIndex64 (luminance64 r g b) =
      Math.round (Binary64.mul (luminance64 r g b) ((RAMP.length : ℚ) - 1)) := by
    unfold rampIndex64
    exact min_eq_right hround
  have hnear := product64_near hr hg hb
  obtain ⟨c, hc, hcx⟩ := rampAt_rampIndex64 h0
  refine ⟨heq, ?_, ?_, rampIndex64_nonneg h0, ?_, c, hc, hcx, rampText_of_rampAt hcx, ?_⟩
  · rw [h66]
    exact hnear
  · rw [heq, h66]
    have hsmall : (1 : ℚ) / 2 ^ 39 ≤ 1 := by norm_num
    exact round_sub_round_le (by linarith [hnear.1]) (by linarith [hnear.2])
  · rw [RAMP_length]
    exact rampIndex64_le _
  · intro a
    unfold pixelText
    simp only [List.getElem?_cons_zero, List.getElem?_cons_succ]
    exact rampText_of_rampAt hcx

/-- C13 at the pixel (1, 131, 171). -/
theorem rampIndex_in_range_witness :
    (1 ≤ 255 ∧ 131 ≤ 255 ∧ 171 ≤ 255) ∧
    rampIndex64 (luminance64 1 131 171) =
      Math.round (Binary64.mul (luminance64 1 131 171) ((RAMP.length : ℚ) - 1)) ∧
    Math.round (luminance 1 131 171 * ((RAMP.length : ℚ) - 1)) - 1 ≤
      rampIndex64 (luminance64 1 131 171) :=
  ⟨by decide,
    (rampIndex_in_range 1 131 171 (by decide) (by decide) (by decide)).1,
    (rampIndex_in_range 1 131 171 (by decide) (by decide) (by decide)).2.2.1.1⟩

/-- C14 as stated fails. For the width 240 of `summon cheddar --big`, an image of 160 x 41
pixels and square character cells, the formula gives `240 * (41 / 160) * 1 = 61.5`, which
`Math.round` takes to 62. The code rounds the quotient `41 / 160` and the products to doubles,
gets a number just below 61.5, and renders 61 rows. -/
theorem rows_differ_from_exact_round :
    (240 : ℚ) * ((41 : ℚ) / 160) * ((1 : ℚ) / 1) = 123 / 2 ∧
    max 1 (Math.round ((240 : ℚ) * ((41 : ℚ) / 160) * ((1 : ℚ) / 1))) = 62 ∧
    Binary64.mul (Binary64.mul 240 (Binary64.div 41 160)) (Binary64.div 1 1) < 123 / 2 ∧
    ∃ out, imageToAscii (tallEnv 0) profilePath 240 false = Outcome.resolved out ∧
      (lines out).length = 61 := by
  refine ⟨by norm_num, by decide!, by decide!, ?_⟩
  obtain ⟨H, hH, -, hres, hlen⟩ :=
    @imageToAscii_rows (tallEnv 0) profilePath (flatBitmap 160 41 255) rfl 240 (by decide) false
  have h61 : max 1 (Math.round
      (Binary64.mul (Binary64.mul ((240 : ℕ) : ℚ)
        (Binary64.div ((flatBitmap 160 41 255).height : ℚ) ((flatBitmap 160 41 255).width : ℚ)))
        (Binary64.div (tallEnv 0).charW (tallEnv 0).charH))) = 61 := by decide!
  rw [h61] at hH
  have hH61 : H = 61 := by exact_mod_cast hH
  subst hH61
  exact ⟨_, hres, hlen⟩

/-- C14, amended. For a positive width, an image of positive dimensions that loads and positive
character metrics, `imageToAscii` resolves with a raster of `H` rows where `H` is
`max(1, round(W * (srcHeight / srcWidth) * (charW / charH)))` with the two quotients and the two
products computed in double arithmetic, so `H` is at least 1; and `emojiToAscii`, when its glyph
canvas is drawn, resolves with a raster whose row count is `max(1, round(W * (charW / charH)))`
in double arithmetic, which for a width up to `2 ^ 53` is the same formula for a square source
of 512 x 512. -/
theorem targetHeight_at_least_one (env : Env) (src : Str) (img : Bitmap) (W : ℕ) (invert : Bool)
    (hload : env.loadImage src = some img) (hW : 0 < W)
    (hw : 0 < img.width) (hh : 0 < img.height) (hcw : 0 < env.charW) (hch : 0 < env.charH) :
    (∃ H : ℕ,
      (H : ℤ) = max 1 (Math.round
        (Binary64.mul (Binary64.mul (W : ℚ) (Binary64.div (img.height : ℚ) (img.width : ℚ)))
          (Binary64.div env.charW env.charH))) ∧
      1 ≤ H ∧
      imageToAscii env src W invert = Outcome.resolved (rasterLoop (getImageData img W H) W H) ∧
      (lines (rasterLoop (getImageData img W H) W H)).length = H) ∧
    (∀ (emoji : Str) (canvas : Bitmap), env.drawGlyph emoji = Except.ok canvas →
      ∃ H : ℕ,
        (H : ℤ) = max 1 (Math.round
          (Binary64.mul (W : ℚ) (Binary64.div env.charW env.charH))) ∧
        1 ≤ H ∧
        emojiToAscii env emoji W = Outcome.resolved (rasterLoop (getImageData canvas W H) W H) ∧
        (lines (rasterLoop (getImageData canvas W H) W H)).length = H) ∧
    (W ≤ 2 ^ 53 →
      Binary64.mul (Binary64.mul (W : ℚ) (Binary64.div (512 : ℚ) (512 : ℚ)))
          (Binary64.div env.charW env.charH) =
        Binary64.mul (W : ℚ) (Binary64.div env.charW env.charH)) := by
  have hW0 : W ≠ 0 := Nat.pos_iff_ne_zero.mp hW
  refine ⟨imageToAscii_rows hload hW0 invert,
    fun emoji canvas hglyph => emojiToAscii_rows hglyph hW0, ?_⟩
  intro hW53
  have h1 : Binary64.div (512 : ℚ) (512 : ℚ) = 1 := by decide!
  have hWr : Binary64.mul (W : ℚ) 1 = (W : ℚ) := by
    unfold Binary64.mul
    rw [mul_one]
    have := Binary64.round_intCast (W : ℤ) (by
      rw [abs_of_nonneg (by positivity)]
      exact_mod_cast hW53)
    exact_mod_cast this
  rw [h1, hWr]

/-- C14 at width 240 in the browser `tallEnv 0` (image of 160 x 41, square cells). -/
theorem targetHeight_at_least_one_witness :
    ((tallEnv 0).loadImage profilePath = some (flatBitmap 160 41 255) ∧ 0 < 240 ∧
      0 < (flatBitmap 160 41 255).width ∧ 0 < (flatBitmap 160 41 255).height ∧
      0 < (tallEnv 0).charW ∧ 0 < (tallEnv 0).charH) ∧
    ∃ H : ℕ,
      (H : ℤ) = max 1 (Math.round
        (Binary64.mul (Binary64.mul ((240 : ℕ) : ℚ)
          (Binary64.div ((flatBitmap 160 41 255).height : ℚ)
            ((flatBitmap 160 41 255).width : ℚ)))
          (Binary64.div (tallEnv 0).charW (tallEnv 0).charH))) ∧
      1 ≤ H ∧
      imageToAscii (tallEnv 0) profilePath 240 false =
        Outcome.resolved (rasterLoop (getImageData (flatBitmap 160 41 255) 240 H) 240 H) ∧
      (lines (rasterLoop (getImageData (flatBitmap 160 41 255) 240 H) 240 H)).length = H :=
  ⟨⟨rfl, by decide, by decide, by decide, by decide!, by decide!⟩,
    (targetHeight_at_least_one (tallEnv 0) profilePath (flatBitmap 160 41 255) 240 false rfl
      (by decide) (by decide) (by decide) (by decide!) (by decide!)).1⟩

/-! ## Lemmas: tokens -/

theorem trim_eq_rdropWhile (s : Str) :
    trim s = (s.dropWhile isWhiteSpace).rdropWhile isWhiteSpace := rfl

theorem trim_head_not_space (s : Str) (c : Char) (h : (trim s).head? = some c) :
    isWhiteSpace c = false := by
  rw [trim_eq_rdropWhile] at h
  obtain ⟨rest, hrest⟩ : (s.dropWhile isWhiteSpace).rdropWhile isWhiteSpace <+:
      s.dropWhile isWhiteSpace := List.rdropWhile_prefix isWhiteSpace (s.dropWhile isWhiteSpace)
  have hhead : (s.dropWhile isWhiteSpace).head? = some c := by
    rw [← hrest]
    cases hl : (s.dropWhile isWhiteSpace).rdropWhile isWhiteSpace with
    | nil =>
      rw [hl] at h
      exact absurd h (by simp)
    | cons a l =>
      rw [hl] at h
      simpa using h
  have := List.head?_dropWhile_not isWhiteSpace s
  rw [hhead] at this
  exact this

theorem trim_last_not_space (s : Str) (c : Char) (h : (trim s).getLast? = some c) :
    isWhiteSpace c = false := by
  rw [trim_eq_rdropWhile] at h
  have hne : (s.dropWhile isWhiteSpace).rdropWhile isWhiteSpace ≠ [] := by
    intro e
    rw [e] at h
    exact absurd h (by simp)
  have hnot := List.rdropWhile_last_not isWhiteSpace (s.dropWhile isWhiteSpace) hne
  rw [List.getLast?_eq_getLast _ hne] at h
  injection h with h
  rw [h] at hnot
  simpa using hnot

theorem trim_ne_nil {s : Str} (h : ∃ c ∈ s, isWhiteSpace c = false) : trim s ≠ [] := by
  obtain ⟨c, hc, hws⟩ := h
  have hdrop : s.dropWhile isWhiteSpace ≠ [] := by
    intro e
    have := (List.dropWhile_eq_nil_iff.mp e) c hc
    rw [hws] at this
    exact absurd this (by simp)
  rw [trim_eq_rdropWhile]
  intro e
  have hall := List.rdropWhile_eq_nil_iff.mp e
  cases hd : s.dropWhile isWhiteSpace with
  | nil => exact hdrop hd
  | cons a l =>
    have hhead := List.head?_dropWhile_not isWhiteSpace s
    rw [hd] at hhead hall
    have ha : isWhiteSpace a = false := by simpa using hhead
    have := hall a (List.mem_cons_self _ _)
    rw [ha] at this
    exact absurd this (by simp)

theorem trim_eq_nil {s : Str} (h : ∀ c ∈ s, isWhiteSpace c = true) : trim s = [] := by
  have : s.dropWhile isWhiteSpace = [] := List.dropWhile_eq_nil_iff.mpr h
  rw [trim_eq_rdropWhile, this]
  rfl

theorem splitAux_no_space (s cur : Str) (inRun : Bool)
    (hcur : ∀ c ∈ cur, isWhiteSpace c = false) :
    ∀ t ∈ splitAux s cur inRun, ∀ c ∈ t, isWhiteSpace c = false := by
  induction s generalizing cur inRun with
  | nil =>
    intro t ht
    simp only [splitAux, List.mem_singleton] at ht
    rw [ht]
    exact hcur
  | cons a s ih =>
    intro t ht
    unfold splitAux at ht
    by_cases ha : isWhiteSpace a = true
    · rw [if_pos ha] at ht
      cases inRun with
      | true =>
        simp only [if_true] at ht
        exact ih cur true hcur t ht
      | false =>
        simp only [Bool.false_eq_true, if_false, List.mem_cons] at ht
        rcases ht with rfl | ht
        · exact hcur
        · exact ih [] true (fun c hc => absurd hc (List.not_mem_nil c)) t ht
    · rw [if_neg ha] at ht
      refine ih (cur ++ [a]) false ?_ t ht
      intro c hc
      rcases List.mem_append.mp hc with h | h
      · exact hcur c h
      · rw [List.mem_singleton.mp h]
        simpa using ha

theorem getLast?_cons_of_some {α : Type} (a : α) {l : List α} {d : α} (h : l.getLast? = some d) :
    (a :: l).getLast? = some d := by
  cases l with
  | nil => exact absurd h (by simp)
  | cons b l => rw [List.getLast?_cons_cons]; exact h

theorem splitAux_no_empty (s cur : Str) (inRun : Bool)
    (h1 : cur ≠ [] ∨ inRun = true ∨ ∀ c, s.head? = some c → isWhiteSpace c = false)
    (h2 : s = [] → cur ≠ [])
    (h3 : ∀ c, s.getLast? = some c → isWhiteSpace c = false) :
    ∀ t ∈ splitAux s cur inRun, t ≠ [] := by
  induction s generalizing cur inRun with
  | nil =>
    intro t ht
    simp only [splitAux, List.mem_singleton] at ht
    rw [ht]
    exact h2 rfl
  | cons a s ih =>
    have hs : isWhiteSpace a = true → s ≠ [] := by
      intro ha e
      have := h3 a (by rw [e]; rfl)
      rw [ha] at this
      exact absurd this (by simp)
    have h3' : ∀ c, s.getLast? = some c → isWhiteSpace c = false :=
      fun c hc => h3 c (getLast?_cons_of_some a hc)
    intro t ht
    unfold splitAux at ht
    by_cases ha : isWhiteSpace a = true
    · rw [if_pos ha] at ht
      cases inRun with
      | true =>
        simp only [if_true] at ht
        exact ih cur true (Or.inr (Or.inl rfl)) (fun e => absurd e (hs ha)) h3' t ht
      | false =>
        simp only [Bool.false_eq_true, if_false, List.mem_cons] at ht
        have hcur : cur ≠ [] := by
          rcases h1 with h | h | h
          · exact h
          · exact absurd h (by simp)
          · have := h a rfl
            rw [ha] at this
            exact absurd this (by simp)
        rcases ht with rfl | ht
        · exact hcur
        · exact ih [] true (Or.inr (Or.inl rfl)) (fun e => absurd e (hs ha)) h3' t ht
    · rw [if_neg ha] at ht
      exact ih (cur ++ [a]) false (Or.inl (by simp)) (fun _ => by simp) h3' t ht

/-- C15. For every input string `tokenize` returns a non-empty list of tokens, and no token
contains a white-space character. When the input has a character that is not white space no
token is empty; when it has none (the empty string included) the result is the single empty
token. So `handleCommand` always finds a name and an argument list, and returns without an
exception. -/
theorem tokenize_tokens (cmd : Str) :
    tokenize cmd ≠ [] ∧
    (∀ t ∈ tokenize cmd, ∀ c ∈ t, isWhiteSpace c = false) ∧
    ((∃ c ∈ cmd, isWhiteSpace c = false) → ∀ t ∈ tokenize cmd, t ≠ []) ∧
    ((∀ c ∈ cmd, isWhiteSpace c = true) → tokenize cmd = [[]]) ∧
    (∀ (env : Env) (s : State), ∃ name args t,
      tokenize cmd = name :: args ∧ handleCommand env cmd s = Except.ok t) := by
  refine ⟨tokenize_ne_nil cmd, ?_, ?_, ?_, ?_⟩
  · exact splitAux_no_space (trim cmd) [] false (fun c hc => absurd hc (List.not_mem_nil c))
  · intro h
    have hne := trim_ne_nil h
    exact splitAux_no_empty (trim cmd) [] false
      (Or.inr (Or.inr (trim_head_not_space cmd))) (fun e => absurd e hne)
      (trim_last_not_space cmd)
  · intro h
    unfold tokenize
    rw [trim_eq_nil h]
    rfl
  · intro env s
    obtain ⟨name, args, htok, heq⟩ := handleCommand_eq env cmd s
    exact ⟨name, args, _, htok, heq⟩

/-! ## Lemmas: the theme -/

theorem toggleDarkMode_theme (s : State) :
    (toggleDarkMode s).dreamMode = false ∧
    ((s.darkMode = true → (toggleDarkMode s).darkMode = false ∧
        (toggleDarkMode s).localStorage = removeItem s.localStorage themeKey) ∧
      (s.darkMode = false → (toggleDarkMode s).darkMode = true ∧
        (toggleDarkMode s).localStorage = setItem s.localStorage themeKey "dark".toList)) := by
  unfold toggleDarkMode
  dsimp only
  cases hd : s.darkMode with
  | true => exact ⟨rfl, fun _ => ⟨rfl, rfl⟩, fun h => absurd h (by simp)⟩
  | false => exact ⟨rfl, fun h => absurd h (by simp), fun _ => ⟨rfl, rfl⟩⟩

theorem toggleDreamMode_theme (s : State) :
    (toggleDreamMode s).darkMode = false ∧
    ((s.dreamMode = true → (toggleDreamMode s).dreamMode = false ∧
        (toggleDreamMode s).localStorage = removeItem s.localStorage themeKey) ∧
      (s.dreamMode = false → (toggleDreamMode s).dreamMode = true ∧
        (toggleDreamMode s).localStorage = setItem s.localStorage themeKey "dream".toList)) := by
  unfold toggleDreamMode
  dsimp only
  cases hd : s.dreamMode with
  | true => exact ⟨rfl, fun _ => ⟨rfl, rfl⟩, fun h => absurd h (by simp)⟩
  | false => exact ⟨rfl, fun h => absurd h (by simp), fun _ => ⟨rfl, rfl⟩⟩

theorem themeConsistent_cleared {t : State} (hd : t.darkMode = false) (hm : t.dreamMode = false)
    (hs : getItem t.localStorage themeKey = none) : ThemeConsistent t := by
  unfold ThemeConsistent
  rw [hd, hm, hs]
  simp

theorem themeConsistent_dark {t : State} (hd : t.darkMode = true) (hm : t.dreamMode = false)
    (hs : getItem t.localStorage themeKey = some "dark".toList) : ThemeConsistent t := by
  have hne : ("dark".toList : Str) ≠ "dream".toList := by decide
  unfold ThemeConsistent
  rw [hd, hm, hs]
  simp [hne]

theorem themeConsistent_dream {t : State} (hd : t.darkMode = false) (hm : t.dreamMode = true)
    (hs : getItem t.localStorage themeKey = some "dream".toList) : ThemeConsistent t := by
  have hne : ("dream".toList : Str) ≠ "dark".toList := by decide
  unfold ThemeConsistent
  rw [hd, hm, hs]
  simp [hne]

theorem toggleDarkMode_consistent (s : State) : ThemeConsistent (toggleDarkMode s) := by
  obtain ⟨hm, hon, hoff⟩ := toggleDarkMode_theme s
  cases hd : s.darkMode with
  | true =>
    obtain ⟨h1, h2⟩ := hon hd
    exact themeConsistent_cleared h1 hm (by rw [h2]; exact getItem_removeItem_self _ _)
  | false =>
    obtain ⟨h1, h2⟩ := hoff hd
    exact themeConsistent_dark h1 hm (by rw [h2]; exact getItem_setItem_self _ _ _)

theorem toggleDreamMode_consistent (s : State) : ThemeConsistent (toggleDreamMode s) := by
  obtain ⟨hm, hon, hoff⟩ := toggleDreamMode_theme s
  cases hd : s.dreamMode with
  | true =>
    obtain ⟨h1, h2⟩ := hon hd
    exact themeConsistent_cleared hm h1 (by rw [h2]; exact getItem_removeItem_self _ _)
  | false =>
    obtain ⟨h1, h2⟩ := hoff hd
    exact themeConsistent_dream hm h1 (by rw [h2]; exact getItem_setItem_self _ _ _)

theorem toggleLightMode_consistent (s : State) : ThemeConsistent (toggleLightMode s) :=
  themeConsistent_cleared rfl rfl (getItem_removeItem_self _ _)

theorem runCommand_theme_consistent (env : Env) (c : Command) (args : List Str) (s : State)
    (hc : isThemeCommand c = true) : ThemeConsistent (runCommand env c args s) := by
  cases c <;> first
    | exact absurd hc (by decide)
    | exact toggleDarkMode_consistent s
    | exact toggleDreamMode_consistent s
    | exact toggleLightMode_consistent s

theorem restore_of_consistent {t : State} (h : ThemeConsistent t) :
    (restoreThemeMode (reloaded t)).darkMode = t.darkMode ∧
    (restoreThemeMode (reloaded t)).dreamMode = t.dreamMode := by
  obtain ⟨hboth, hdark, hdream, -⟩ := h
  unfold restoreThemeMode
  have hst : (reloaded t).localStorage = t.localStorage := rfl
  dsimp only
  rw [hst]
  by_cases h1 : getItem t.localStorage themeKey = some "dark".toList
  · rw [if_pos h1]
    have hd := hdark.mp h1
    have hm : t.dreamMode = false := by
      cases hx : t.dreamMode with
      | true => exact absurd ⟨hd, hx⟩ hboth
      | false => rfl
    exact ⟨hd.symm, hm.symm⟩
  · rw [if_neg h1]
    have hd : t.darkMode = false := by
      cases hx : t.darkMode with
      | true => exact absurd (hdark.mpr hx) h1
      | false => rfl
    by_cases h2 : getItem t.localStorage themeKey = some "dream".toList
    · rw [if_pos h2]
      exact ⟨hd.symm, (hdream.mp h2).symm⟩
    · rw [if_neg h2]
      have hm : t.dreamMode = false := by
        cases hx : t.dreamMode with
        | true => exact absurd (hdream.mpr hx) h2
        | false => rfl
      exact ⟨hd.symm, hm.symm⟩

theorem runCommands_theme_consistent (env : Env) (steps : List (Command × List Str)) (s : State)
    (htheme : ∀ p ∈ steps, isThemeCommand p.1 = true) (hne : steps ≠ []) :
    ThemeConsistent (runCommands env steps s) := by
  induction steps generalizing s with
  | nil => exact absurd rfl hne
  | cons p rest ih =>
    obtain ⟨c, args⟩ := p
    cases hrest : rest with
    | nil =>
      exact runCommand_theme_consistent env c args s
        (htheme (c, args) (List.mem_cons_self _ _))
    | cons q rest' =>
      unfold runCommands
      rw [← hrest]
      exact ih _ (fun p hp => htheme p (List.mem_cons_of_mem _ hp)) (by rw [hrest]; simp)

/-- C17. After any of the commands `darkmode`, `dreammode`, `lightmode`, run from any prior
state of the body classes and the storage, the body carries at most one of the classes
`dark-mode` and `dream-mode`, and the stored `theme-mode` is `dark` exactly when `dark-mode` is
set, `dream` exactly when `dream-mode` is set, and absent exactly when neither is set. The
three command lines run the three toggles. -/
theorem theme_consistent_after_command (env : Env) (args : List Str) (s : State) :
    ThemeConsistent (runCommand env Command.darkmode args s) ∧
    ThemeConsistent (runCommand env Command.dreammode args s) ∧
    ThemeConsistent (runCommand env Command.lightmode args s) ∧
    handleCommand env "darkmode".toList s = Except.ok (toggleDarkMode s) ∧
    handleCommand env "dreammode".toList s = Except.ok (toggleDreamMode s) ∧
    handleCommand env "lightmode".toList s = Except.ok (toggleLightMode s) := by
  refine ⟨toggleDarkMode_consistent s, toggleDreamMode_consistent s,
    toggleLightMode_consistent s, ?_, ?_, ?_⟩
  · have ht : tokenize "darkmode".toList = ["darkmode".toList] := by decide
    have hl : lookupCommand (toLowerCase "darkmode".toList) = some Command.darkmode := by decide
    simp only [handleCommand, ht, hl, runCommand]
  · have ht : tokenize "dreammode".toList = ["dreammode".toList] := by decide
    have hl : lookupCommand (toLowerCase "dreammode".toList) = some Command.dreammode := by decide
    simp only [handleCommand, ht, hl, runCommand]
  · have ht : tokenize "lightmode".toList = ["lightmode".toList] := by decide
    have hl : lookupCommand (toLowerCase "lightmode".toList) = some Command.lightmode := by decide
    simp only [handleCommand, ht, hl, runCommand]

/-- C18. Take any sequence of the commands `darkmode`, `dreammode`, `lightmode`. If it is not
empty and runs from any state, or if it runs from the state of a page load (`restoreThemeMode`
on a body without theme classes), then `restoreThemeMode` on a body without theme classes and
with the storage of the final state sets exactly the theme classes of the final state. -/
theorem theme_round_trip (env : Env) (steps : List (Command × List Str)) (s₀ : State)
    (htheme : ∀ p ∈ steps, isThemeCommand p.1 = true) :
    (steps ≠ [] →
      (restoreThemeMode (reloaded (runCommands env steps s₀))).darkMode =
        (runCommands env steps s₀).darkMode ∧
      (restoreThemeMode (reloaded (runCommands env steps s₀))).dreamMode =
        (runCommands env steps s₀).dreamMode) ∧
    (s₀.darkMode = false → s₀.dreamMode = false →
      (restoreThemeMode (reloaded (runCommands env steps (restoreThemeMode s₀)))).darkMode =
        (runCommands env steps (restoreThemeMode s₀)).darkMode ∧
      (restoreThemeMode (reloaded (runCommands env steps (restoreThemeMode s₀)))).dreamMode =
        (runCommands env steps (restoreThemeMode s₀)).dreamMode) := by
  constructor
  · intro hne
    exact restore_of_consistent (runCommands_theme_consistent env steps s₀ htheme hne)
  · intro hd hm
    cases hsteps : steps with
    | nil =>
      have hre : reloaded (restoreThemeMode s₀) = s₀ := by
        unfold restoreThemeMode reloaded
        dsimp only
        split
        · cases s₀
          simp_all
        · split
          · cases s₀
            simp_all
          · cases s₀
            simp_all
      simp only [runCommands]
      rw [hre]
      exact ⟨rfl, rfl⟩
    | cons p rest =>
      rw [← hsteps]
      exact restore_of_consistent
        (runCommands_theme_consistent env steps _ htheme (by rw [hsteps]; simp))

/-- C18 at the sequence `darkmode`, `dreammode` run in a fresh session. -/
theorem theme_round_trip_witness :
    (∀ p ∈ [(Command.darkmode, ([] : List Str)), (Command.dreammode, [])],
      isThemeCommand p.1 = true) ∧
    (([(Command.darkmode, ([] : List Str)), (Command.dreammode, [])] ≠ [] →
      (restoreThemeMode (reloaded (runCommands (whiteEnv 0)
        [(Command.darkmode, []), (Command.dreammode, [])] State.initial))).darkMode =
        (runCommands (whiteEnv 0)
          [(Command.darkmode, []), (Command.dreammode, [])] State.initial).darkMode ∧
      (restoreThemeMode (reloaded (runCommands (whiteEnv 0)
        [(Command.darkmode, []), (Command.dreammode, [])] State.initial))).dreamMode =
        (runCommands (whiteEnv 0)
          [(Command.darkmode, []), (Command.dreammode, [])] State.initial).dreamMode) ∧
    (State.initial.darkMode = false → State.initial.dreamMode = false →
      (restoreThemeMode (reloaded (runCommands (whiteEnv 0)
        [(Command.darkmode, []), (Command.dreammode, [])]
        (restoreThemeMode State.initial)))).darkMode =
        (runCommands (whiteEnv 0) [(Command.darkmode, []), (Command.dreammode, [])]
          (restoreThemeMode State.initial)).darkMode ∧
      (restoreThemeMode (reloaded (runCommands (whiteEnv 0)
        [(Command.darkmode, []), (Command.dreammode, [])]
        (restoreThemeMode State.initial)))).dreamMode =
        (runCommands (whiteEnv 0) [(Command.darkmode, []), (Command.dreammode, [])]
          (restoreThemeMode State.initial)).dreamMode)) :=
  ⟨by decide,
    theme_round_trip (whiteEnv 0) [(Command.darkmode, []), (Command.dreammode, [])]
      State.initial (by decide)⟩

/-! ## Lemmas: the log only grows -/

theorem extends_refl (s : State) : Extends s s := ⟨[], by simp⟩

theorem extends_trans {s t u : State} (h1 : Extends s t) (h2 : Extends t u) : Extends s u := by
  obtain ⟨l1, h1⟩ := h1
  obtain ⟨l2, h2⟩ := h2
  exact ⟨l1 ++ l2, by rw [h2, h1, List.append_assoc]⟩

theorem extends_println {s t : State} (h : Extends s t) (html cls : Str) :
    Extends s (println html cls t) :=
  extends_trans h ⟨[_], rfl⟩

theorem extends_printPre {s t : State} (h : Extends s t) (text cls : Str) :
    Extends s (printPre text cls t) :=
  extends_trans h ⟨[_], rfl⟩

theorem extends_of_out_eq {s t u : State} (h : Extends s t) (hout : u.out = t.out) :
    Extends s u := by
  obtain ⟨l, hl⟩ := h
  exact ⟨l, by rw [hout, hl]⟩

theorem callKairi_extends (s : State) : Extends s (callKairi s) := by
  unfold callKairi
  split
  · exact extends_println (extends_refl s) _ _
  · exact extends_println (extends_println (extends_println
      (extends_of_out_eq (extends_println (extends_refl s) _ _) rfl) _ _) _ _) _ _

theorem printResume_extends (s : State) : Extends s (printResume s) :=
  extends_println (extends_of_out_eq (extends_println (extends_refl s) _ _) rfl) _ _

theorem toggleDarkMode_extends (s : State) : Extends s (toggleDarkMode s) := by
  unfold toggleDarkMode
  dsimp only
  split
  · exact extends_of_out_eq (extends_println (extends_of_out_eq (extends_refl s) rfl) _ _) rfl
  · exact extends_of_out_eq (extends_println (extends_of_out_eq (extends_refl s) rfl) _ _) rfl

theorem toggleDreamMode_extends (s : State) : Extends s (toggleDreamMode s) := by
  unfold toggleDreamMode
  dsimp only
  split
  · exact extends_of_out_eq (extends_println (extends_of_out_eq (extends_refl s) rfl) _ _) rfl
  · exact extends_of_out_eq (extends_println (extends_of_out_eq (extends_refl s) rfl) _ _) rfl

theorem toggleLightMode_extends (s : State) : Extends s (toggleLightMode s) :=
  extends_of_out_eq (extends_println (extends_of_out_eq (extends_refl s) rfl) _ _) rfl

theorem loadJsDosLibrary_extends (env : Env) (s : State) :
    Extends s (loadJsDosLibrary env s).2 := by
  unfold loadJsDosLibrary
  dsimp only
  split
  · exact extends_of_out_eq (extends_refl s) rfl
  · split
    · exact extends_println (extends_of_out_eq (extends_refl s) rfl) _ _
    · exact extends_println (extends_of_out_eq (extends_refl s) rfl) _ _

theorem fetchJsDos_extends (env : Env) (s : State) : Extends s (fetchJsDos env s).2 := by
  unfold fetchJsDos
  split
  · exact extends_refl s
  · dsimp only
    generalize hs0 : println _ [] s = s0
    have h0 : Extends s s0 := by
      rw [← hs0]
      exact extends_println (extends_refl s) _ _
    have h1 := loadJsDosLibrary_extends env s0
    rcases hL : loadJsDosLibrary env s0 with ⟨r, s1⟩
    rw [hL] at h1
    cases r with
    | error e => exact extends_trans h0 h1
    | ok u => exact extends_of_out_eq (extends_trans h0 h1) rfl

theorem runDos_extends (env : Env) (s : State) : Extends s (runDos env s).2 := by
  unfold runDos
  dsimp only
  split
  · exact extends_of_out_eq (extends_println (extends_refl s) _ _) rfl
  · exact extends_println (extends_of_out_eq (extends_println (extends_refl s) _ _) rfl) _ _

theorem startDoom_extends (env : Env) (s : State) : Extends s (startDoom env s).2 := by
  unfold startDoom
  have h := fetchJsDos_extends env s
  rcases hF : fetchJsDos env s with ⟨r, s1⟩
  rw [hF] at h
  cases r with
  | error e => exact h
  | ok u => exact extends_trans h (runDos_extends env s1)

theorem launchDoom_extends (env : Env) (s : State) : Extends s (launchDoom env s) := by
  unfold launchDoom
  split
  · exact extends_println (extends_refl s) _ _
  · dsimp only
    generalize hsp : println _ [] (println _ [] s) = sp
    have hp : Extends s sp := by
      rw [← hsp]
      exact extends_println (extends_println (extends_refl s) _ _) _ _
    generalize hs0 : State.call _ Call.injectDoomStyles = s0
    have h0 : Extends s s0 := by
      refine extends_of_out_eq hp ?_
      rw [← hs0]
      simp only [State.call]
      split <;> rfl
    have h1 := startDoom_extends env s0
    rcases hS : startDoom env s0 with ⟨r, s1⟩
    rw [hS] at h1
    cases r with
    | error e => exact extends_println (extends_trans h0 h1) _ _
    | ok u => exact extends_trans h0 h1

theorem summonCheddar_extends (env : Env) (w : ℕ) (s : State) :
    Extends s (summonCheddar env w s) := by
  rcases summonCheddar_cases env w s with ⟨v, -, -, heq⟩ | ⟨-, cs, -, hcase⟩
  · rw [heq]
    exact ⟨_, rfl⟩
  · rcases hcase with ⟨ascii, H, -, -, -, heq⟩ | ⟨err, heq⟩ | heq
    · rw [heq]
      exact ⟨_, rfl⟩
    · rw [heq]
      exact ⟨_, rfl⟩
    · rw [heq]
      exact ⟨_, rfl⟩

theorem runCommand_extends (env : Env) (c : Command) (args : List Str) (s : State)
    (hc : c ≠ Command.clear) : Extends s (runCommand env c args s) := by
  cases c with
  | clear => exact absurd rfl hc
  | help => exact extends_println (extends_refl s) _ _
  | skills => exact extends_println (extends_refl s) _ _
  | projects => exact extends_println (extends_refl s) _ _
  | summon =>
    unfold runCommand
    dsimp only
    split
    · exact summonCheddar_extends env _ s
    · exact extends_println (extends_refl s) _ _
  | matrix =>
    unfold runCommand
    dsimp only
    split
    · exact extends_println (extends_of_out_eq (extends_println (extends_refl s) _ _) rfl) _ _
    · exact extends_println (extends_println (extends_refl s) _ _) _ _
  | godmode =>
    unfold runCommand
    dsimp only
    split
    · exact extends_println (extends_of_out_eq (extends_println (extends_refl s) _ _) rfl) _ _
    · exact extends_println (extends_println (extends_refl s) _ _) _ _
  | call =>
    unfold runCommand
    dsimp only
    split
    · exact callKairi_extends s
    · exact extends_println (extends_refl s) _ _
  | darkmode => exact toggleDarkMode_extends s
  | dreammode => exact toggleDreamMode_extends s
  | lightmode => exact toggleLightMode_extends s
  | print => exact printResume_extends s
  | doom => exact launchDoom_extends env s

/-- C16 as stated fails for the command `clear`: dispatched on a log with one entry it leaves
the log empty. -/
theorem clear_empties_log :
    (println "hello".toList [] State.initial).out = [lineEntry "hello".toList] ∧
    ∃ t, handleCommand (whiteEnv 0) "clear".toList (println "hello".toList [] State.initial) =
        Except.ok t ∧
      t.out = [] ∧ ¬ Extends (println "hello".toList [] State.initial) t := by
  refine ⟨by decide, clearOut (println "hello".toList [] State.initial), rfl, rfl, ?_⟩
  rintro ⟨l, hl⟩
  have hlen := congrArg List.length hl
  simp only [println, clearOut, List.length_nil, List.length_append, List.length_cons] at hlen
  omega

/-- C16, amended. The log is append-only for every command but `clear`: when the first token of
the line, lower-cased, is not `clear`, dispatching keeps every earlier entry in place and
unchanged and only adds entries at the end; when it is `clear`, the log is emptied. -/
theorem log_append_only_except_clear (env : Env) (cmd : Str) (s : State) :
    ∃ name args t, tokenize cmd = name :: args ∧ handleCommand env cmd s = Except.ok t ∧
      (toLowerCase name ≠ "clear".toList → ∃ l, t.out = s.out ++ l) ∧
      (toLowerCase name = "clear".toList → t.out = []) := by
  obtain ⟨name, args, htok, heq⟩ := handleCommand_eq env cmd s
  refine ⟨name, args, _, htok, heq, ?_, ?_⟩
  · intro hne
    cases hl : lookupCommand (toLowerCase name) with
    | none => exact extends_println (extends_refl s) _ _
    | some c =>
      have hc : c ≠ Command.clear := by
        intro e
        rw [e] at hl
        have hmem : ∀ k, lookupCommand k = some Command.clear → k = "clear".toList := by
          intro k hk
          unfold lookupCommand at hk
          rw [Option.map_eq_some'] at hk
          obtain ⟨p, hp, hp2⟩ := hk
          have hp1 := List.find?_some hp
          have hmem := List.mem_of_find?_eq_some hp
          simp only [commandTable, List.mem_cons, List.mem_singleton, List.not_mem_nil,
            or_false] at hmem
          simp only [decide_eq_true_eq] at hp1
          rcases hmem with h | h | h | h | h | h | h | h | h | h | h | h | h <;>
            first
              | (rw [h] at hp2; exact absurd hp2 (by decide))
              | (rw [h] at hp1; exact hp1.symm)
        exact hne (hmem _ hl)
      exact runCommand_extends env c args s hc
  · intro he
    have hl : lookupCommand "clear".toList = some Command.clear := by decide
    rw [he, hl]
    rfl

/-! ## Lemmas: the renderer reads the pixels, the width and the cell size only -/

theorem imageToAscii_congr {env1 env2 : Env} {src1 src2 : Str} {img1 img2 : Bitmap}
    (himg1 : env1.loadImage src1 = some img1) (himg2 : env2.loadImage src2 = some img2)
    (hw : img1.width = img2.width) (hh : img1.height = img2.height)
    (hpix : ∀ w h, getImageData img1 w h = getImageData img2 w h)
    (hcharW : env1.charW = env2.charW) (hcharH : env1.charH = env2.charH)
    (width : ℕ) (invert1 invert2 : Bool) :
    imageToAscii env1 src1 width invert1 = imageToAscii env2 src2 width invert2 := by
  unfold imageToAscii
  rw [himg1, himg2]
  simp only [hw, hh, hpix, hcharW, hcharH]

theorem emojiToAscii_congr {env1 env2 : Env} {emoji1 emoji2 : Str} {glyph1 glyph2 : Bitmap}
    (hg1 : env1.drawGlyph emoji1 = Except.ok glyph1)
    (hg2 : env2.drawGlyph emoji2 = Except.ok glyph2)
    (hpix : ∀ w h, getImageData glyph1 w h = getImageData glyph2 w h)
    (hcharW : env1.charW = env2.charW) (hcharH : env1.charH = env2.charH)
    {width : ℕ} (hwidth : width ≠ 0) :
    emojiToAscii env1 emoji1 width = emojiToAscii env2 emoji2 width := by
  unfold emojiToAscii
  rw [hg1, hg2]
  simp only [hwidth, if_false, hpix, hcharW, hcharH]

/-- C21. Two invocations of the rasterizer with the same pixels (the bytes the canvas returns
for the decoded image, respectively for the drawn glyph, at every size), the same requested
non-zero width and the same character-cell measurement resolve with the same text, whatever
else differs between them: the rest of the browser environment, the name of the source, the
option `invert`. Both `imageToAscii` and `emojiToAscii` do resolve on such an input. -/
theorem rasterizer_deterministic (env1 env2 : Env) (src1 src2 emoji1 emoji2 : Str)
    (img1 img2 glyph1 glyph2 : Bitmap) (width : ℕ) (invert1 invert2 : Bool)
    (hwidth : 0 < width)
    (hcharW : env1.charW = env2.charW) (hcharH : env1.charH = env2.charH)
    (himg1 : env1.loadImage src1 = some img1) (himg2 : env2.loadImage src2 = some img2)
    (hsize : img1.width = img2.width ∧ img1.height = img2.height)
    (hpix : ∀ w h, getImageData img1 w h = getImageData img2 w h)
    (hg1 : env1.drawGlyph emoji1 = Except.ok glyph1)
    (hg2 : env2.drawGlyph emoji2 = Except.ok glyph2)
    (hgpix : ∀ w h, getImageData glyph1 w h = getImageData glyph2 w h) :
    (∃ out, imageToAscii env1 src1 width invert1 = Outcome.resolved out ∧
      imageToAscii env2 src2 width invert2 = Outcome.resolved out) ∧
    (∃ out, emojiToAscii env1 emoji1 width = Outcome.resolved out ∧
      emojiToAscii env2 emoji2 width = Outcome.resolved out) := by
  have hw : width ≠ 0 := Nat.pos_iff_ne_zero.mp hwidth
  constructor
  · obtain ⟨out, hout⟩ := @imageToAscii_of_some env1 src1 img1 himg1 width hw invert1
    refine ⟨out, hout, ?_⟩
    rw [← imageToAscii_congr himg1 himg2 hsize.1 hsize.2 hpix hcharW hcharH width invert1 invert2]
    exact hout
  · obtain ⟨out, hout⟩ := @emojiToAscii_of_ok env1 emoji1 glyph1 hg1 width hw
    refine ⟨out, hout, ?_⟩
    rw [← emojiToAscii_congr hg1 hg2 hgpix hcharW hcharH hw]
    exact hout

/-- C21 on two browsers that differ in `Math.random()`, with different source names, glyphs and
`invert` options, at width 2. -/
theorem rasterizer_deterministic_witness :
    (∃ out, imageToAscii (whiteEnv 0) cheesePath 2 true = Outcome.resolved out ∧
      imageToAscii (whiteEnv 1) profilePath 2 false = Outcome.resolved out) ∧
    (∃ out, emojiToAscii (whiteEnv 0) cheeseEmoji 2 = Outcome.resolved out ∧
      emojiToAscii (whiteEnv 1) [] 2 = Outcome.resolved out) :=
  rasterizer_deterministic (whiteEnv 0) (whiteEnv 1) cheesePath profilePath cheeseEmoji []
    (flatBitmap 160 1 255) (flatBitmap 160 1 255) (flatBitmap 512 512 255) (flatBitmap 512 512 255)
    2 true false (by decide) rfl rfl rfl rfl ⟨rfl, rfl⟩ (fun _ _ => rfl) rfl rfl (fun _ _ => rfl)

/-! ## Lemmas: escapeHtml -/

theorem escapeChar_of_special {c : Char} (h : isSpecial c = true) : escapeChar c ∈ entities := by
  unfold isSpecial at h
  simp only [decide_eq_true_eq] at h
  unfold escapeChar entities
  split_ifs <;> simp_all

theorem escapeChar_of_not_special {c : Char} (h : isSpecial c = false) : escapeChar c = [c] := by
  unfold isSpecial at h
  simp only [decide_eq_false_iff_not, not_or] at h
  unfold escapeChar
  simp only [h.1, h.2.1, h.2.2.1, h.2.2.2.1, h.2.2.2.2, if_false]

theorem entity_markup_free {e : Str} (he : e ∈ entities) {c : Char} (hc : c ∈ e) :
    c ≠ '<' ∧ c ≠ '>' ∧ c ≠ '"' ∧ c ≠ Char.ofNat 39 := by
  unfold entities at he
  simp only [List.mem_cons, List.mem_singleton, List.not_mem_nil, or_false] at he
  rcases he with rfl | rfl | rfl | rfl | rfl <;>
    (simp only [String.toList, List.mem_cons, List.mem_singleton, List.not_mem_nil, or_false] at hc
     rcases hc with rfl | rfl | rfl | rfl | rfl | rfl <;> decide)

theorem entity_amp_first {e : Str} (he : e ∈ entities) {pre post : Str}
    (h : e = pre ++ '&' :: post) : pre = [] := by
  unfold entities at he
  simp only [List.mem_cons, List.mem_singleton, List.not_mem_nil, or_false] at he
  cases pre with
  | nil => rfl
  | cons x pre =>
    exfalso
    have hmem : '&' ∈ e.tail := by
      rw [h]
      simp
    rcases he with rfl | rfl | rfl | rfl | rfl <;> revert hmem <;> decide

theorem escapeHtml_cons (c : Char) (s : Str) :
    escapeHtml (c :: s) = escapeChar c ++ escapeHtml s := by
  simp [escapeHtml, List.flatMap_cons]

theorem escapeHtml_markup_free (s : Str) {c : Char} (hc : c ∈ escapeHtml s) :
    c ≠ '<' ∧ c ≠ '>' ∧ c ≠ '"' ∧ c ≠ Char.ofNat 39 := by
  unfold escapeHtml at hc
  rw [List.mem_flatMap] at hc
  obtain ⟨a, -, hca⟩ := hc
  cases hsp : isSpecial a with
  | true => exact entity_markup_free (escapeChar_of_special hsp) hca
  | false =>
    rw [escapeChar_of_not_special hsp, List.mem_singleton] at hca
    subst hca
    unfold isSpecial at hsp
    simp only [decide_eq_false_iff_not, not_or] at hsp
    exact ⟨hsp.2.1, hsp.2.2.1, hsp.2.2.2.1, hsp.2.2.2.2⟩

theorem escapeHtml_amp (s : Str) : ∀ (pre post : Str), escapeHtml s = pre ++ '&' :: post →
    ∃ e ∈ entities, e <+: '&' :: post := by
  induction s with
  | nil =>
    intro pre post h
    simp [escapeHtml] at h
  | cons c s ih =>
    intro pre post h
    rw [escapeHtml_cons, List.append_eq_append_iff] at h
    rcases h with ⟨a, hpre, hrest⟩ | ⟨a, hc, hrest⟩
    · exact ih a post hrest
    · cases a with
      | nil =>
        simp only [List.nil_append] at hrest
        exact ih [] post hrest.symm
      | cons x a =>
        simp only [List.cons_append, List.cons.injEq] at hrest
        obtain ⟨hx, hpost⟩ := hrest
        subst hx
        cases hsp : isSpecial c with
        | true =>
          have he := escapeChar_of_special hsp
          have hnil := entity_amp_first he hc
          subst hnil
          refine ⟨escapeChar c, he, ?_⟩
          rw [hc, hpost]
          simp
        | false =>
          exfalso
          rw [escapeChar_of_not_special hsp] at hc
          cases pre with
          | nil =>
            simp only [List.nil_append, List.cons.injEq] at hc
            rw [hc.1] at hsp
            revert hsp
            decide
          | cons y pre =>
            simp at hc

theorem escapeHtml_id (s : Str) (h : ∀ c ∈ s, isSpecial c = false) : escapeHtml s = s := by
  induction s with
  | nil => rfl
  | cons c s ih =>
    rw [escapeHtml_cons, escapeChar_of_not_special (h c (List.mem_cons_self c s)),
      ih (fun d hd => h d (List.mem_cons_of_mem c hd))]
    rfl
/-- C29. For every string `s`: `escapeHtml(s)` contains none of the characters `<`, `>`, double
quote and apostrophe; whatever follows an `&` in it, the `&` starts one of the five entities
`&amp;`, `&lt;`, `&gt;`, `&quot;`, `&#39;`; if `s` contains none of the five special characters,
`escapeHtml(s)` is `s`; and when `s` is typed as a name that is not a command, the line the
dispatcher prints is the fixed text `unknown command: <code>`, then `escapeHtml(s)`, then the
fixed text `</code>. try <b>help</b>.`, so that the name contributes no markup character. -/
theorem escapeHtml_no_markup (s : Str) :
    (∀ c ∈ escapeHtml s, c ≠ '<' ∧ c ≠ '>' ∧ c ≠ '"' ∧ c ≠ Char.ofNat 39) ∧
    (∀ pre post, escapeHtml s = pre ++ '&' :: post →
      ∃ e ∈ ["&amp;".toList, "&lt;".toList, "&gt;".toList, "&quot;".toList, "&#39;".toList],
        e <+: '&' :: post) ∧
    ((∀ c ∈ s, c ≠ '&' ∧ c ≠ '<' ∧ c ≠ '>' ∧ c ≠ '"' ∧ c ≠ Char.ofNat 39) → escapeHtml s = s) ∧
    (∀ (env : Env) (cmd : Str) (st : State) (args : List Str),
      tokenize cmd = s :: args → toLowerCase s ∉ commandNames →
      handleCommand env cmd st = Except.ok (println ("unknown command: <code>".toList ++
        escapeHtml s ++ "</code>. try <b>help</b>.".toList) [] st)) := by
  refine ⟨fun c hc => escapeHtml_markup_free s hc, escapeHtml_amp s, ?_, ?_⟩
  · intro h
    apply escapeHtml_id
    intro c hc
    have := h c hc
    unfold isSpecial
    simp only [decide_eq_false_iff_not, not_or]
    exact this
  · intro env cmd st args htok hunknown
    obtain ⟨name, args2, htok2, heq⟩ := handleCommand_eq env cmd st
    rw [htok] at htok2
    injection htok2 with h1 h2
    subst h1
    rw [heq, (lookupCommand_eq_none_iff _).mpr hunknown]
    rfl

/-- C29 at the name `foo`, which has no special character. -/
theorem escapeHtml_no_markup_witness : escapeHtml "foo".toList = "foo".toList :=
  (escapeHtml_no_markup "foo".toList).2.2.1 (by decide)

/-! ## Lemmas: the input line and the history -/

theorem println_hist (html cls : Str) (s : State) :
    (println html cls s).hist = s.hist := rfl

theorem printPre_hist (text cls : Str) (s : State) :
    (printPre text cls s).hist = s.hist := rfl

theorem call_hist (c : Call) (s : State) :
    (s.call c).hist = s.hist := rfl

theorem clearOut_hist (s : State) :
    (clearOut s).hist = s.hist := rfl

theorem toggle_hist (s : State) :
    (toggle s).hist = s.hist := rfl

theorem showModeNotification_hist (m c : Str) (s : State) :
    (showModeNotification m c s).hist = s.hist := rfl

theorem callKairi_hist (s : State) :
    (callKairi s).hist = s.hist := by
  unfold callKairi
  split <;> rfl

theorem printResume_hist (s : State) :
    (printResume s).hist = s.hist := rfl

theorem toggleDarkMode_hist (s : State) :
    (toggleDarkMode s).hist = s.hist := by
  unfold toggleDarkMode
  dsimp only
  split <;> rfl

theorem toggleDreamMode_hist (s : State) :
    (toggleDreamMode s).hist = s.hist := by
  unfold toggleDreamMode
  dsimp only
  split <;> rfl

theorem toggleLightMode_hist (s : State) :
    (toggleLightMode s).hist = s.hist := rfl

theorem loadJsDosLibrary_hist (env : Env) (s : State) :
    (loadJsDosLibrary env s).2.hist = s.hist := by
  unfold loadJsDosLibrary
  dsimp only
  split
  · rfl
  · split <;> rfl

theorem fetchJsDos_hist (env : Env) (s : State) :
    (fetchJsDos env s).2.hist = s.hist := by
  unfold fetchJsDos
  split
  · rfl
  · dsimp only
    generalize hs0 : println _ [] s = s0
    have h0 : s0.hist = s.hist := by
      rw [← hs0]
      rfl
    have h1 := loadJsDosLibrary_hist env s0
    rcases hL : loadJsDosLibrary env s0 with ⟨r, s1⟩
    rw [hL] at h1
    cases r with
    | error e => exact h1.trans h0
    | ok u => exact h1.trans h0

theorem runDos_hist (env : Env) (s : State) :
    (runDos env s).2.hist = s.hist := by
  unfold runDos
  dsimp only
  split <;> rfl

theorem startDoom_hist (env : Env) (s : State) :
    (startDoom env s).2.hist = s.hist := by
  unfold startDoom
  have h := fetchJsDos_hist env s
  rcases hF : fetchJsDos env s with ⟨r, s1⟩
  rw [hF] at h
  cases r with
  | error e => exact h
  | ok u => exact (runDos_hist env s1).trans h

theorem launchDoom_hist (env : Env) (s : State) :
    (launchDoom env s).hist = s.hist := by
  unfold launchDoom
  split
  · rfl
  · dsimp only
    generalize hs0 : State.call _ Call.injectDoomStyles = s0
    have h0 : s0.hist = s.hist := by
      rw [← hs0]
      rw [call_hist]
      split <;> rfl
    have h1 := startDoom_hist env s0
    rcases hS : startDoom env s0 with ⟨r, s1⟩
    rw [hS] at h1
    cases r with
    | error e => exact h1.trans h0
    | ok u => exact h1.trans h0

theorem renderSubject_hist (env : Env) (showCheese : Bool) (w : ℕ) (s : State) :
    (renderSubject env showCheese w s).2.hist = s.hist := by
  unfold renderSubject
  split
  · dsimp only
    split <;> rfl
  · rfl

theorem summonCheddar_hist (env : Env) (w : ℕ) (s : State) :
    (summonCheddar env w s).hist = s.hist := by
  unfold summonCheddar
  dsimp only
  split
  · rfl
  · have h := renderSubject_hist env (showCheese env) w (println materializingText [] s)
    rcases hr : renderSubject env (showCheese env) w (println materializingText [] s) with ⟨r, s1⟩
    rw [hr] at h
    cases r with
    | resolved ascii => exact h
    | rejected err => exact h
    | pending => exact h

theorem runCommand_hist (env : Env) (c : Command) (args : List Str) (s : State) :
    (runCommand env c args s).hist = s.hist := by
  cases c with
  | summon =>
    unfold runCommand
    dsimp only
    split
    · exact summonCheddar_hist env _ s
    · rfl
  | matrix => unfold runCommand; dsimp only; split <;> rfl
  | godmode => unfold runCommand; dsimp only; split <;> rfl
  | call =>
    unfold runCommand
    dsimp only
    split
    · exact callKairi_hist s
    · rfl
  | help => rfl
  | skills => rfl
  | projects => rfl
  | clear => rfl
  | darkmode => exact toggleDarkMode_hist s
  | dreammode => exact toggleDreamMode_hist s
  | lightmode => rfl
  | print => rfl
  | doom => exact launchDoom_hist env s

theorem handleCommand_hist {env : Env} {cmd : Str} {s t : State}
    (h : handleCommand env cmd s = Except.ok t) : t.hist = s.hist := by
  obtain ⟨name, args, -, heq⟩ := handleCommand_eq env cmd s
  rw [heq] at h
  injection h with h
  subst h
  split
  · exact runCommand_hist env _ args s
  · rfl

theorem handleInputKey_enter_blank (env : Env) (c : Console) (h : trim c.input = []) :
    handleInputKey env "Enter".toList c = c := by
  have h1 : ("Enter".toList = "ArrowUp".toList) = False := by decide
  have h2 : ("Enter".toList = "ArrowDown".toList) = False := by decide
  unfold handleInputKey
  simp only [h1, h2, if_false, if_true, h]

theorem handleInputKey_enter_hist (env : Env) (c : Console) (h : trim c.input ≠ []) :
    (handleInputKey env "Enter".toList c).state.hist =
      (c.state.history ++ [trim c.input], -1) ∧
    (handleInputKey env "Enter".toList c).input = [] := by
  have h1 : ("Enter".toList = "ArrowUp".toList) = False := by decide
  have h2 : ("Enter".toList = "ArrowDown".toList) = False := by decide
  unfold handleInputKey
  simp only [h1, h2, if_false, if_true, h]
  split
  · rename_i t ht
    exact ⟨(handleCommand_hist ht).trans rfl, rfl⟩
  · exact ⟨rfl, rfl⟩

theorem historyAt_of_valid {history : List Str} {i : ℤ} (h0 : 0 ≤ i)
    (h1 : i < (history.length : ℤ)) : ∃ v, historyAt history i = some v := by
  unfold historyAt
  rw [if_pos h0]
  have hlt : i.toNat < history.length := by omega
  exact ⟨history[i.toNat], List.getElem?_eq_getElem hlt⟩

theorem handleInputKey_histOk (env : Env) (key : Str) (c : Console) (h : HistOk c.state) :
    HistOk (handleInputKey env key c).state := by
  by_cases hup : key = "ArrowUp".toList
  · subst hup
    unfold handleInputKey
    simp only [if_true]
    split
    · rename_i hlen
      right
      have hpos : 0 < c.state.history.length := Nat.pos_of_ne_zero hlen
      dsimp only
      rcases h with h | ⟨h0, h1⟩
      · rw [if_pos h]
        constructor
        · exact le_max_left _ _
        · rw [max_lt_iff]
          omega
      · have hne : c.state.histIdx ≠ -1 := by omega
        rw [if_neg hne]
        constructor
        · exact le_max_left _ _
        · rw [max_lt_iff]
          omega
    · exact h
  · by_cases hdown : key = "ArrowDown".toList
    · subst hdown
      have h1 : ("ArrowDown".toList = "ArrowUp".toList) = False := by decide
      unfold handleInputKey
      simp only [h1, if_false, if_true]
      split
      · rename_i hlen
        have hpos : 0 < c.state.history.length := Nat.pos_of_ne_zero hlen
        split
        · exact h
        · rename_i hne
          right
          dsimp only
          rcases h with h | ⟨h0, h1⟩
          · exact absurd h hne
          · constructor
            · rw [le_min_iff]
              omega
            · rw [min_lt_iff]
              omega
      · exact h
    · by_cases henter : key = "Enter".toList
      · subst henter
        by_cases hb : trim c.input = []
        · rw [handleInputKey_enter_blank env c hb]
          exact h
        · left
          have := (handleInputKey_enter_hist env c hb).1
          exact congrArg Prod.snd this
      · unfold handleInputKey
        simp only [hup, hdown, henter, if_false]
        exact h

theorem inputRun_histOk (env : Env) (events : List InputEvent) (c : Console)
    (h : HistOk c.state) : HistOk (inputRun env events c).state := by
  unfold inputRun
  induction events generalizing c with
  | nil => exact h
  | cons e rest ih =>
    rw [List.foldl_cons]
    apply ih
    cases e with
    | key k => exact handleInputKey_histOk env k c h
    | edit text => exact h

theorem handleInputKey_up (env : Env) (c : Console) (hne : c.state.history ≠ []) :
    handleInputKey env "ArrowUp".toList c =
      { state := { c.state with histIdx := max 0 (if c.state.histIdx = -1 then
            (c.state.history.length : ℤ) - 1 else c.state.histIdx - 1) },
        input := match historyAt c.state.history (max 0 (if c.state.histIdx = -1 then
            (c.state.history.length : ℤ) - 1 else c.state.histIdx - 1)) with
          | some v => v
          | none => undefinedText } := by
  have hlen : c.state.history.length ≠ 0 := fun h => hne (List.length_eq_zero.mp h)
  unfold handleInputKey
  simp only [if_true, hlen, ne_eq, not_false_eq_true]

theorem handleInputKey_down (env : Env) (c : Console) (hne : c.state.history ≠ [])
    (hidx : c.state.histIdx ≠ -1) :
    handleInputKey env "ArrowDown".toList c =
      { state :=
          { c.state with histIdx := min ((c.state.history.length : ℤ) - 1) (c.state.histIdx + 1) },
        input := match historyAt c.state.history
            (min ((c.state.history.length : ℤ) - 1) (c.state.histIdx + 1)) with
          | some v => v
          | none => [] } := by
  have hlen : c.state.history.length ≠ 0 := fun h => hne (List.length_eq_zero.mp h)
  have h1 : ("ArrowDown".toList = "ArrowUp".toList) = False := by decide
  unfold handleInputKey
  simp only [h1, if_false, if_true, hlen, hidx, ne_eq, not_false_eq_true]

theorem handleInputKey_up_read (env : Env) (c : Console) (h : HistOk c.state)
    (hne : c.state.history ≠ []) :
    ∃ v, historyAt c.state.history (handleInputKey env "ArrowUp".toList c).state.histIdx = some v ∧
      (handleInputKey env "ArrowUp".toList c).input = v := by
  have hok := handleInputKey_histOk env "ArrowUp".toList c h
  rw [handleInputKey_up env c hne] at hok ⊢
  dsimp only at hok ⊢
  generalize hi : max (0 : ℤ) (if c.state.histIdx = -1 then
      (c.state.history.length : ℤ) - 1 else c.state.histIdx - 1) = i at hok ⊢
  have h0 : 0 ≤ i := by
    rw [← hi]
    exact le_max_left _ _
  have h1 : i < (c.state.history.length : ℤ) := by
    rcases hok with hok | hok
    · change i = -1 at hok
      omega
    · exact hok.2
  obtain ⟨v, hv⟩ := historyAt_of_valid h0 h1
  rw [hv]
  exact ⟨v, rfl, rfl⟩

theorem handleInputKey_down_read (env : Env) (c : Console) (h : HistOk c.state)
    (hne : c.state.history ≠ []) (hidx : c.state.histIdx ≠ -1) :
    ∃ v, historyAt c.state.history (handleInputKey env "ArrowDown".toList c).state.histIdx = some v ∧
      (handleInputKey env "ArrowDown".toList c).input = v := by
  have hlen : 0 < c.state.history.length := List.length_pos.mpr hne
  rw [handleInputKey_down env c hne hidx]
  dsimp only
  generalize hi : min ((c.state.history.length : ℤ) - 1) (c.state.histIdx + 1) = i
  have hc : 0 ≤ c.state.histIdx := by
    rcases h with h | h
    · exact absurd h hidx
    · exact h.1
  have h0 : 0 ≤ i := by
    rw [← hi, le_min_iff]
    omega
  have h1 : i < (c.state.history.length : ℤ) := by
    rw [← hi, min_lt_iff]
    omega
  obtain ⟨v, hv⟩ := historyAt_of_valid h0 h1
  rw [hv]
  exact ⟨v, rfl, rfl⟩

/-- C28. Start from a console whose history cursor `histIdx` is `-1` or an index into `history`
(as it is when the page loads), and let any sequence of key events and of edits of the text
field happen. In the console `d` reached, `histIdx` is again `-1` or an index into `history`.
ArrowUp with a non-empty history, and ArrowDown with a non-empty history and a cursor that is not
`-1`, read an element `history[histIdx]` that exists and write it to the text field. Enter on a
text that is not blank appends the trimmed text at the end of `history` and sets `histIdx` to
`-1`; Enter on a blank text changes nothing at all. -/
theorem history_cursor_valid (env : Env) (events : List InputEvent) (c : Console)
    (h : HistOk c.state) :
    HistOk (inputRun env events c).state ∧
    ((inputRun env events c).state.history ≠ [] →
      ∃ v, historyAt (inputRun env events c).state.history
          (handleInputKey env "ArrowUp".toList (inputRun env events c)).state.histIdx = some v ∧
        (handleInputKey env "ArrowUp".toList (inputRun env events c)).input = v) ∧
    ((inputRun env events c).state.history ≠ [] → (inputRun env events c).state.histIdx ≠ -1 →
      ∃ v, historyAt (inputRun env events c).state.history
          (handleInputKey env "ArrowDown".toList (inputRun env events c)).state.histIdx = some v ∧
        (handleInputKey env "ArrowDown".toList (inputRun env events c)).input = v) ∧
    (trim (inputRun env events c).input ≠ [] →
      (handleInputKey env "Enter".toList (inputRun env events c)).state.history =
        (inputRun env events c).state.history ++ [trim (inputRun env events c).input] ∧
      (handleInputKey env "Enter".toList (inputRun env events c)).state.histIdx = -1) ∧
    (trim (inputRun env events c).input = [] →
      handleInputKey env "Enter".toList (inputRun env events c) = inputRun env events c) := by
  have hd := inputRun_histOk env events c h
  refine ⟨hd, handleInputKey_up_read env _ hd, handleInputKey_down_read env _ hd, ?_,
    handleInputKey_enter_blank env _⟩
  intro hb
  have := (handleInputKey_enter_hist env _ hb).1
  exact ⟨congrArg Prod.fst this, congrArg Prod.snd this⟩

/-- C28 from the console of a fresh page after typing ` help `, Enter, ArrowUp, ArrowDown. -/
theorem history_cursor_valid_witness :
    HistOk State.initial ∧
    HistOk (inputRun (whiteEnv 0)
      [InputEvent.edit " help ".toList, InputEvent.key "Enter".toList,
        InputEvent.key "ArrowUp".toList, InputEvent.key "ArrowDown".toList]
      { state := State.initial, input := [] }).state :=
  ⟨Or.inl rfl, (history_cursor_valid (whiteEnv 0)
      [InputEvent.edit " help ".toList, InputEvent.key "Enter".toList,
        InputEvent.key "ArrowUp".toList, InputEvent.key "ArrowDown".toList]
      { state := State.initial, input := [] } (Or.inl rfl)).1⟩

end CheddarConsole

namespace InterestGalaxy

/-! ## Lemmas: collisions and the search -/

theorem hasCollision_false {page : Page} {size : Size} {placedNodes : List Node} {x y : ℚ}
    (h : hasCollision page size placedNodes x y = false) :
    ∀ placed ∈ placedNodes,
      checkCollision x y (nodeSize page size / 2) placed.x placed.y
        (nodeSize page placed.size / 2) (minGap page) = false := by
  intro placed hp
  unfold hasCollision at h
  rw [List.any_eq_false] at h
  simpa using h placed hp

theorem accepted_true {page : Page} {size : Size} {index : ℕ} {placedNodes : List Node}
    {centerX centerY : ℚ} {maxAttempts attempt : ℕ}
    (h : accepted page size index placedNodes centerX centerY maxAttempts attempt = true) :
    outOfBounds page size (candidate page size index centerX centerY maxAttempts attempt).1
        (candidate page size index centerX centerY maxAttempts attempt).2 = false ∧
    hasCollision page size placedNodes
        (candidate page size index centerX centerY maxAttempts attempt).1
        (candidate page size index centerX centerY maxAttempts attempt).2 = false := by
  unfold accepted at h
  simpa using h

theorem desktop_tiers {page : Page} (hw : 1024 < page.innerWidth) :
    isVerySmallMobile page = false ∧ isMobile page = false ∧ isTablet page = false := by
  unfold isVerySmallMobile isMobile isTablet
  refine ⟨?_, ?_, ?_⟩
  · simp only [decide_eq_false_iff_not, not_le]
    linarith
  · simp only [decide_eq_false_iff_not, not_le]
    linarith
  · simp only [decide_eq_false_iff_not, not_and, not_le]
    intro _
    exact hw

theorem desktop_maxRadius_zero {page : Page} (hw : 1024 < page.innerWidth)
    (hW : page.offsetWidth = 280) (hH : page.offsetHeight = 280) :
    nodeSize page Size.primary = 120 ∧ padding page = 80 ∧ minGap page = 20 ∧
    maxRadius page Size.primary 140 140 = 0 := by
  obtain ⟨h1, h2, h3⟩ := desktop_tiers hw
  have hn : nodeSize page Size.primary = 120 := by simp [nodeSize, h1, h2, h3]
  have hp : padding page = 80 := by simp [padding, h1, h2, h3]
  have hg : minGap page = 20 := by simp [minGap, h1, h2, h3]
  refine ⟨hn, hp, hg, ?_⟩
  unfold maxRadius
  simp only [hn, hp, hW, hH]
  norm_num

theorem desktop_candidate_centre {page : Page} (hw : 1024 < page.innerWidth)
    (hW : page.offsetWidth = 280) (hH : page.offsetHeight = 280) (index attempt : ℕ) :
    candidate page Size.primary index 140 140 50 attempt = (140, 140) := by
  obtain ⟨h1, h2, h3⟩ := desktop_tiers hw
  obtain ⟨-, -, -, hmax⟩ := desktop_maxRadius_zero hw hW hH
  have hmin : min ((190 : ℚ) + (attempt : ℚ) * 15) 0 = 0 := by
    apply min_eq_right
    positivity
  unfold candidate
  simp only [h1, h2, h3, hmax, if_true, Bool.false_eq_true, if_false, hmin, zero_mul, add_zero]

theorem desktop_fallback_centre {page : Page} (hw : 1024 < page.innerWidth)
    (hW : page.offsetWidth = 280) (hH : page.offsetHeight = 280) (index : ℕ) :
    fallbackPosition page Size.primary index 140 140 = (140, 140) := by
  obtain ⟨h1, h2, h3⟩ := desktop_tiers hw
  obtain ⟨-, -, -, hmax⟩ := desktop_maxRadius_zero hw hW hH
  have hmin : min ((270 : ℚ) + (index : ℚ) * 15) 0 = 0 := by
    apply min_eq_right
    positivity
  unfold fallbackPosition
  simp only [h1, h2, h3, hmax, Bool.false_eq_true, if_false, hmin, zero_mul, add_zero]

/-- On a desktop page with a container of 280 x 280 the second primary node is put exactly on
the first one, whatever `Math.PI`, `Math.cos` and `Math.sin` return. -/
theorem desktop_small_container {page : Page} (hw : 1024 < page.innerWidth)
    (hW : page.offsetWidth = 280) (hH : page.offsetHeight = 280) :
    findNonOverlappingPosition page Size.primary 0 [] 140 140 50 = (140, 140) ∧
    findNonOverlappingPosition page Size.primary 1
      [{ size := Size.primary, x := 140, y := 140 }] 140 140 50 = (140, 140) := by
  obtain ⟨hn, hp, hg, -⟩ := desktop_maxRadius_zero hw hW hH
  have hin : outOfBounds page Size.primary 140 140 = false := by
    unfold outOfBounds
    simp only [hn, hp, hW, hH]
    norm_num
  constructor
  · have hacc : accepted page Size.primary 0 [] 140 140 50 0 = true := by
      unfold accepted
      rw [desktop_candidate_centre hw hW hH]
      simp [hin, hasCollision]
    have hfind : (List.range 50).find? (accepted page Size.primary 0 [] 140 140 50) = some 0 := by
      rw [List.find?_range_eq_some]
      exact ⟨hacc, by simp, fun j hj => absurd hj (Nat.not_lt_zero j)⟩
    unfold findNonOverlappingPosition
    rw [hfind]
    exact desktop_candidate_centre hw hW hH 0 0
  · have hcc : checkCollision 140 140 (120 / 2) 140 140 (120 / 2) 20 = true := by decide!
    have hcol : hasCollision page Size.primary [{ size := Size.primary, x := 140, y := 140 }]
        140 140 = true := by
      unfold hasCollision
      simp only [List.any_cons, List.any_nil, Bool.or_false, hn, hg, hcc]
    have hrej : ∀ attempt, accepted page Size.primary 1
        [{ size := Size.primary, x := 140, y := 140 }] 140 140 50 attempt = false := by
      intro attempt
      unfold accepted
      rw [desktop_candidate_centre hw hW hH]
      simp [hcol]
    have hfind : (List.range 50).find? (accepted page Size.primary 1
        [{ size := Size.primary, x := 140, y := 140 }] 140 140 50) = none := by
      rw [List.find?_range_eq_none]
      intro i _
      rw [hrej i]
      rfl
    unfold findNonOverlappingPosition
    rw [hfind]
    exact desktop_fallback_centre hw hW hH 1

/-- C19 fails on the code. On a desktop page whose container measures 280 x 280 the first
primary node is placed at the centre (140, 140); for the second primary node every one of the
50 attempts collides with it, and the fallback of lines 328-343 returns the centre again
without a collision test, so the returned position overlaps the placed node, against the
documentation of the function (`Find a non-overlapping position for a node`). `createNodes`
puts its first three nodes on one point. -/
theorem second_node_on_first :
    findNonOverlappingPosition (desktopPage 280 280) Size.primary 0 [] 140 140 50 = (140, 140) ∧
    findNonOverlappingPosition (desktopPage 280 280) Size.primary 1
      [{ size := Size.primary, x := 140, y := 140 }] 140 140 50 = (140, 140) ∧
    checkCollision 140 140 (nodeSize (desktopPage 280 280) Size.primary / 2) 140 140
      (nodeSize (desktopPage 280 280) Size.primary / 2) (minGap (desktopPage 280 280)) = true ∧
    (createNodes (desktopPage 280 280)).take 3 =
      [{ size := Size.primary, x := 140, y := 140 }, { size := Size.primary, x := 140, y := 140 },
       { size := Size.primary, x := 140, y := 140 }] := by
  have hw : (1024 : ℚ) < (desktopPage 280 280).innerWidth := by decide!
  obtain ⟨h0, h1⟩ := @desktop_small_container (desktopPage 280 280) hw rfl rfl
  exact ⟨h0, h1, by decide!, by decide!⟩

/-- `findNonOverlappingPosition` returns the candidate of the first attempt that lies inside the
padded bounds of the container and collides with no placed node, when there is such an attempt
below `maxAttempts`; that position overlaps no placed node. When no attempt qualifies it
returns the fallback position, which is not checked against the placed nodes. -/
theorem first_free_attempt_or_fallback (page : Page) (size : Size) (index : ℕ)
    (placedNodes : List Node) (centerX centerY : ℚ) (maxAttempts : ℕ) :
    (∃ attempt, attempt < maxAttempts ∧
      accepted page size index placedNodes centerX centerY maxAttempts attempt = true ∧
      (∀ j, j < attempt →
        accepted page size index placedNodes centerX centerY maxAttempts j = false) ∧
      findNonOverlappingPosition page size index placedNodes centerX centerY maxAttempts =
        candidate page size index centerX centerY maxAttempts attempt ∧
      outOfBounds page size
        (findNonOverlappingPosition page size index placedNodes centerX centerY maxAttempts).1
        (findNonOverlappingPosition page size index placedNodes centerX centerY maxAttempts).2 =
          false ∧
      ∀ placed ∈ placedNodes,
        checkCollision
          (findNonOverlappingPosition page size index placedNodes centerX centerY maxAttempts).1
          (findNonOverlappingPosition page size index placedNodes centerX centerY maxAttempts).2
          (nodeSize page size / 2) placed.x placed.y (nodeSize page placed.size / 2)
          (minGap page) = false) ∨
    ((∀ attempt, attempt < maxAttempts →
        accepted page size index placedNodes centerX centerY maxAttempts attempt = false) ∧
      findNonOverlappingPosition page size index placedNodes centerX centerY maxAttempts =
        fallbackPosition page size index centerX centerY) := by
  cases hfind : (List.range maxAttempts).find?
      (accepted page size index placedNodes centerX centerY maxAttempts) with
  | none =>
    right
    have hnone := List.find?_range_eq_none.mp hfind
    refine ⟨fun attempt ha => by simpa using hnone attempt ha, ?_⟩
    unfold findNonOverlappingPosition
    rw [hfind]
  | some attempt =>
    left
    obtain ⟨hacc, hmem, hfirst⟩ := List.find?_range_eq_some.mp hfind
    have hres : findNonOverlappingPosition page size index placedNodes centerX centerY
        maxAttempts = candidate page size index centerX centerY maxAttempts attempt := by
      unfold findNonOverlappingPosition
      rw [hfind]
    obtain ⟨hin, hfree⟩ := accepted_true hacc
    refine ⟨attempt, List.mem_range.mp hmem, hacc, fun j hj => by simpa using hfirst j hj,
      hres, ?_, ?_⟩
    · rw [hres]
      exact hin
    · rw [hres]
      exact hasCollision_false hfree

/-! ## Lemmas: the collision test -/

theorem checkCollision_swap (x1 y1 r1 x2 y2 r2 g : ℚ) :
    checkCollision x2 y2 r2 x1 y1 r1 g = checkCollision x1 y1 r1 x2 y2 r2 g := by
  have hsub : ∀ a b : ℚ, Binary64.sub a b = -Binary64.sub b a := by
    intro a b
    unfold Binary64.sub
    rw [← Binary64.round_neg, neg_sub]
  have hmul : ∀ a : ℚ, Binary64.mul (-a) (-a) = Binary64.mul a a := by
    intro a
    unfold Binary64.mul
    rw [neg_mul_neg]
  have hadd : Binary64.add r2 r1 = Binary64.add r1 r2 := by
    unfold Binary64.add
    rw [add_comm]
  unfold checkCollision
  dsimp only
  rw [hsub x1 x2, hsub y1 y2, hmul, hmul, hadd]

theorem sub_intCast (a b : ℤ) (ha : |a| ≤ 2 ^ 24) (hb : |b| ≤ 2 ^ 24) :
    Binary64.sub (a : ℚ) (b : ℚ) = ((a - b : ℤ) : ℚ) ∧ |a - b| ≤ 2 ^ 25 := by
  have habs : |a - b| ≤ 2 ^ 25 := by
    rw [abs_le] at ha hb ⊢
    constructor <;> omega
  refine ⟨?_, habs⟩
  unfold Binary64.sub
  have := Binary64.round_intCast (a - b) (le_trans habs (by norm_num))
  push_cast at this ⊢
  exact this

theorem add_intCast (a b : ℤ) (h : |a + b| ≤ 2 ^ 53) :
    Binary64.add (a : ℚ) (b : ℚ) = ((a + b : ℤ) : ℚ) := by
  unfold Binary64.add
  have := Binary64.round_intCast (a + b) h
  push_cast at this ⊢
  exact this

theorem mul_intCast (a b : ℤ) (h : |a * b| ≤ 2 ^ 53) :
    Binary64.mul (a : ℚ) (b : ℚ) = ((a * b : ℤ) : ℚ) := by
  unfold Binary64.mul
  have := Binary64.round_intCast (a * b) h
  push_cast at this ⊢
  exact this

theorem sq_le_of_abs_le {d : ℤ} (h : |d| ≤ 2 ^ 25) : 0 ≤ d * d ∧ d * d ≤ 2 ^ 50 := by
  constructor
  · exact mul_self_nonneg d
  · have h1 : |d| * |d| ≤ 2 ^ 25 * 2 ^ 25 := mul_le_mul h h (abs_nonneg d) (by norm_num)
    rw [abs_mul_abs_self] at h1
    calc d * d ≤ 2 ^ 25 * 2 ^ 25 := h1
      _ = 2 ^ 50 := by norm_num

/-- On integer arguments up to `2 ^ 24` in absolute value, with a sum of the radii and the gap
that is not negative, the double arithmetic is exact and `checkCollision` is the comparison of
the squares. -/
theorem checkCollision_int (a1 b1 c1 a2 b2 c2 g : ℤ)
    (ha1 : |a1| ≤ 2 ^ 24) (hb1 : |b1| ≤ 2 ^ 24) (hc1 : |c1| ≤ 2 ^ 24)
    (ha2 : |a2| ≤ 2 ^ 24) (hb2 : |b2| ≤ 2 ^ 24) (hc2 : |c2| ≤ 2 ^ 24) (hg : |g| ≤ 2 ^ 24)
    (hsum : 0 ≤ c1 + c2 + g) :
    checkCollision (a1 : ℚ) (b1 : ℚ) (c1 : ℚ) (a2 : ℚ) (b2 : ℚ) (c2 : ℚ) (g : ℚ) = true ↔
      ((a2 : ℚ) - (a1 : ℚ)) ^ 2 + ((b2 : ℚ) - (b1 : ℚ)) ^ 2 <
        ((c1 : ℚ) + (c2 : ℚ) + (g : ℚ)) ^ 2 := by
  obtain ⟨hdx, hD⟩ := sub_intCast a2 a1 ha2 ha1
  obtain ⟨hdy, hE⟩ := sub_intCast b2 b1 hb2 hb1
  obtain ⟨hD0, hD50⟩ := sq_le_of_abs_le hD
  obtain ⟨hE0, hE50⟩ := sq_le_of_abs_le hE
  have hc12 : |c1 + c2| ≤ 2 ^ 25 := by
    rw [abs_le] at hc1 hc2 ⊢
    constructor <;> omega
  have hM26 : c1 + c2 + g ≤ 2 ^ 26 := by
    rw [abs_le] at hc1 hc2 hg
    omega
  unfold checkCollision
  dsimp only
  rw [hdx, hdy, mul_intCast _ _ (by rw [abs_of_nonneg hD0]; omega),
    mul_intCast _ _ (by rw [abs_of_nonneg hE0]; omega),
    add_intCast _ _ (by rw [abs_of_nonneg (by omega)]; omega),
    add_intCast c1 c2 (le_trans hc12 (by norm_num)),
    add_intCast _ _ (by rw [abs_of_nonneg hsum]; omega), decide_eq_true_eq]
  generalize hSe : (a2 - a1) * (a2 - a1) + (b2 - b1) * (b2 - b1) = S at *
  generalize hMe : c1 + c2 + g = M at *
  have hS0 : 0 ≤ S := by omega
  have hSn : ((S.toNat : ℕ) : ℤ) = S := Int.toNat_of_nonneg hS0
  have hMn : ((M.toNat : ℕ) : ℤ) = M := Int.toNat_of_nonneg hsum
  have hSq : ((S.toNat : ℕ) : ℚ) = (S : ℚ) := by exact_mod_cast hSn
  have hMq : ((M.toNat : ℕ) : ℚ) = (M : ℚ) := by exact_mod_cast hMn
  have key := Binary64.sqrt_natCast_lt_iff S.toNat M.toNat (by omega) (by omega)
  rw [hSq, hMq] at key
  rw [key]
  have e1 : ((a2 : ℚ) - (a1 : ℚ)) ^ 2 + ((b2 : ℚ) - (b1 : ℚ)) ^ 2 = (S : ℚ) := by
    rw [← hSe]
    push_cast
    ring
  have e2 : ((c1 : ℚ) + (c2 : ℚ) + (g : ℚ)) ^ 2 = (M : ℚ) * (M : ℚ) := by
    rw [← hMe]
    push_cast
    ring
  rw [e1, e2]
  constructor
  · intro h
    have : (S.toNat : ℤ) < (M.toNat : ℤ) * (M.toNat : ℤ) := by exact_mod_cast h
    rw [hSn, hMn] at this
    exact_mod_cast this
  · intro h
    have h' : S < M * M := by exact_mod_cast h
    rw [← hSn, ← hMn] at h'
    exact_mod_cast h'

/-- C25 as stated fails. The number `4 - 2 ^ (-51)` is a double (it prints as
`3.9999999999999996`). For the circles of radius 2 at (0, 0) and (3, 4 - 2 ^ (-51)) with the
gap 1, the squared distance is below 25, the square of `2 + 2 + 1`, while the distance the code
computes is rounded to 5 and `5 < 5` is false. -/
theorem checkCollision_rounds :
    Binary64.round (4 - 1 / 2 ^ 51) = 4 - 1 / 2 ^ 51 ∧
    (0 : ℚ) ≤ 2 + 2 + 1 ∧
    ((3 : ℚ) - 0) ^ 2 + ((4 - 1 / 2 ^ 51 : ℚ) - 0) ^ 2 < ((2 : ℚ) + 2 + 1) ^ 2 ∧
    Binary64.sqrt (Binary64.add (Binary64.mul 3 3)
      (Binary64.mul (4 - 1 / 2 ^ 51) (4 - 1 / 2 ^ 51))) = 5 ∧
    checkCollision 0 0 2 3 (4 - 1 / 2 ^ 51) 2 1 = false := by
  refine ⟨by decide!, by norm_num, by norm_num, by decide!, by decide!⟩

/-- C25, amended. `checkCollision` returns `true` exactly when the distance
`sqrt(dx * dx + dy * dy)` is below `r1 + r2 + minGap`, both computed in double arithmetic (the
differences, the products, the sums and the square root are each rounded to the nearest
double). Its result is unchanged when the two circles are swapped. On integer arguments up to
`2 ^ 24` in absolute value with `r1 + r2 + minGap >= 0` the arithmetic is exact, and the result
is `true` exactly when `(x2 - x1)^2 + (y2 - y1)^2 < (r1 + r2 + minGap)^2`. -/
theorem checkCollision_overlap (x1 y1 r1 x2 y2 r2 minGap : ℚ) :
    (checkCollision x1 y1 r1 x2 y2 r2 minGap = true ↔
      Binary64.sqrt (Binary64.add
          (Binary64.mul (Binary64.sub x2 x1) (Binary64.sub x2 x1))
          (Binary64.mul (Binary64.sub y2 y1) (Binary64.sub y2 y1))) <
        Binary64.add (Binary64.add r1 r2) minGap) ∧
    checkCollision x2 y2 r2 x1 y1 r1 minGap = checkCollision x1 y1 r1 x2 y2 r2 minGap ∧
    (∀ a1 b1 c1 a2 b2 c2 g : ℤ,
      x1 = (a1 : ℚ) → y1 = (b1 : ℚ) → r1 = (c1 : ℚ) → x2 = (a2 : ℚ) → y2 = (b2 : ℚ) →
      r2 = (c2 : ℚ) → minGap = (g : ℚ) →
      |a1| ≤ 2 ^ 24 → |b1| ≤ 2 ^ 24 → |c1| ≤ 2 ^ 24 → |a2| ≤ 2 ^ 24 → |b2| ≤ 2 ^ 24 →
      |c2| ≤ 2 ^ 24 → |g| ≤ 2 ^ 24 → 0 ≤ r1 + r2 + minGap →
      (checkCollision x1 y1 r1 x2 y2 r2 minGap = true ↔
        (x2 - x1) ^ 2 + (y2 - y1) ^ 2 < (r1 + r2 + minGap) ^ 2)) := by
  refine ⟨?_, checkCollision_swap x1 y1 r1 x2 y2 r2 minGap, ?_⟩
  · unfold checkCollision
    dsimp only
    rw [decide_eq_true_eq]
  · intro a1 b1 c1 a2 b2 c2 g h1 h2 h3 h4 h5 h6 h7 ha1 hb1 hc1 ha2 hb2 hc2 hg hsum
    subst h1 h2 h3 h4 h5 h6 h7
    have hsum' : 0 ≤ c1 + c2 + g := by exact_mod_cast hsum
    exact checkCollision_int a1 b1 c1 a2 b2 c2 g ha1 hb1 hc1 ha2 hb2 hc2 hg hsum'

/-- C25 for two circles of radius 1 whose centres are 3 apart, with the gap 2. -/
theorem checkCollision_overlap_witness :
    checkCollision 0 0 1 3 0 1 2 = true ∧
    checkCollision 3 0 1 0 0 1 2 = checkCollision 0 0 1 3 0 1 2 :=
  ⟨((checkCollision_overlap 0 0 1 3 0 1 2).2.2 0 0 1 3 0 1 2 (by norm_num) (by norm_num)
      (by norm_num) (by norm_num) (by norm_num) (by norm_num) (by norm_num) (by norm_num)
      (by norm_num) (by norm_num) (by norm_num) (by norm_num) (by norm_num) (by norm_num)
      (by norm_num)).mpr (by norm_num),
    (checkCollision_overlap 0 0 1 3 0 1 2).2.1⟩

end InterestGalaxy

namespace SkillsRenderer

theorem appendTimes_eq (n : ℤ) (piece html : List Char) :
    appendTimes n piece html = html ++ (List.replicate n.toNat piece).flatten := by
  unfold appendTimes
  generalize n.toNat = m
  induction m generalizing html with
  | zero => simp
  | succ m ih =>
    rw [List.range_succ, List.foldl_append, ih]
    simp [List.replicate_succ', List.flatten_append]

/-- C20. For every rating `r` among 0, 0.5, 1, ..., 5 (written `k / 2` with `k` from 0 to 10),
`generateStars(r)` is the text of `floor(r)` full stars, then one half star exactly when `r` is
not an integer, then `5 - ceil(r)` empty stars, in this order; these are five icons. -/
theorem generateStars_five_icons (k : ℕ) (hk : k ≤ 10) :
    generateStars ((k : ℚ) / 2) =
      (List.replicate (⌊(k : ℚ) / 2⌋).toNat fullStar ++
        (if ((⌊(k : ℚ) / 2⌋ : ℤ) : ℚ) = (k : ℚ) / 2 then [] else [halfStar]) ++
        List.replicate (5 - ⌈(k : ℚ) / 2⌉).toNat emptyStar).flatten ∧
    (⌊(k : ℚ) / 2⌋).toNat + (if ((⌊(k : ℚ) / 2⌋ : ℤ) : ℚ) = (k : ℚ) / 2 then 0 else 1) +
      (5 - ⌈(k : ℚ) / 2⌉).toNat = 5 := by
  interval_cases k <;> decide!

/-- C20 at the rating 3.5. -/
theorem generateStars_five_icons_witness :
    7 ≤ 10 ∧
    (generateStars (((7 : ℕ) : ℚ) / 2) =
      (List.replicate (⌊((7 : ℕ) : ℚ) / 2⌋).toNat fullStar ++
        (if ((⌊((7 : ℕ) : ℚ) / 2⌋ : ℤ) : ℚ) = ((7 : ℕ) : ℚ) / 2 then [] else [halfStar]) ++
        List.replicate (5 - ⌈((7 : ℕ) : ℚ) / 2⌉).toNat emptyStar).flatten ∧
    (⌊((7 : ℕ) : ℚ) / 2⌋).toNat +
      (if ((⌊((7 : ℕ) : ℚ) / 2⌋ : ℤ) : ℚ) = ((7 : ℕ) : ℚ) / 2 then 0 else 1) +
      (5 - ⌈((7 : ℕ) : ℚ) / 2⌉).toNat = 5) :=
  ⟨by decide, generateStars_five_icons 7 (by decide)⟩

end SkillsRenderer

namespace JourneyMap

open CheddarConsole (Str)

/-! ## Lemmas: the step index -/

theorem scrollProgress_unit {top sh vh p : ℚ} (h : scrollProgress top sh vh = some p) :
    0 ≤ p ∧ p ≤ 1 := by
  unfold scrollProgress at h
  have key : ∀ x : ℚ, 0 ≤ max 0 (min 1 x) ∧ max 0 (min 1 x) ≤ 1 := fun x =>
    ⟨le_max_left _ _, max_le (by norm_num) (min_le_left _ _)⟩
  dsimp only at h
  split_ifs at h <;>
    (injection h with h
     subst h
     exact key _)

theorem handleScroll_unit {top bottom sh vh p : ℚ} (h : handleScroll top bottom sh vh = some p) :
    0 < p ∧ p ≤ 1 := by
  unfold handleScroll at h
  dsimp only at h
  split at h
  · rename_i q hq
    split at h
    · rename_i hc
      injection h with h
      subst h
      simp only [Bool.and_eq_true, decide_eq_true_eq] at hc
      exact ⟨hc.2, (scrollProgress_unit hq).2⟩
    · exact absurd h (by simp)
  · exact absurd h (by simp)

theorem floor_mul_pred_range (n : ℕ) (hn : 1 ≤ n) (p : ℚ) (h0 : 0 ≤ p) (h1 : p ≤ 1) :
    0 ≤ ⌊p * ((n : ℚ) - 1)⌋ ∧ ⌊p * ((n : ℚ) - 1)⌋ ≤ (n : ℤ) - 1 := by
  have hn' : (0 : ℚ) ≤ (n : ℚ) - 1 := by
    have : (1 : ℚ) ≤ (n : ℚ) := by exact_mod_cast hn
    linarith
  constructor
  · exact Int.floor_nonneg.mpr (mul_nonneg h0 hn')
  · have hle : p * ((n : ℚ) - 1) ≤ (((n : ℤ) - 1 : ℤ) : ℚ) := by
      push_cast
      calc p * ((n : ℚ) - 1) ≤ 1 * ((n : ℚ) - 1) := mul_le_mul_of_nonneg_right h1 hn'
        _ = (n : ℚ) - 1 := one_mul _
    exact Int.floor_le_iff.mpr (lt_of_le_of_lt hle (by linarith))

theorem journeyAt_of_valid {journey : List Step} {i : ℤ} (h0 : 0 ≤ i)
    (h1 : i ≤ (journey.length : ℤ) - 1) : ∃ step, journeyAt journey i = some step := by
  unfold journeyAt
  rw [if_pos h0]
  have hlt : i.toNat < journey.length := by omega
  exact ⟨journey[i.toNat], List.getElem?_eq_getElem hlt⟩

/-- C26. For every journey with at least one step and every progress `p` with `0 <= p <= 1`:
the step index `floor(p * (totalSteps - 1))` lies between 0 and `totalSteps - 1`, the fractional
step progress lies in `[0, 1)`, `updateJourney` finds its current step (it does not take the
early return) and that step is the entry of the journey at the step index, and
`updateVehiclePosition`, called with the same step value, finds the same entry. Every progress
that `handleScroll` passes to `updateJourney` satisfies `0 < p <= 1`. -/
theorem step_index_in_range (journey : List Step) (p : ℚ) (hsteps : 1 ≤ journey.length)
    (h0 : 0 ≤ p) (h1 : p ≤ 1) :
    (0 ≤ currentStepIndex journey p ∧ currentStepIndex journey p ≤ (journey.length : ℤ) - 1) ∧
    (0 ≤ stepProgress journey p ∧ stepProgress journey p < 1) ∧
    (∃ u step, updateJourney journey p = some u ∧
      journey[(currentStepIndex journey p).toNat]? = some step ∧
      u.currentStep = step ∧ u.currentStepIndex = currentStepIndex journey p ∧
      u.stepProgress = stepProgress journey p ∧
      ∃ v, u.vehicle = some v ∧ v.currentStep = step ∧
        v.stepIndex = currentStepIndex journey p ∧ v.stepProgress = stepProgress journey p) ∧
    (∀ top bottom sectionHeight viewportHeight q,
      handleScroll top bottom sectionHeight viewportHeight = some q → 0 < q ∧ q ≤ 1) := by
  have hidx : 0 ≤ currentStepIndex journey p ∧
      currentStepIndex journey p ≤ (journey.length : ℤ) - 1 :=
    floor_mul_pred_range journey.length hsteps p h0 h1
  refine ⟨hidx, ⟨?_, ?_⟩, ?_, fun top bottom sh vh q h => handleScroll_unit h⟩
  · unfold stepProgress currentStepIndex
    exact sub_nonneg.mpr (Int.floor_le _)
  · unfold stepProgress currentStepIndex
    have := Int.lt_floor_add_one (currentStepFloat journey p)
    linarith
  · obtain ⟨step, hstep⟩ := journeyAt_of_valid hidx.1 hidx.2
    have hget : journey[(currentStepIndex journey p).toNat]? = some step := by
      unfold journeyAt at hstep
      rwa [if_pos hidx.1] at hstep
    have hveh : journeyAt journey ⌊currentStepFloat journey p⌋ = some step := hstep
    cases hu : updateJourney journey p with
    | none =>
      unfold updateJourney at hu
      rw [hstep] at hu
      exact absurd hu (by simp)
    | some u =>
      unfold updateJourney at hu
      rw [hstep] at hu
      injection hu with hu
      subst hu
      refine ⟨_, step, rfl, hget, rfl, rfl, rfl, ?_⟩
      unfold updateVehiclePosition
      dsimp only
      rw [hveh]
      exact ⟨_, rfl, rfl, rfl, rfl⟩

/-- C26 on a journey of three steps at the progress one half. -/
theorem step_index_in_range_witness :
    currentStepIndex
      [{ type := "job".toList, title := "a".toList, company := none },
        { type := "transit".toList, title := "b".toList, company := none },
        { type := "job".toList, title := "c".toList, company := none }] (1 / 2) ≤ ((3 : ℕ) : ℤ) - 1 :=
  (step_index_in_range
      [{ type := "job".toList, title := "a".toList, company := none },
        { type := "transit".toList, title := "b".toList, company := none },
        { type := "job".toList, title := "c".toList, company := none }] (1 / 2)
      (by decide) (by norm_num) (by norm_num)).1.2

end JourneyMap

namespace Script

open CheddarConsole (Str Storage getItem setItem isWhiteSpace)

/-! ## Lemmas: the background index -/

theorem restoreIndex_valid (sessionStorage : Storage) :
    ValidIndex (restoreIndex sessionStorage) ∨ restoreIndex sessionStorage = none := by
  unfold restoreIndex
  dsimp only
  split
  · rename_i i hi
    left
    split
    · exact ⟨1, rfl, by decide, by decide⟩
    · rename_i hguard
      rw [not_or, not_lt, not_le] at hguard
      exact ⟨i, rfl, hguard.1, hguard.2⟩
  · right
    rfl

theorem click_valid {c : Cycler} (h : ValidIndex c.currentIndex) :
    ValidIndex (click c).1.currentIndex ∧ ∃ b, (click c).2 = some b := by
  obtain ⟨k, hk, h0, h5⟩ := h
  have hlen : (backgrounds.length : ℤ) = 5 := by decide
  rw [hlen] at h5
  have hmod : Int.tmod (k + 1) 5 = (k + 1) % 5 := Int.tmod_eq_emod (by omega) (by decide)
  have hk0 : 0 ≤ (k + 1) % 5 := Int.emod_nonneg _ (by decide)
  have hk5 : (k + 1) % 5 < 5 := Int.emod_lt_of_pos _ (by decide)
  unfold click
  dsimp only
  rw [hk, hlen]
  simp only [Option.map_some', hmod]
  refine ⟨⟨_, rfl, hk0, by rw [hlen]; exact hk5⟩, ?_⟩
  unfold backgroundAt
  dsimp only
  rw [if_pos hk0]
  have hlt : ((k + 1) % 5).toNat < backgrounds.length := by
    have : backgrounds.length = 5 := by decide
    omega
  exact ⟨backgrounds[((k + 1) % 5).toNat], List.getElem?_eq_getElem hlt⟩

theorem clicks_valid (n : ℕ) {c : Cycler} (h : ValidIndex c.currentIndex) :
    ValidIndex (clicks n c).currentIndex := by
  induction n generalizing c with
  | zero => exact h
  | succ n ih => exact ih (click_valid h).1

/-- When the stored value is absent or `parseInt` reads a number from it, the restored index is
an integer from 0 to 4, and it stays one after any number of clicks. -/
theorem numeric_index_valid (sessionStorage : Storage) (n : ℕ)
    (h : restoreIndex sessionStorage ≠ none) :
    ValidIndex (clicks n (applyJumbotronCycler sessionStorage)).currentIndex := by
  apply clicks_valid
  rcases restoreIndex_valid sessionStorage with hv | hv
  · exact hv
  · exact absurd hv h

/-- C23 fails on the code. With the text `abc` stored under `jumbotronBgIndex`, `parseInt`
returns `NaN`, both comparisons of the guard under the comment `Ensure index is valid` are
false, and the starting index is `NaN`, not an integer from 0 to 4. The first click keeps the
index `NaN`, stores the text `NaN`, and reads `backgrounds[NaN]`, which is `undefined`. -/
theorem nonNumeric_index_is_NaN :
    (applyJumbotronCycler [(indexKey, "abc".toList)]).currentIndex = none ∧
    ¬ ValidIndex (applyJumbotronCycler [(indexKey, "abc".toList)]).currentIndex ∧
    (click (applyJumbotronCycler [(indexKey, "abc".toList)])).1.currentIndex = none ∧
    (click (applyJumbotronCycler [(indexKey, "abc".toList)])).2 = none ∧
    getItem (click (applyJumbotronCycler [(indexKey, "abc".toList)])).1.sessionStorage indexKey =
      some "NaN".toList := by
  have h : (applyJumbotronCycler [(indexKey, "abc".toList)]).currentIndex = none := by decide
  refine ⟨h, ?_, by decide, by decide, by decide⟩
  rintro ⟨k, hk, -⟩
  rw [h] at hk
  exact absurd hk (by simp)

end Script

namespace SkillsRenderer

open CheddarConsole (Str)

/-! ## Lemmas: from stars to percentages -/

/-- C22. For every rating `r` among 0, 0.5, 1, ..., 5 (written `k / 2` with `k` from 0 to 10),
the percentage `getPercent` computes from the `i` elements of the text `generateStars(r)`, and
from the `i` elements of the element `.ability-score` that `renderSkillItem` writes around that
text, is `20 * r`. -/
theorem getPercent_generateStars (k : ℕ) (hk : k ≤ 10) :
    ((getPercent (icons (generateStars ((k : ℚ) / 2))) : ℤ) : ℚ) = 20 * ((k : ℚ) / 2) ∧
    ((getPercent (icons (abilityScore ((k : ℚ) / 2))) : ℤ) : ℚ) = 20 * ((k : ℚ) / 2) := by
  interval_cases k <;> decide!

/-- C22 at the rating 3.5, which gives 70 percent. -/
theorem getPercent_generateStars_witness :
    ((getPercent (icons (generateStars (((7 : ℕ) : ℚ) / 2))) : ℤ) : ℚ) = 20 * (((7 : ℕ) : ℚ) / 2) :=
  (getPercent_generateStars 7 (by decide)).1

/-! ## Lemmas: the Konami buffer -/

theorem drop_append_singleton_last (ks : List Str) (k : Str) (m : ℕ) :
    ((ks.drop (ks.length - m) ++ [k]).drop ((ks.drop (ks.length - m) ++ [k]).length - m)) =
      (ks ++ [k]).drop ((ks ++ [k]).length - m) := by
  simp only [List.length_append, List.length_drop, List.length_singleton]
  by_cases h : ks.length < m
  · have e1 : ks.length - m = 0 := by omega
    rw [e1, List.drop_zero]
    simp only [Nat.sub_zero]
  · have hle : m ≤ ks.length := not_lt.mp h
    have e1 : ks.length - (ks.length - m) + 1 - m = 1 := by omega
    have e2 : ks.length + 1 - m = (ks.length - m) + 1 := by omega
    rw [e1, e2, List.drop_append_eq_append_drop, List.drop_append_eq_append_drop, List.drop_drop,
      List.length_drop]
    have e3 : 1 - (ks.length - (ks.length - m)) = ks.length - m + 1 - ks.length := by omega
    rw [e3]

theorem keydowns_append (keys : List Str) (key : Str) :
    keydowns (keys ++ [key]) = (keydown (keydowns keys) key).1 := by
  unfold keydowns
  rw [List.foldl_append]
  rfl

theorem keydowns_eq (keys : List Str) : keydowns keys = keys.drop (keys.length - 10) := by
  induction keys using List.reverseRecOn with
  | nil => rfl
  | append_singleton ks k ih =>
    rw [keydowns_append]
    unfold keydown
    dsimp only
    rw [ih]
    exact drop_append_singleton_last ks k 10

theorem append_comma_inj {x y s t : Str} (hx : ',' ∉ x) (hy : ',' ∉ y)
    (h : x ++ ',' :: s = y ++ ',' :: t) : x = y ∧ s = t := by
  induction x generalizing y with
  | nil =>
    cases y with
    | nil =>
      simp only [List.nil_append, List.cons.injEq, true_and] at h
      exact ⟨rfl, h⟩
    | cons b y =>
      simp only [List.nil_append, List.cons_append, List.cons.injEq] at h
      exact absurd (h.1 ▸ List.mem_cons_self _ _) hy
  | cons a x ih =>
    cases y with
    | nil =>
      simp only [List.nil_append, List.cons_append, List.cons.injEq] at h
      exact absurd (h.1 ▸ List.mem_cons_self _ _) hx
    | cons b y =>
      simp only [List.cons_append, List.cons.injEq] at h
      obtain ⟨hab, hrest⟩ := h
      obtain ⟨hxy, hst⟩ := ih (fun hm => hx (List.mem_cons_of_mem _ hm))
        (fun hm => hy (List.mem_cons_of_mem _ hm)) hrest
      exact ⟨by rw [hab, hxy], hst⟩

theorem joinComma_inj : ∀ (a b : List Str), (∀ x ∈ a, ',' ∉ x) → (∀ x ∈ b, ',' ∉ x) →
    a ≠ [] → b ≠ [] → joinComma a = joinComma b → a = b
  | [], _, _, _, ha, _, _ => absurd rfl ha
  | _ :: _, [], _, _, _, hb, _ => absurd rfl hb
  | [x], [y], _, _, _, _, h => by
    simp only [joinComma] at h
    rw [h]
  | [x], y :: y2 :: r, hx, _, _, _, h => by
    simp only [joinComma] at h
    exact absurd (h ▸ List.mem_append_right y (List.mem_cons_self _ _))
      (hx x (List.mem_singleton_self x))
  | x :: x2 :: r, [y], _, hy, _, _, h => by
    simp only [joinComma] at h
    exact absurd (h ▸ List.mem_append_right x (List.mem_cons_self _ _))
      (hy y (List.mem_singleton_self y))
  | x :: x2 :: r, y :: y2 :: q, hx, hy, _, _, h => by
    simp only [joinComma] at h
    obtain ⟨hxy, hrest⟩ := append_comma_inj (hx x (List.mem_cons_self _ _))
      (hy y (List.mem_cons_self _ _)) h
    have := joinComma_inj (x2 :: r) (y2 :: q) (fun z hz => hx z (List.mem_cons_of_mem _ hz))
      (fun z hz => hy z (List.mem_cons_of_mem _ hz)) (by simp) (by simp) hrest
    rw [hxy, this]

theorem konamiPattern_comma_free : ∀ x ∈ konamiPattern, ',' ∉ x := by decide

theorem joinComma_eq_pattern {buf : List Str} (hbuf : ∀ x ∈ buf, ',' ∉ x) :
    joinComma buf = joinComma konamiPattern ↔ buf = konamiPattern := by
  constructor
  · intro h
    have hne : buf ≠ [] := by
      rintro rfl
      revert h
      decide
    exact joinComma_inj buf konamiPattern hbuf konamiPattern_comma_free hne (by decide) h
  · intro h
    rw [h]

/-- C27. For every sequence of key names none of which contains a comma, pressed since the page
was loaded: after the last key press the buffer `konamiCode` is the sequence of the last
`min(n, 10)` keys pressed, where `n` counts all presses, and `activateGodMode` is called on
that key press exactly when at least ten keys were pressed and the last ten are, in order,
ArrowUp, ArrowUp, ArrowDown, ArrowDown, ArrowLeft, ArrowRight, ArrowLeft, ArrowRight, b, a. -/
theorem konami_detection (keys : List Str) (key : Str)
    (hcomma : ∀ k ∈ keys ++ [key], ',' ∉ k) :
    (keydown (keydowns keys) key).1 =
      (keys ++ [key]).drop ((keys ++ [key]).length - min (keys ++ [key]).length 10) ∧
    (keydown (keydowns keys) key).1.length = min (keys ++ [key]).length 10 ∧
    ((keydown (keydowns keys) key).2 = true ↔
      10 ≤ (keys ++ [key]).length ∧
      (keys ++ [key]).drop ((keys ++ [key]).length - 10) =
        [ "ArrowUp".toList, "ArrowUp".toList, "ArrowDown".toList, "ArrowDown".toList,
          "ArrowLeft".toList, "ArrowRight".toList, "ArrowLeft".toList, "ArrowRight".toList,
          "b".toList, "a".toList ]) := by
  have hbuf : (keydown (keydowns keys) key).1 = (keys ++ [key]).drop ((keys ++ [key]).length - 10) := by
    rw [← keydowns_append, keydowns_eq]
  have hmin : (keys ++ [key]).length - min (keys ++ [key]).length 10 =
      (keys ++ [key]).length - 10 := by omega
  refine ⟨by rw [hbuf, hmin], ?_, ?_⟩
  · rw [hbuf, List.length_drop]
    omega
  · have hact : (keydown (keydowns keys) key).2 =
        decide (joinComma (keydown (keydowns keys) key).1 = joinComma konamiPattern) := rfl
    rw [hact, decide_eq_true_eq, hbuf, joinComma_eq_pattern
      (fun x hx => hcomma x (List.mem_of_mem_drop hx))]
    constructor
    · intro h
      refine ⟨?_, h⟩
      have hl := congrArg List.length h
      rw [List.length_drop] at hl
      have : konamiPattern.length = 10 := rfl
      omega
    · exact fun h => h.2

/-- C27 at the ten keys of the pattern pressed after the key `x`. -/
theorem konami_detection_witness :
    (∀ k ∈ ("x".toList :: konamiPattern.take 9) ++ ["a".toList], ',' ∉ k) ∧
    (keydown (keydowns ("x".toList :: konamiPattern.take 9)) "a".toList).2 = true :=
  ⟨by decide,
    ((konami_detection ("x".toList :: konamiPattern.take 9) "a".toList (by decide)).2.2).mpr
      ⟨by decide, by decide⟩⟩

/-! ## Lemmas: level-up clicks -/

theorem parseInt_percent (n : ℤ) (h0 : 10 ≤ n) (h1 : n ≤ 100) :
    Script.parseInt (Script.numberToString (some n) ++ "%".toList) = some n := by
  interval_cases n <;> decide

theorem currentFill_percent (n : ℤ) (h0 : 10 ≤ n) (h1 : n ≤ 100) :
    currentFill (Script.numberToString (some n) ++ "%".toList)
      (Script.numberToString (some n) ++ "%".toList) = some n := by
  unfold currentFill
  rw [parseInt_percent n h0 h1]
  unfold numberOr
  have hn : n ≠ 0 := by omega
  simp only [hn, if_false]

theorem prestigeLevel_congr {item item2 : SkillItem} (h : item2.prestige = item.prestige) :
    prestigeLevel item2 = prestigeLevel item := by
  unfold prestigeLevel
  rw [h]

theorem prestigeLevel_written (item : SkillItem) (p : ℤ) (h0 : 1 ≤ p) (h1 : p ≤ 5)
    (stars : Option Str) :
    prestigeLevel { item with prestige := some (Script.numberToString (some p)),
                              prestigeStars := stars } = some p := by
  unfold prestigeLevel
  dsimp only
  interval_cases p <;> rfl

theorem levelUpSkill_celebrating (item : SkillItem)
    (h : item.celebrating = some "true".toList) : levelUpSkill item = item := by
  unfold levelUpSkill
  split
  · rw [if_pos h]
  · rfl

theorem levelUpSkill_maxed {item : SkillItem} {bar pct : Str} {fill prestige : ℤ}
    (hbar : item.bar = some bar) (hpct : item.pct = some pct)
    (hcel : item.celebrating ≠ some "true".toList)
    (hfill : currentFill bar pct = some fill) (hprestige : prestigeLevel item = some prestige)
    (h100 : 100 ≤ fill) :
    levelUpSkill item = if prestige < 5 then addPrestigeStar item else item := by
  unfold levelUpSkill
  rw [hbar, hpct]
  simp only [hcel, if_false, hfill, hprestige, ge_iff_le, h100, decide_True, if_true]
  by_cases hp : prestige < 5
  · simp only [hp, decide_True, if_true]
  · simp only [hp, decide_False, if_false, Bool.false_eq_true]

theorem levelUpSkill_fill {item : SkillItem} {bar pct : Str} {fill : ℤ}
    (hbar : item.bar = some bar) (hpct : item.pct = some pct)
    (hcel : item.celebrating ≠ some "true".toList)
    (hfill : currentFill bar pct = some fill) (h100 : fill < 100) :
    levelUpSkill item =
      { item with
        bar := some (Script.numberToString (some (min 100 (fill + 10))) ++ "%".toList),
        pct := some (Script.numberToString (some (min 100 (fill + 10))) ++ "%".toList),
        celebrating := if min 100 (fill + 10) = 100 then some "true".toList
          else item.celebrating } := by
  have hn : ¬ (100 ≤ fill) := not_le.mpr h100
  unfold levelUpSkill
  rw [hbar, hpct]
  simp only [hcel, if_false, hfill, ge_iff_le, hn, decide_False, Bool.false_eq_true,
    Option.map_some', Option.some.injEq]
  split <;> rfl

theorem addPrestigeStar_of_level {item : SkillItem} {prestige : ℤ}
    (h : prestigeLevel item = some prestige) :
    ∃ stars, addPrestigeStar item =
      { item with
        prestige := some (Script.numberToString (some (min 5 (prestige + 1)))),
        prestigeStars := stars } := by
  unfold addPrestigeStar
  rw [h]
  exact ⟨_, rfl⟩

theorem levelUpSkill_reads {item : SkillItem} {fill prestige : ℤ} {celebrating : Bool}
    (h : Reads item fill prestige celebrating) (hf0 : 0 ≤ fill) (hf : fill ≤ 100)
    (hp0 : 0 ≤ prestige) (hp : prestige ≤ 5) :
    (celebrating = true → levelUpSkill item = item) ∧
    (celebrating = false → fill < 100 →
      Reads (levelUpSkill item) (min 100 (fill + 10)) prestige
        (decide (min 100 (fill + 10) = 100))) ∧
    (celebrating = false → 100 ≤ fill →
      Reads (levelUpSkill item) fill (if prestige < 5 then prestige + 1 else prestige) false) := by
  obtain ⟨⟨bar, pct, hbar, hpct, hfill⟩, hprestige, hcel⟩ := h
  refine ⟨fun hc => levelUpSkill_celebrating item (hcel.mp hc), ?_, ?_⟩
  · intro hc h100
    have hnc : item.celebrating ≠ some "true".toList := by
      intro hx
      have := hcel.mpr hx
      rw [hc] at this
      exact absurd this (by decide)
    rw [levelUpSkill_fill hbar hpct hnc hfill h100]
    have hn0 : 10 ≤ min 100 (fill + 10) := by
      rw [le_min_iff]
      omega
    have hn1 : min 100 (fill + 10) ≤ 100 := min_le_left _ _
    refine ⟨⟨_, _, rfl, rfl, currentFill_percent _ hn0 hn1⟩, ?_, ?_⟩
    · rw [← hprestige]
      exact prestigeLevel_congr rfl
    · dsimp only
      by_cases hm : min 100 (fill + 10) = 100
      · simp only [hm, if_true, decide_True]
      · simp only [hm, if_false, decide_False, Bool.false_eq_true, false_iff]
        exact hnc
  · intro hc h100
    have hnc : item.celebrating ≠ some "true".toList := by
      intro hx
      have := hcel.mpr hx
      rw [hc] at this
      exact absurd this (by decide)
    rw [levelUpSkill_maxed hbar hpct hnc hfill hprestige h100]
    by_cases hlt : prestige < 5
    · obtain ⟨stars, hstars⟩ := addPrestigeStar_of_level hprestige
      rw [if_pos hlt, if_pos hlt, hstars]
      have hmin : min 5 (prestige + 1) = prestige + 1 := min_eq_right (by omega)
      rw [hmin]
      refine ⟨⟨bar, pct, hbar, hpct, hfill⟩, prestigeLevel_written item _ (by omega) (by omega) _,
        ?_⟩
      simp only [Bool.false_eq_true, false_iff]
      exact hnc
    · rw [if_neg hlt, if_neg hlt]
      refine ⟨⟨bar, pct, hbar, hpct, hfill⟩, hprestige, ?_⟩
      simp only [Bool.false_eq_true, false_iff]
      exact hnc

/-- The fill read from the item is between 0 and 100 and the prestige level between 0 and 5. -/
theorem skillStep_bounded {item : SkillItem}
    (h : ∃ f p c, Reads item f p c ∧ 0 ≤ f ∧ f ≤ 100 ∧ 0 ≤ p ∧ p ≤ 5) (e : SkillEvent) :
    ∃ f p c, Reads (skillStep item e) f p c ∧ 0 ≤ f ∧ f ≤ 100 ∧ 0 ≤ p ∧ p ≤ 5 := by
  obtain ⟨f, p, c, hr, hf0, hf, hp0, hp⟩ := h
  cases e with
  | celebrationEnds =>
    obtain ⟨hfill, hprestige, -⟩ := hr
    refine ⟨f, p, false, ⟨hfill, hprestige, ?_⟩, hf0, hf, hp0, hp⟩
    simp only [Bool.false_eq_true, false_iff]
    show some "false".toList ≠ some "true".toList
    decide
  | click =>
    obtain ⟨h1, h2, h3⟩ := levelUpSkill_reads hr hf0 hf hp0 hp
    show ∃ f p c, Reads (levelUpSkill item) f p c ∧ 0 ≤ f ∧ f ≤ 100 ∧ 0 ≤ p ∧ p ≤ 5
    cases c with
    | true =>
      rw [h1 rfl]
      exact ⟨f, p, true, hr, hf0, hf, hp0, hp⟩
    | false =>
      by_cases h100 : f < 100
      · refine ⟨_, p, _, h2 rfl h100, ?_, min_le_left _ _, hp0, hp⟩
        rw [le_min_iff]
        omega
      · refine ⟨f, _, false, h3 rfl (not_lt.mp h100), hf0, hf, ?_, ?_⟩
        · split <;> omega
        · split <;> omega

theorem skillSteps_bounded (events : List SkillEvent) {item : SkillItem}
    (h : ∃ f p c, Reads item f p c ∧ 0 ≤ f ∧ f ≤ 100 ∧ 0 ≤ p ∧ p ≤ 5) :
    ∃ f p c, Reads (events.foldl skillStep item) f p c ∧ 0 ≤ f ∧ f ≤ 100 ∧ 0 ≤ p ∧ p ≤ 5 := by
  induction events generalizing item with
  | nil => exact h
  | cons e rest ih => exact ih (skillStep_bounded h e)

/-- C24. Let a skill item be read by `levelUpSkill` as the fill `fill`, the prestige level
`prestige` and the flag `celebrating`, with `0 <= fill <= 100` and `0 <= prestige <= 5`. After
any sequence of clicks handled by `levelUpSkill` and of celebration timers, the item is again
read with a fill between 0 and 100 and a prestige level between 0 and 5. A click while
celebrating changes nothing. A click that is not celebrating with `fill < 100` sets the fill to
`min(100, fill + 10)` and keeps the prestige level, and starts a celebration exactly when the
new fill is 100. A click that is not celebrating with `fill >= 100` keeps the fill and raises the
prestige level by exactly 1 if it is below 5 and keeps it otherwise. -/
theorem skill_level_invariant (item : SkillItem) (fill prestige : ℤ) (celebrating : Bool)
    (events : List SkillEvent) (h : Reads item fill prestige celebrating)
    (hfill : 0 ≤ fill ∧ fill ≤ 100) (hprestige : 0 ≤ prestige ∧ prestige ≤ 5) :
    (∃ f p c, Reads (events.foldl skillStep item) f p c ∧ 0 ≤ f ∧ f ≤ 100 ∧ 0 ≤ p ∧ p ≤ 5) ∧
    (celebrating = true → levelUpSkill item = item) ∧
    (celebrating = false → fill < 100 →
      Reads (levelUpSkill item) (min 100 (fill + 10)) prestige
        (decide (min 100 (fill + 10) = 100))) ∧
    (celebrating = false → 100 ≤ fill →
      Reads (levelUpSkill item) fill (if prestige < 5 then prestige + 1 else prestige) false) :=
  ⟨skillSteps_bounded events
      ⟨fill, prestige, celebrating, h, hfill.1, hfill.2, hprestige.1, hprestige.2⟩,
    levelUpSkill_reads h hfill.1 hfill.2 hprestige.1 hprestige.2⟩

/-- C24 on an item at 95% without prestige: the click fills it to 100%. -/
theorem skill_level_invariant_witness :
    Reads (levelUpSkill almostFull) (min 100 (95 + 10)) 0
      (decide (min (100 : ℤ) (95 + 10) = 100)) :=
  (skill_level_invariant almostFull 95 0 false
    [SkillEvent.click, SkillEvent.celebrationEnds, SkillEvent.click]
    ⟨⟨"95%".toList, "95%".toList, rfl, rfl, by decide⟩, by decide, by decide⟩
    ⟨by decide, by decide⟩ ⟨by decide, by decide⟩).2.2.1 rfl (by decide)

end SkillsRenderer
